import Mathlib

/-!
# A 16-bit real-mode interpreter with an MS-DOS service layer

Shallow embedding of `src/C/msdos_improved.c`.

Conventions of the embedding.

* C unsigned integers are natural numbers; every store into a `uint32_t`
  register is reduced modulo `2^32` where the C arithmetic can overflow, and
  the masks of the source (`& 0xFFFF`, `& 0xFF00`, ...) are kept as written.
* Guest memory `unsigned char *mem` is a map from linear addresses to bytes.
  An access `mem[a]` is the lookup `mem a`; whether `a` lies inside the
  allocated array of `MEM_SIZE` bytes is the separate predicate `in_mem`.
  The slot arrays `fcbs[16]` and `fp[16]` are maps from indices in the same way.
* The host process environment the C code reaches through libc (stdout, the
  stdin pipe, the files of the working directory) is the record `host_env`,
  carried in the emulator state.
* A function that may fail to return (the `'$'` scan of service 09h, the
  stdin drain of service 0Ch, the re-entry of the service layer) takes a fuel
  argument and yields `none` when the fuel is spent; `none` is also the result
  of a libc call on a `NULL` stream, which C leaves undefined.
* Debug logging to stderr (`if (sys->debug) fprintf(stderr, ...)`) has no
  effect on the state and is left out.
-/

namespace MsDos

/-! ## Constants -/

def SEG_ENV : Nat := 0x1000
def SEG_PSP : Nat := 0x2000
def SEG_LOAD : Nat := 0x2010

def MEM_ENV : Nat := SEG_ENV * 16
def MEM_PSP : Nat := SEG_PSP * 16
def MEM_LOAD : Nat := SEG_LOAD * 16

/-- Size of the guest array allocated by `main`: `malloc(1024 * 1024)`. -/
def MEM_SIZE : Nat := 1024 * 1024

/-- An address that lies inside the allocated guest array. -/
def in_mem (a : Nat) : Prop := a < MEM_SIZE

instance (a : Nat) : Decidable (in_mem a) := by
  unfold in_mem; infer_instance

/-! ## CPU state -/

/-- The register file `x86_regs`: ten `uint32_t` slots and six `uint16_t`
segment registers. -/
structure x86_regs where
  eax : Nat
  ebx : Nat
  ecx : Nat
  edx : Nat
  esi : Nat
  edi : Nat
  ebp : Nat
  esp : Nat
  eip : Nat
  eflags : Nat
  cs : Nat
  ds : Nat
  es : Nat
  ss : Nat
  fs : Nat
  gs : Nat

/-- Every register holds a value of its C type. -/
def regs_ok (r : x86_regs) : Prop :=
  r.eax < 2 ^ 32 ∧ r.ebx < 2 ^ 32 ∧ r.ecx < 2 ^ 32 ∧ r.edx < 2 ^ 32 ∧
  r.esi < 2 ^ 32 ∧ r.edi < 2 ^ 32 ∧ r.ebp < 2 ^ 32 ∧ r.esp < 2 ^ 32 ∧
  r.eip < 2 ^ 32 ∧ r.eflags < 2 ^ 32 ∧
  r.cs < 2 ^ 16 ∧ r.ds < 2 ^ 16 ∧ r.es < 2 ^ 16 ∧ r.ss < 2 ^ 16 ∧
  r.fs < 2 ^ 16 ∧ r.gs < 2 ^ 16

/-- Every cell of guest memory holds an `unsigned char`. -/
def mem_ok (mem : Nat → Nat) : Prop := ∀ a, mem a < 256

/-! ## Guest memory accessors -/

/-- `get_word`: `mem[offset] | (mem[offset + 1] << 8)`, returned as `uint16_t`. -/
def get_word (mem : Nat → Nat) (offset : Nat) : Nat :=
  (mem offset ||| (mem (offset + 1) <<< 8)) % 65536

/-- `set_word`: low byte at `offset`, then high byte at `offset + 1`. -/
def set_word (mem : Nat → Nat) (offset : Nat) (value : Nat) : Nat → Nat :=
  let mem1 : Nat → Nat := fun a => if a = offset then value &&& 0xFF else mem a
  fun a => if a = offset + 1 then (value >>> 8) &&& 0xFF else mem1 a

/-- `get_dword`. -/
def get_dword (mem : Nat → Nat) (offset : Nat) : Nat :=
  (get_word mem offset ||| (get_word mem (offset + 2) <<< 16)) % 4294967296

/-- `set_dword`. -/
def set_dword (mem : Nat → Nat) (offset : Nat) (value : Nat) : Nat → Nat :=
  set_word (set_word mem offset (value &&& 0xFFFF)) (offset + 2) ((value >>> 16) &&& 0xFFFF)

/-- `seg_off_to_linear`: `((size_t)seg * 16) + off`. -/
def seg_off_to_linear (seg : Nat) (off : Nat) : Nat :=
  seg * 16 + off

/-! ## Host environment -/

/-- What one `read(0, ...)` on the stdin pipe yields: bytes (none of them at
end of file) or the error return `-1`. -/
inductive read_result where
  | data (bytes : List Nat)
  | failed

/-- The stdin pipe as a script: `idle` is a `poll` that finds nothing,
`ready r` is a pending read whose outcome is `r`. -/
inductive stdin_event where
  | idle
  | ready (r : read_result)

/-- A file of the host working directory. -/
structure host_file where
  data : List Nat
  readable : Bool
  writable : Bool

/-- An open stdio stream (`FILE *`): the file it names and its position. -/
structure FILE where
  name : List Nat
  pos : Nat

/-- The host process environment. `char_signed` is the signedness of plain
`char` on the host ABI. -/
structure host_env where
  stdout : List Nat
  stdin : List stdin_event
  files : List Nat → Option host_file
  may_create : List Nat → Bool
  char_signed : Bool

/-- `putchar(c)`: the byte `(unsigned char)c` is appended to stdout. -/
def host_putchar (h : host_env) (c : Nat) : host_env :=
  { h with stdout := h.stdout ++ [c % 256] }

/-- `poll(&pfd, 1, 0) > 0` on fd 0. -/
def host_poll (h : host_env) : Bool × host_env :=
  match h.stdin with
  | [] => (false, h)
  | stdin_event.idle :: rest => (false, { h with stdin := rest })
  | stdin_event.ready _ :: _ => (true, h)

/-- `read(0, buf, count)`: return value, bytes delivered, host afterwards.
Bytes beyond `count` stay in the pipe. -/
def host_read (h : host_env) (count : Nat) : Int × List Nat × host_env :=
  match h.stdin with
  | stdin_event.ready (read_result.data d) :: rest =>
      if d.length ≤ count then
        ((d.length : Int), d, { h with stdin := rest })
      else
        ((count : Int), d.take count,
          { h with stdin := stdin_event.ready (read_result.data (d.drop count)) :: rest })
  | stdin_event.ready read_result.failed :: rest => (-1, [], { h with stdin := rest })
  | _ => (-1, [], h)

/-- Replace the entry of one file name. -/
def set_file (files : List Nat → Option host_file) (name : List Nat) (f : host_file) :
    List Nat → Option host_file :=
  fun n => if n = name then some f else files n

/-- `fopen(name, "r+b")`. -/
def fopen_rplus (h : host_env) (name : List Nat) : Option FILE :=
  match h.files name with
  | some f => if f.readable && f.writable then some { name := name, pos := 0 } else none
  | none => none

/-- `fopen(name, "rb")`. -/
def fopen_r (h : host_env) (name : List Nat) : Option FILE :=
  match h.files name with
  | some f => if f.readable then some { name := name, pos := 0 } else none
  | none => none

/-- `fopen(name, "w+b")`: create or truncate. -/
def fopen_wplus (h : host_env) (name : List Nat) : Option FILE × host_env :=
  match h.files name with
  | some f =>
      if f.readable && f.writable then
        (some { name := name, pos := 0 },
          { h with files := set_file h.files name { f with data := [] } })
      else (none, h)
  | none =>
      if h.may_create name then
        (some { name := name, pos := 0 },
          { h with files := set_file h.files name { data := [], readable := true, writable := true } })
      else (none, h)

/-- `fread(dst, 1, n, fp)`: the bytes delivered and the stream afterwards. -/
def host_fread (h : host_env) (fp : FILE) (n : Nat) : List Nat × FILE :=
  match h.files fp.name with
  | some f =>
      let chunk := (f.data.drop fp.pos).take n
      (chunk, { fp with pos := fp.pos + chunk.length })
  | none => ([], fp)

/-- `st.st_size` after `fstat(fileno(fp), &st)`. -/
def host_fsize (h : host_env) (fp : FILE) : Nat :=
  match h.files fp.name with
  | some f => f.data.length
  | none => 0

/-! ## Emulator state -/

/-- The process-wide aggregate `system__s`, with the host environment. -/
structure system__s where
  regs : x86_regs
  mem : Nat → Nat
  fcbs : Nat → Option Nat
  fp : Nat → Option FILE
  dtaseg : Nat
  dtaoff : Nat
  input : Bool
  prompt : List Nat
  running : Bool
  input_buffer : Nat → Nat
  input_len : Int
  input_pos : Int
  debug : Bool
  host : host_env

/-- Registers and memory hold values of their C types. -/
def state_ok (sys : system__s) : Prop := regs_ok sys.regs ∧ mem_ok sys.mem

/-! ## FCB helpers

`fcb__s` is declared without `packed`; with natural alignment its fields sit at
`drive` 0, `name` 1..8, `ext` 9..11, `cblock` 12, `recsize` 14, `size` 16,
`date` 20, `time` 22, `rsvp0` 24, `crecnum` 26, `relrec` 28. An FCB pointer
`(fcb__s *)&mem[idx]` is represented by the linear address `idx`; fields are
stored little-endian, as on the hosts the program targets. -/

def FCB_DRIVE : Nat := 0
def FCB_NAME : Nat := 1
def FCB_EXT : Nat := 9
def FCB_CBLOCK : Nat := 12
def FCB_RECSIZE : Nat := 14
def FCB_SIZE : Nat := 16
def FCB_CRECNUM : Nat := 26

/-- The bytes `mem[a] .. mem[a + n - 1]`. -/
def mem_bytes (mem : Nat → Nat) (a : Nat) (n : Nat) : List Nat :=
  (List.range n).map (fun i => mem (a + i))

/-- Store the bytes of `bs` at `a, a + 1, ...`. -/
def store_bytes (mem : Nat → Nat) (a : Nat) (bs : List Nat) : Nat → Nat :=
  fun x => if a ≤ x ∧ x < a + bs.length then bs.getD (x - a) 0 else mem x

/-- Store one byte at `a`. -/
def set_byte (mem : Nat → Nat) (a : Nat) (v : Nat) : Nat → Nat :=
  fun x => if x = a then v else mem x

/-- `mkfilename`: the bytes written to `fname`, the terminating NUL included.
The name bytes up to the first space (at most 8), then, when `ext[0]` is not a
space, a dot and the extension bytes up to the first space (at most 3). -/
def mkfilename (mem : Nat → Nat) (fcb : Nat) : List Nat :=
  let name := (mem_bytes mem (fcb + FCB_NAME) 8).takeWhile (fun b => b != 0x20)
  let ext := mem_bytes mem (fcb + FCB_EXT) 3
  let tail := if ext.getD 0 0 != 0x20 then 0x2E :: ext.takeWhile (fun b => b != 0x20) else []
  name ++ tail ++ [0]

/-- One copy loop of `mkfilename`,
`for (i = 0 ; (i < limit) && (field[i] != ' ') ; i++ , c++) fname[c] = field[i];`
entered at `i` with `n` passes left before `i` reaches the limit: the value of
`c` on exit and the buffer `fname`. -/
def copy_field (mem : Nat → Nat) (field : Nat) :
    Nat → Nat → Nat → (Nat → Nat) → Nat × (Nat → Nat)
  | 0, _, c, fname => (c, fname)
  | n + 1, i, c, fname =>
      if mem (field + i) ≠ 0x20 then
        copy_field mem field n (i + 1) (c + 1) (set_byte fname c (mem (field + i)))
      else (c, fname)

/-- The statements of `mkfilename` run on the buffer `fname`, a map from
indices to bytes: the index at which the terminating NUL is stored, and the
buffer afterwards. -/
def mkfilename_buf (fname : Nat → Nat) (mem : Nat → Nat) (fcb : Nat) : Nat × (Nat → Nat) :=
  let r1 := copy_field mem (fcb + FCB_NAME) 8 0 0 fname
  let r2 :=
    if mem (fcb + FCB_EXT) ≠ 0x20 then
      copy_field mem (fcb + FCB_EXT) 3 0 (r1.1 + 1) (set_byte r1.2 r1.1 0x2E)
    else r1
  (r2.1, set_byte r2.2 r2.1 0)

/-- The C string held in a buffer: the bytes before the first NUL. -/
def c_string (buf : List Nat) : List Nat :=
  buf.takeWhile (fun b => b != 0)

/-- The scan of `find_fcb` from slot `i`, `n` slots remaining. -/
def find_fcb_from (fcbs : Nat → Option Nat) (fcb : Nat) : Nat → Nat → Option Nat
  | _, 0 => none
  | i, n + 1 => if fcbs i = some fcb then some i else find_fcb_from fcbs fcb (i + 1) n

/-- `find_fcb`: the first slot among 0..15 holding the pointer; `none` is the
C return value `-1`. -/
def find_fcb (sys : system__s) (fcb : Nat) : Option Nat :=
  find_fcb_from sys.fcbs fcb 0 16

/-- The loop `for (i = 0 ; i < 16 ; i++) if (sys->fcbs[i] == NULL) break;`
started at `i` with `n` slots remaining: the value of `i` on exit. -/
def first_free_from (fcbs : Nat → Option Nat) : Nat → Nat → Nat
  | i, 0 => i
  | i, n + 1 => if fcbs i = none then i else first_free_from fcbs (i + 1) n

/-- The slot chosen by the free-slot loop of `open_file`: 16 when all are taken. -/
def first_free (sys : system__s) : Nat :=
  first_free_from sys.fcbs 0 16

/-- Write one slot of a slot array. -/
def set_slot {α : Type} (t : Nat → Option α) (idx : Nat) (v : Option α) : Nat → Option α :=
  fun i => if i = idx then v else t i

/-- `open_file`: the return value (0 or 255) and the state afterwards. -/
def open_file (sys : system__s) (fcb : Nat) (create : Bool) : Nat × system__s :=
  let fname := c_string (mkfilename sys.mem fcb)
  let idx : Nat :=
    if create then
      match find_fcb sys fcb with
      | some i => i
      | none => first_free sys
    else first_free sys
  let opened : Option FILE × host_env :=
    if create then fopen_wplus sys.host fname
    else
      match fopen_rplus sys.host fname with
      | some f => (some f, sys.host)
      | none => (fopen_r sys.host fname, sys.host)
  let sys1 : system__s := { sys with fp := set_slot sys.fp idx opened.1, host := opened.2 }
  match opened.1 with
  | none => (255, sys1)
  | some f =>
      let mem1 := set_word sys1.mem (fcb + FCB_CBLOCK) 0
      let mem2 := set_byte mem1 (fcb + FCB_CRECNUM) 0
      let mem3 := set_word mem2 (fcb + FCB_RECSIZE) 128
      let size : Nat := if create then 0 else host_fsize sys1.host f % 4294967296
      let mem4 := set_dword mem3 (fcb + FCB_SIZE) size
      let mem5 := set_byte mem4 (fcb + FCB_DRIVE) 3
      (0, { sys1 with fcbs := set_slot sys1.fcbs idx (some fcb), mem := mem5 })

/-! ## Prompt detection and buffered input -/

/-- `handle_prompt_detection`. -/
def handle_prompt_detection (sys : system__s) (c : Nat) : system__s :=
  let p : List Nat := [sys.prompt.getD 1 0, sys.prompt.getD 2 0, sys.prompt.getD 3 0, c]
  let sys1 : system__s := { sys with prompt := p }
  if p.getD 1 0 = 0x0D ∧ p.getD 2 0 = 0x0A ∧ p.getD 3 0 = 0x3E then
    { sys1 with input := true }
  else if c = 0x0D then
    { sys1 with input := false }
  else sys1

/-- The value of a `char` holding byte `b`, converted to `int`. -/
def char_to_int (signed : Bool) (b : Nat) : Int :=
  if signed && decide (128 ≤ b) then (b : Int) - 256 else (b : Int)

/-- `read_buffered_input`: the `int` returned and the state afterwards. -/
def read_buffered_input (sys : system__s) : Int × system__s :=
  if sys.input_pos < sys.input_len then
    (char_to_int sys.host.char_signed (sys.input_buffer sys.input_pos.toNat),
      { sys with input_pos := sys.input_pos + 1 })
  else
    let polled := host_poll sys.host
    if polled.1 then
      let rd := host_read polled.2 255
      let sys1 : system__s :=
        { sys with host := rd.2.2, input_len := rd.1,
                   input_buffer := store_bytes sys.input_buffer 0 rd.2.1 }
      if rd.1 > 0 then
        (char_to_int sys1.host.char_signed (sys1.input_buffer 0), { sys1 with input_pos := 1 })
      else (-1, sys1)
    else (-1, { sys with host := polled.2 })

/-- `putchar` on the host of the state. -/
def sys_putchar (sys : system__s) (c : Nat) : system__s :=
  { sys with host := host_putchar sys.host c }

/-! ## The DOS service layer -/

/-- `c & 0xFF` for an `int` value `c`. -/
def int_low_byte (c : Int) : Nat := (c % 256).toNat

/-- The loop of service 09h: `while (mem[addr] != '$') { putchar; detect; addr++; }`. -/
def dos_write_string : Nat → system__s → Nat → Option system__s
  | 0, _, _ => none
  | fuel + 1, sys, addr =>
      if sys.mem addr = 0x24 then some sys
      else
        dos_write_string fuel
          (handle_prompt_detection (sys_putchar sys (sys.mem addr)) (sys.mem addr)) (addr + 1)

/-- The drain loop of service 0Ch:
`while (poll(&pfd, 1, 0) > 0) { if (read(0, dummy, sizeof(dummy)) <= 0) break; }`. -/
def drain_stdin : Nat → host_env → Option host_env
  | 0, _ => none
  | fuel + 1, h =>
      let polled := host_poll h
      if polled.1 then
        let rd := host_read polled.2 256
        if rd.1 ≤ 0 then some rd.2.2 else drain_stdin fuel rd.2.2
      else some polled.2

/-- Store `AL` after an input service: `eax = (eax & 0xFF00) | (c & 0xFF)`. -/
def set_al_from_int (sys : system__s) (c : Int) : system__s :=
  { sys with regs := { sys.regs with eax := (sys.regs.eax &&& 0xFF00) ||| int_low_byte c } }

/-- The echo of service 01h: `if (c != '\n') putchar(c);`. -/
def echo_char (sys : system__s) (c : Int) : system__s :=
  if c ≠ 0x0A then sys_putchar sys (int_low_byte c) else sys

/-- `dos_int21`. -/
def dos_int21 : Nat → system__s → Option system__s
  | 0, _ => none
  | fuel + 1, sys =>
    let func := (sys.regs.eax >>> 8) &&& 0xFF
    match func with
    | 0x01 =>
        let r1 := read_buffered_input sys
        if r1.1 ≥ 0 then
          some (echo_char (set_al_from_int r1.2 r1.1) r1.1)
        else
          let r2 := read_buffered_input r1.2
          if r2.1 ≥ 0 then
            some (echo_char (set_al_from_int r2.2 r2.1) r2.1)
          else
            some { r2.2 with regs := { r2.2.regs with eax := r2.2.regs.eax &&& 0xFF00 } }
    | 0x02 =>
        let c := sys.regs.edx &&& 0xFF
        some (handle_prompt_detection (sys_putchar sys c) c)
    | 0x06 =>
        let dl := sys.regs.edx &&& 0xFF
        if dl = 0xFF then
          let r1 := read_buffered_input sys
          if r1.1 ≥ 0 then
            let s1 := set_al_from_int r1.2 r1.1
            some { s1 with regs := { s1.regs with eflags := s1.regs.eflags &&& 0xFFFFFFBF } }
          else
            some { r1.2 with regs := { r1.2.regs with eflags := r1.2.regs.eflags ||| 0x40 } }
        else
          some (handle_prompt_detection (sys_putchar sys dl) dl)
    | 0x09 =>
        dos_write_string fuel sys (seg_off_to_linear sys.regs.ds (sys.regs.edx &&& 0xFFFF))
    | 0x0C =>
        let subfunc := sys.regs.eax &&& 0xFF
        let sys1 : system__s := { sys with input_pos := 0, input_len := 0 }
        match drain_stdin fuel sys1.host with
        | none => none
        | some h =>
            let sys2 : system__s := { sys1 with host := h }
            if subfunc = 0x01 ∨ subfunc = 0x06 ∨ subfunc = 0x07 ∨ subfunc = 0x08 ∨
                subfunc = 0x0A then
              dos_int21 fuel
                { sys2 with regs := { sys2.regs with eax := (subfunc <<< 8) ||| subfunc } }
            else some sys2
    | 0x0F =>
        let idx := seg_off_to_linear sys.regs.ds (sys.regs.edx &&& 0xFFFF)
        let r := open_file sys idx false
        some { r.2 with regs := { r.2.regs with eax := (r.2.regs.eax &&& 0xFF00) ||| r.1 } }
    | 0x10 =>
        let idx := seg_off_to_linear sys.regs.ds (sys.regs.edx &&& 0xFFFF)
        match find_fcb sys idx with
        | some handle =>
            match sys.fp handle with
            | none => none
            | some _ =>
                some { sys with fp := set_slot sys.fp handle none,
                                fcbs := set_slot sys.fcbs handle none,
                                regs := { sys.regs with eax := sys.regs.eax &&& 0xFF00 } }
        | none =>
            some { sys with regs := { sys.regs with eax := (sys.regs.eax &&& 0xFF00) ||| 0xFF } }
    | 0x14 =>
        let idx := seg_off_to_linear sys.regs.ds (sys.regs.edx &&& 0xFFFF)
        match find_fcb sys idx with
        | some handle =>
            let dta := seg_off_to_linear sys.dtaseg sys.dtaoff
            match sys.fp handle with
            | none => none
            | some f =>
                let rd := host_fread sys.host f (get_word sys.mem (idx + FCB_RECSIZE))
                let mem1 := store_bytes sys.mem dta rd.1
                let sys1 : system__s := { sys with mem := mem1, fp := set_slot sys.fp handle (some rd.2) }
                if rd.1.length = get_word mem1 (idx + FCB_RECSIZE) then
                  some { sys1 with
                    mem := set_byte mem1 (idx + FCB_CRECNUM) ((mem1 (idx + FCB_CRECNUM) + 1) % 256),
                    regs := { sys1.regs with eax := sys1.regs.eax &&& 0xFF00 } }
                else
                  some { sys1 with regs := { sys1.regs with eax := (sys1.regs.eax &&& 0xFF00) ||| 0x01 } }
        | none =>
            some { sys with regs := { sys.regs with eax := (sys.regs.eax &&& 0xFF00) ||| 0xFF } }
    | 0x16 =>
        let idx := seg_off_to_linear sys.regs.ds (sys.regs.edx &&& 0xFFFF)
        let r := open_file sys idx true
        some { r.2 with regs := { r.2.regs with eax := (r.2.regs.eax &&& 0xFF00) ||| r.1 } }
    | 0x19 =>
        some { sys with regs := { sys.regs with eax := (sys.regs.eax &&& 0xFF00) ||| 0x02 } }
    | 0x1A =>
        some { sys with dtaseg := sys.regs.ds, dtaoff := sys.regs.edx &&& 0xFFFF }
    | 0x25 => some sys
    | 0x30 =>
        some { sys with regs := { sys.regs with eax := 0x0005, ebx := 0x0000, ecx := 0x0000 } }
    | 0x35 =>
        some { sys with regs := { sys.regs with es := 0x0000, ebx := 0x0000 } }
    | 0x4C => some { sys with running := false }
    | _ => some sys

/-! ## The instruction interpreter -/

/-- The value of `(int8_t)b` after conversion to `uint32_t`, as it enters the
sums `eip + rel` of the jump instructions. -/
def int8_to_u32 (b : Nat) : Nat :=
  if b < 128 then b else 4294967040 + b

/-- The `switch(reg)` of `MOV r/m8, r8`: the byte register selected by the
encoding `AL=0, CL=1, DL=2, BL=3, AH=4, CH=5, DH=6, BH=7`. -/
def reg8 (r : x86_regs) (reg : Nat) : Nat :=
  match reg with
  | 0 => r.eax &&& 0xFF
  | 1 => r.ecx &&& 0xFF
  | 2 => r.edx &&& 0xFF
  | 3 => r.ebx &&& 0xFF
  | 4 => (r.eax >>> 8) &&& 0xFF
  | 5 => (r.ecx >>> 8) &&& 0xFF
  | 6 => (r.edx >>> 8) &&& 0xFF
  | 7 => (r.ebx >>> 8) &&& 0xFF
  | _ => 0

/-- The `switch(rm)` of `MOV r/m8, r8`: the write of `src_val` to the byte
register selected by `rm`, in the same encoding. -/
def set_reg8 (r : x86_regs) (rm : Nat) (src_val : Nat) : x86_regs :=
  match rm with
  | 0 => { r with eax := (r.eax &&& 0xFFFFFF00) ||| src_val }
  | 1 => { r with ecx := (r.ecx &&& 0xFFFFFF00) ||| src_val }
  | 2 => { r with edx := (r.edx &&& 0xFFFFFF00) ||| src_val }
  | 3 => { r with ebx := (r.ebx &&& 0xFFFFFF00) ||| src_val }
  | 4 => { r with eax := (r.eax &&& 0xFFFF00FF) ||| (src_val <<< 8) }
  | 5 => { r with ecx := (r.ecx &&& 0xFFFF00FF) ||| (src_val <<< 8) }
  | 6 => { r with edx := (r.edx &&& 0xFFFF00FF) ||| (src_val <<< 8) }
  | 7 => { r with ebx := (r.ebx &&& 0xFFFF00FF) ||| (src_val <<< 8) }
  | _ => r

/-- The flag word after `CMP AL, imm8`: clear CF, ZF and SF, then set ZF when
the 16-bit `result` is zero, SF when its bit 15 is set, CF when `al < imm`. -/
def cmp_flags (eflags : Nat) (al : Nat) (imm : Nat) : Nat :=
  let result : Nat := (((al : Int) - (imm : Int)) % 65536).toNat
  let f0 := eflags &&& 0xFFFFFF3E
  let f1 := if result = 0 then f0 ||| 0x0040 else f0
  let f2 := if result &&& 0x8000 ≠ 0 then f1 ||| 0x0080 else f1
  if al < imm then f2 ||| 0x0001 else f2

/-- `execute_instruction`: the returned `executed` flag and the state
afterwards; `none` when the DOS service invoked by `INT 21h` yields none. -/
def execute_instruction (fuel : Nat) (sys : system__s) : Option (Bool × system__s) :=
  let mem := sys.mem
  let ip_addr := seg_off_to_linear sys.regs.cs (sys.regs.eip &&& 0xFFFF)
  let opcode := mem ip_addr
  match opcode with
    | 0x90 =>
        some (true, { sys with regs := { sys.regs with eip := (sys.regs.eip + 1) % 4294967296 } })
    | 0xB0 =>
        some (true, { sys with regs := { sys.regs with
          eax := (sys.regs.eax &&& 0xFFFFFF00) ||| mem (ip_addr + 1),
          eip := (sys.regs.eip + 2) % 4294967296 } })
    | 0xB1 =>
        some (true, { sys with regs := { sys.regs with
          ecx := (sys.regs.ecx &&& 0xFFFFFF00) ||| mem (ip_addr + 1),
          eip := (sys.regs.eip + 2) % 4294967296 } })
    | 0xB2 =>
        some (true, { sys with regs := { sys.regs with
          edx := (sys.regs.edx &&& 0xFFFFFF00) ||| mem (ip_addr + 1),
          eip := (sys.regs.eip + 2) % 4294967296 } })
    | 0xB3 =>
        some (true, { sys with regs := { sys.regs with
          ebx := (sys.regs.ebx &&& 0xFFFFFF00) ||| mem (ip_addr + 1),
          eip := (sys.regs.eip + 2) % 4294967296 } })
    | 0xB4 =>
        some (true, { sys with regs := { sys.regs with
          eax := (sys.regs.eax &&& 0xFFFF00FF) ||| (mem (ip_addr + 1) <<< 8),
          eip := (sys.regs.eip + 2) % 4294967296 } })
    | 0xB5 =>
        some (true, { sys with regs := { sys.regs with
          ecx := (sys.regs.ecx &&& 0xFFFF00FF) ||| (mem (ip_addr + 1) <<< 8),
          eip := (sys.regs.eip + 2) % 4294967296 } })
    | 0xB6 =>
        some (true, { sys with regs := { sys.regs with
          edx := (sys.regs.edx &&& 0xFFFF00FF) ||| (mem (ip_addr + 1) <<< 8),
          eip := (sys.regs.eip + 2) % 4294967296 } })
    | 0xB7 =>
        some (true, { sys with regs := { sys.regs with
          ebx := (sys.regs.ebx &&& 0xFFFF00FF) ||| (mem (ip_addr + 1) <<< 8),
          eip := (sys.regs.eip + 2) % 4294967296 } })
    | 0xB8 =>
        some (true, { sys with regs := { sys.regs with
          eax := get_word mem (ip_addr + 1),
          eip := (sys.regs.eip + 3) % 4294967296 } })
    | 0xB9 =>
        some (true, { sys with regs := { sys.regs with
          ecx := get_word mem (ip_addr + 1),
          eip := (sys.regs.eip + 3) % 4294967296 } })
    | 0xBA =>
        some (true, { sys with regs := { sys.regs with
          edx := get_word mem (ip_addr + 1),
          eip := (sys.regs.eip + 3) % 4294967296 } })
    | 0xBB =>
        some (true, { sys with regs := { sys.regs with
          ebx := get_word mem (ip_addr + 1),
          eip := (sys.regs.eip + 3) % 4294967296 } })
    | 0xBC =>
        some (true, { sys with regs := { sys.regs with
          esp := get_word mem (ip_addr + 1),
          eip := (sys.regs.eip + 3) % 4294967296 } })
    | 0xBD =>
        some (true, { sys with regs := { sys.regs with
          ebp := get_word mem (ip_addr + 1),
          eip := (sys.regs.eip + 3) % 4294967296 } })
    | 0xBE =>
        some (true, { sys with regs := { sys.regs with
          esi := get_word mem (ip_addr + 1),
          eip := (sys.regs.eip + 3) % 4294967296 } })
    | 0xBF =>
        some (true, { sys with regs := { sys.regs with
          edi := get_word mem (ip_addr + 1),
          eip := (sys.regs.eip + 3) % 4294967296 } })
    | 0x88 =>
        let modrm := mem (ip_addr + 1)
        let mod := (modrm >>> 6) &&& 3
        let reg := (modrm >>> 3) &&& 7
        let rm := modrm &&& 7
        let regs1 := if mod = 3 then set_reg8 sys.regs rm (reg8 sys.regs reg) else sys.regs
        some (true, { sys with regs := { regs1 with eip := (regs1.eip + 2) % 4294967296 } })
    | 0x3C =>
        let al := sys.regs.eax &&& 0xFF
        let imm := mem (ip_addr + 1)
        some (true, { sys with regs := { sys.regs with
          eflags := cmp_flags sys.regs.eflags al imm,
          eip := (sys.regs.eip + 2) % 4294967296 } })
    | 0x75 =>
        let rel := int8_to_u32 (mem (ip_addr + 1))
        let eip1 := (sys.regs.eip + 2) % 4294967296
        let eip2 := if sys.regs.eflags &&& 0x0040 = 0 then ((eip1 + rel) % 4294967296) &&& 0xFFFF else eip1
        some (true, { sys with regs := { sys.regs with eip := eip2 } })
    | 0x74 =>
        let rel := int8_to_u32 (mem (ip_addr + 1))
        let eip1 := (sys.regs.eip + 2) % 4294967296
        let eip2 := if sys.regs.eflags &&& 0x0040 ≠ 0 then ((eip1 + rel) % 4294967296) &&& 0xFFFF else eip1
        some (true, { sys with regs := { sys.regs with eip := eip2 } })
    | 0xEB =>
        let rel := int8_to_u32 (mem (ip_addr + 1))
        some (true, { sys with regs := { sys.regs with
          eip := ((sys.regs.eip + 2 + rel) % 4294967296) &&& 0xFFFF } })
    | 0x50 =>
        let sp_addr := seg_off_to_linear sys.regs.ss (((sys.regs.esp + 4294967294) % 4294967296) &&& 0xFFFF)
        some (true, { sys with
          mem := set_word mem sp_addr (sys.regs.eax &&& 0xFFFF),
          regs := { sys.regs with
            esp := ((sys.regs.esp + 4294967294) % 4294967296) &&& 0xFFFF,
            eip := (sys.regs.eip + 1) % 4294967296 } })
    | 0x58 =>
        let sp_addr := seg_off_to_linear sys.regs.ss (sys.regs.esp &&& 0xFFFF)
        some (true, { sys with regs := { sys.regs with
          eax := (sys.regs.eax &&& 0xFFFF0000) ||| get_word mem sp_addr,
          esp := ((sys.regs.esp + 2) % 4294967296) &&& 0xFFFF,
          eip := (sys.regs.eip + 1) % 4294967296 } })
    | 0xCD =>
        let int_num := mem (ip_addr + 1)
        let sys1 : system__s :=
          { sys with regs := { sys.regs with eip := (sys.regs.eip + 2) % 4294967296 } }
        if int_num = 0x21 then
          match dos_int21 fuel sys1 with
          | some sys2 => some (true, sys2)
          | none => none
        else if int_num = 0x20 then
          some (true, { sys1 with running := false })
        else some (true, sys1)
    | 0xCF =>
        let sp_addr := seg_off_to_linear sys.regs.ss (sys.regs.esp &&& 0xFFFF)
        some (true, { sys with regs := { sys.regs with
          eip := get_word mem sp_addr,
          cs := get_word mem (sp_addr + 2),
          eflags := get_word mem (sp_addr + 4),
          esp := (sys.regs.esp + 6) % 4294967296 } })
    | 0xCB =>
        let sp_addr := seg_off_to_linear sys.regs.ss (sys.regs.esp &&& 0xFFFF)
        some (true, { sys with regs := { sys.regs with
          eip := get_word mem sp_addr,
          cs := get_word mem (sp_addr + 2),
          esp := (sys.regs.esp + 4) % 4294967296 } })
    | 0xC3 =>
        let sp_addr := seg_off_to_linear sys.regs.ss (sys.regs.esp &&& 0xFFFF)
        some (true, { sys with regs := { sys.regs with
          eip := get_word mem sp_addr,
          esp := (sys.regs.esp + 2) % 4294967296 } })
    | _ =>
        some (false, { sys with regs := { sys.regs with eip := (sys.regs.eip + 1) % 4294967296 } })


/-! ## Program loader

`psp__s` and `exehdr__s` are declared `packed`: a field sits at the sum of the
sizes of the fields before it. In `psp__s` that puts `warmboot` at 0,
`oldmscall_jmp` at 5, `oldmscall_off` at 6, `oldmscall_seg` at 8, `termaddr` at
10, `ctrlcaddr` at 14, `erroraddr` at 18, `envp` at 44, `mscall` at 80 and `cmd`
at 129; `exehdr__s` is fourteen 16-bit cells. Fields wider than a byte are
stored little-endian, as on the hosts the program targets. `size_t` has 64
bits. `fread` copies the bytes the file still has into the front of its buffer
and leaves the rest of the buffer as it was; the automatic variables `hdr` and
`off` are not initialised, so what they hold on entry is an input of the model
(`load_locals`). -/

def EXIT_SUCCESS : Nat := 0
def EXIT_FAILURE : Nat := 1

def PSP_WARMBOOT : Nat := 0
def PSP_OLDMSCALL_JMP : Nat := 5
def PSP_OLDMSCALL_OFF : Nat := 6
def PSP_OLDMSCALL_SEG : Nat := 8
def PSP_TERMADDR : Nat := 10
def PSP_CTRLCADDR : Nat := 14
def PSP_ERRORADDR : Nat := 18
def PSP_ENVP : Nat := 44
def PSP_MSCALL : Nat := 80

/-- The writes of `load_program` before it opens the file: the environment
block and the PSP are cleared, the PSP fields are filled in, and three `IRET`
bytes are placed at PSP offsets 129 to 131. -/
def psp_init (mem : Nat → Nat) : Nat → Nat :=
  let m1 := store_bytes mem MEM_ENV (List.replicate 256 0)
  let m2 := store_bytes m1 MEM_PSP (List.replicate 256 0)
  let m3 := set_byte m2 (MEM_PSP + PSP_WARMBOOT) 0xCD
  let m4 := set_byte m3 (MEM_PSP + PSP_WARMBOOT + 1) 0x20
  let m5 := set_byte m4 (MEM_PSP + PSP_OLDMSCALL_JMP) 0x9A
  let m6 := set_word m5 (MEM_PSP + PSP_OLDMSCALL_OFF) PSP_MSCALL
  let m7 := set_word m6 (MEM_PSP + PSP_OLDMSCALL_SEG) SEG_PSP
  let m8 := set_word m7 (MEM_PSP + PSP_TERMADDR) 129
  let m9 := set_word m8 (MEM_PSP + PSP_TERMADDR + 2) SEG_PSP
  let m10 := set_word m9 (MEM_PSP + PSP_CTRLCADDR) 130
  let m11 := set_word m10 (MEM_PSP + PSP_CTRLCADDR + 2) SEG_PSP
  let m12 := set_word m11 (MEM_PSP + PSP_ERRORADDR) 131
  let m13 := set_word m12 (MEM_PSP + PSP_ERRORADDR + 2) SEG_PSP
  let m14 := set_word m13 (MEM_PSP + PSP_ENVP) SEG_ENV
  let m15 := set_byte m14 (MEM_PSP + PSP_MSCALL) 0xCD
  let m16 := set_byte m15 (MEM_PSP + PSP_MSCALL + 1) 0x21
  let m17 := set_byte m16 (MEM_PSP + PSP_MSCALL + 2) 0xCB
  let m18 := set_byte m17 (MEM_PSP + 129) 0xCF
  let m19 := set_byte m18 (MEM_PSP + 130) 0xCF
  set_byte m19 (MEM_PSP + 131) 0xCF

/-- What `hdr` and `off` hold when `load_program` is entered. -/
structure load_locals where
  hdr : List Nat
  off : List Nat

/-- A buffer after `fread` delivered `chunk` into its front. -/
def fread_over (buf : List Nat) (chunk : List Nat) : List Nat :=
  chunk ++ buf.drop chunk.length

/-- The `unsigned char` in cell `i` of a buffer. -/
def buf_byte (buf : List Nat) (i : Nat) : Nat := buf.getD i 0 % 256

/-- The `uint16_t` in cells `i` and `i + 1` of a buffer. -/
def buf_word (buf : List Nat) (i : Nat) : Nat := buf_byte buf i + 256 * buf_byte buf (i + 1)

/-- The header `exehdr__s`. -/
structure exehdr__s where
  magic0 : Nat
  magic1 : Nat
  lastpagesize : Nat
  filepages : Nat
  numreloc : Nat
  hdrpara : Nat
  minalloc : Nat
  maxalloc : Nat
  init_ss : Nat
  init_sp : Nat
  chksum : Nat
  init_ip : Nat
  init_cs : Nat
  reltable : Nat
  overlay : Nat

/-- The fields of the `sizeof(hdr)` = 28 bytes of a header buffer. -/
def parse_exehdr (buf : List Nat) : exehdr__s :=
  { magic0 := buf_byte buf 0, magic1 := buf_byte buf 1,
    lastpagesize := buf_word buf 2, filepages := buf_word buf 4,
    numreloc := buf_word buf 6, hdrpara := buf_word buf 8,
    minalloc := buf_word buf 10, maxalloc := buf_word buf 12,
    init_ss := buf_word buf 14, init_sp := buf_word buf 16,
    chksum := buf_word buf 18, init_ip := buf_word buf 20,
    init_cs := buf_word buf 22, reltable := buf_word buf 24,
    overlay := buf_word buf 26 }

/-- Conversion of an `int` to `size_t`. -/
def size_t_of_int (x : Int) : Nat := (x % 18446744073709551616).toNat

/-- `offset = hdr.hdrpara * 16`. -/
def exe_offset (hdr : exehdr__s) : Nat := size_t_of_int ((hdr.hdrpara : Int) * 16)

/-- The value of `binsize` before `binsize -= offset`. -/
def exe_image_size (hdr : exehdr__s) : Nat :=
  if hdr.lastpagesize = 0 then size_t_of_int ((hdr.filepages : Int) * 512)
  else size_t_of_int (((hdr.filepages : Int) - 1) * 512 + (hdr.lastpagesize : Int))

/-- The value of `binsize` after `binsize -= offset`, the count handed to
`fread`. -/
def exe_binsize (hdr : exehdr__s) : Nat :=
  (exe_image_size hdr + 18446744073709551616 - exe_offset hdr) % 18446744073709551616

/-- The relocation loop, `count` entries from entry `i` on: seek to
`reltable + i * 4`, read `off[0]` and `off[1]`, add `SEG_LOAD` to the 16-bit
word at `MEM_LOAD + off[0] + off[1] * 16`. -/
def apply_relocs (h : host_env) (fp : FILE) (reltable : Nat) :
    Nat → Nat → List Nat → (Nat → Nat) → (Nat → Nat)
  | 0, _, _, mem => mem
  | count + 1, i, off, mem =>
      let rd := host_fread h { fp with pos := reltable + i * 4 } 4
      let off1 := fread_over off rd.1
      let a := MEM_LOAD + buf_word off1 0 + buf_word off1 2 * 16
      apply_relocs h fp reltable count (i + 1) off1
        (set_word mem a ((get_word mem a + SEG_LOAD) % 65536))

/-- `load_program`: the exit status returned and the state afterwards. -/
def load_program (fname : List Nat) (locals : load_locals) (sys : system__s) :
    Nat × system__s :=
  let sys1 : system__s := { sys with mem := psp_init sys.mem }
  match fopen_r sys.host fname with
  | none => (EXIT_FAILURE, sys1)
  | some fp =>
      let st_size := host_fsize sys.host fp
      let hdrbuf := fread_over locals.hdr (host_fread sys.host fp 28).1
      if buf_byte hdrbuf 0 = 0x4D ∧ buf_byte hdrbuf 1 = 0x5A then
        let hdr := parse_exehdr (fread_over hdrbuf (host_fread sys.host fp 28).1)
        let offset := exe_offset hdr
        let binsize := exe_binsize hdr
        let code := (host_fread sys.host { fp with pos := offset } binsize).1
        let mem2 := store_bytes sys1.mem MEM_LOAD code
        let mem3 := apply_relocs sys.host fp hdr.reltable hdr.numreloc 0 locals.off mem2
        (EXIT_SUCCESS,
          { sys1 with
            mem := mem3,
            regs :=
              { eax := 0, ebx := 0, ecx := 0, edx := 0, esi := 0, edi := 0, ebp := 0,
                esp := hdr.init_sp, eip := hdr.init_ip, eflags := 0x0200,
                cs := (SEG_LOAD + hdr.init_cs) % 65536, ds := SEG_PSP, es := SEG_PSP,
                ss := (SEG_LOAD + hdr.init_ss) % 65536, fs := 0, gs := 0 },
            dtaseg := SEG_PSP, dtaoff := 0x80 })
      else
        let binsize := st_size
        if binsize > 65536 - 256 then (EXIT_FAILURE, sys1)
        else
          let code := (host_fread sys.host fp binsize).1
          (EXIT_SUCCESS,
            { sys1 with
              mem := store_bytes sys1.mem (MEM_PSP + 0x100) code,
              regs :=
                { eax := 0, ebx := 0, ecx := 0, edx := 0, esi := 0, edi := 0, ebp := 0,
                  esp := 0xFFFE, eip := 0x100, eflags := 0x0200,
                  cs := SEG_PSP, ds := SEG_PSP, es := SEG_PSP, ss := SEG_PSP,
                  fs := 0, gs := 0 },
              dtaseg := SEG_PSP, dtaoff := 0x80 })

/-! ## Main loop

`main` with `argv[1]` given and `malloc` successful. The loop is run for at
most a given number of passes; next to the state it yields the value
`execute_instruction` reported in each pass. -/

/-- The emulator state with its loop counter `cycles_without_io`. -/
structure main_state where
  sys : system__s
  cycles_without_io : Int

/-- The search of the stuck-loop watchdog,
`for (i = 0; i < 100 && !found; i++)`: the first `i` with `CD 21` at
`addr + i`, `count` places from `i` on. -/
def scan_int21 (mem : Nat → Nat) (addr : Nat) : Nat → Nat → Option Nat
  | 0, _ => none
  | count + 1, i =>
      if mem (addr + i) = 0xCD ∧ mem (addr + i + 1) = 0x21 then some i
      else scan_int21 mem addr count (i + 1)

/-- One pass through the body of `while (g_sys.running)`: what
`execute_instruction` reported, whether the loop was left by `break`, and the
state afterwards. -/
def main_loop_body (fuel : Nat) (st : main_state) : Option (Bool × Bool × main_state) :=
  match execute_instruction fuel st.sys with
  | none => none
  | some (executed, sys1) =>
      if executed then some (executed, false, { sys := sys1, cycles_without_io := 0 })
      else
        let cycles := st.cycles_without_io + 1
        if cycles > 10000 then
          let addr := seg_off_to_linear sys1.regs.cs (sys1.regs.eip &&& 0xFFFF)
          match scan_int21 sys1.mem addr 100 0 with
          | some i =>
              some (executed, false,
                { sys := { sys1 with regs :=
                    { sys1.regs with eip := (sys1.regs.eip + i) % 4294967296 } },
                  cycles_without_io := 0 })
          | none => some (executed, true, { sys := sys1, cycles_without_io := cycles })
        else some (executed, false, { sys := sys1, cycles_without_io := cycles })

/-- The loop `while (g_sys.running)`, at most `passes` passes. -/
def main_loop (fuel : Nat) : Nat → main_state → Option (List Bool × main_state)
  | 0, _ => none
  | passes + 1, st =>
      if st.sys.running then
        match main_loop_body fuel st with
        | none => none
        | some (executed, stop, st1) =>
            if stop then some ([executed], st1)
            else
              match main_loop fuel passes st1 with
              | some (trace, st2) => some (executed :: trace, st2)
              | none => none
      else some ([], st)

/-- The process-wide `g_sys` as `main` has set it up before it calls
`load_program`: zero-initialised static storage, guest memory filled with
`0xCC`, the run flag set. -/
def main_init (debug : Bool) (host : host_env) : system__s :=
  { regs := { eax := 0, ebx := 0, ecx := 0, edx := 0, esi := 0, edi := 0, ebp := 0, esp := 0,
              eip := 0, eflags := 0, cs := 0, ds := 0, es := 0, ss := 0, fs := 0, gs := 0 },
    mem := fun _ => 0xCC, fcbs := fun _ => none, fp := fun _ => none,
    dtaseg := 0, dtaoff := 0, input := false, prompt := [0, 0, 0, 0], running := true,
    input_buffer := fun _ => 0, input_len := 0, input_pos := 0, debug := debug, host := host }

/-- `main`: exit status, the reports of `execute_instruction`, final state. -/
def main (fname : List Nat) (debug : Bool) (locals : load_locals) (host : host_env)
    (fuel passes : Nat) : Option (Nat × List Bool × system__s) :=
  let loaded := load_program fname locals (main_init debug host)
  if loaded.1 ≠ EXIT_SUCCESS then some (4, [], loaded.2)
  else
    match main_loop fuel passes { sys := loaded.2, cycles_without_io := 0 } with
    | some (trace, st) => some (EXIT_SUCCESS, trace, st.sys)
    | none => none

/-! ## Observations on a state -/

/-- The linear address of the next opcode: `seg_off_to_linear(cs, eip & 0xFFFF)`. -/
def ip_addr (sys : system__s) : Nat :=
  seg_off_to_linear sys.regs.cs (sys.regs.eip &&& 0xFFFF)

/-- The opcode byte `mem[ip_addr]`. -/
def opcode_at (sys : system__s) : Nat := sys.mem (ip_addr sys)

/-- The byte after the opcode, `mem[ip_addr + 1]`. -/
def operand8 (sys : system__s) : Nat := sys.mem (ip_addr sys + 1)

/-- The 16-bit instruction pointer the interpreter fetches from: `eip & 0xFFFF`. -/
def IP (r : x86_regs) : Nat := r.eip &&& 0xFFFF

/-- The 16-bit stack pointer the interpreter addresses the stack with: `esp & 0xFFFF`. -/
def SP (r : x86_regs) : Nat := r.esp &&& 0xFFFF

def AL (r : x86_regs) : Nat := r.eax &&& 0xFF
def AH (r : x86_regs) : Nat := (r.eax >>> 8) &&& 0xFF
def AX (r : x86_regs) : Nat := r.eax &&& 0xFFFF
def BX (r : x86_regs) : Nat := r.ebx &&& 0xFFFF

/-- Sign extension of a displacement byte. -/
def signext8 (b : Nat) : Int := if b < 128 then (b : Int) else (b : Int) - 256

/-- Carry flag, bit 0 of the flag word. -/
def CF (r : x86_regs) : Prop := r.eflags &&& 0x0001 ≠ 0

/-- Zero flag, bit 6, tested as the jumps test it: `eflags & 0x0040`. -/
def ZF (r : x86_regs) : Prop := r.eflags &&& 0x0040 ≠ 0

/-- Sign flag, bit 7. -/
def SF (r : x86_regs) : Prop := r.eflags &&& 0x0080 ≠ 0

instance (r : x86_regs) : Decidable (CF r) := by unfold CF; infer_instance
instance (r : x86_regs) : Decidable (ZF r) := by unfold ZF; infer_instance
instance (r : x86_regs) : Decidable (SF r) := by unfold SF; infer_instance

/-- The eight general-purpose slots agree. -/
def same_gprs (r r' : x86_regs) : Prop :=
  r'.eax = r.eax ∧ r'.ebx = r.ebx ∧ r'.ecx = r.ecx ∧ r'.edx = r.edx ∧
  r'.esi = r.esi ∧ r'.edi = r.edi ∧ r'.ebp = r.ebp ∧ r'.esp = r.esp

/-- The six segment registers agree. -/
def same_segs (r r' : x86_regs) : Prop :=
  r'.cs = r.cs ∧ r'.ds = r.ds ∧ r'.es = r.es ∧ r'.ss = r.ss ∧ r'.fs = r.fs ∧ r'.gs = r.gs

instance (r : x86_regs) : Decidable (regs_ok r) := by unfold regs_ok; infer_instance

/-! ## Concrete states -/

/-- Guest memory as `main` fills it (`0xCC` everywhere) with `code` placed at
linear `0x20100`. -/
def sample_mem (code : List Nat) : Nat → Nat :=
  fun a => if 0x20100 ≤ a ∧ a < 0x20100 + code.length then code.getD (a - 0x20100) 0 else 0xCC

/-- A register file as the loader leaves it for a COM image. -/
def sample_regs : x86_regs :=
  { eax := 0, ebx := 0, ecx := 0, edx := 0, esi := 0, edi := 0, ebp := 0, esp := 0xFFFE,
    eip := 0x100, eflags := 0x0200, cs := 0x2000, ds := 0x2000, es := 0x2000, ss := 0x2000,
    fs := 0, gs := 0 }

/-- A host with nothing on stdin and an empty directory. -/
def sample_host : host_env :=
  { stdout := [], stdin := [], files := fun _ => none, may_create := fun _ => true,
    char_signed := true }

/-- A running emulator about to execute `code` at `2000:0100`. -/
def sample_sys (code : List Nat) : system__s :=
  { regs := sample_regs, mem := sample_mem code, fcbs := fun _ => none, fp := fun _ => none,
    dtaseg := 0x2000, dtaoff := 0x80, input := false, prompt := [0, 0, 0, 0], running := true,
    input_buffer := fun _ => 0, input_len := 0, input_pos := 0, debug := false,
    host := sample_host }


/-- The state after `n` successive calls of `execute_instruction`, whatever
each call reports. -/
def exec_n (fuel : Nat) : Nat → system__s → Option system__s
  | 0, sys => some sys
  | n + 1, sys =>
      match execute_instruction fuel sys with
      | some r => exec_n fuel n r.2
      | none => none

/-- The COM program `MOV AX, FFFFh; PUSH AX; MOV AX, 0010h; PUSH AX; RETF`,
which transfers control to `FFFF:0010`. -/
def far_return_program : List Nat :=
  [0xB8, 0xFF, 0xFF, 0x50, 0xB8, 0x10, 0x00, 0x50, 0xCB]

/-- The opcodes `execute_instruction` has a case for. -/
def recognized (op : Nat) : Bool :=
  op = 0x90 || (0xB0 ≤ op && op ≤ 0xBF) || op = 0x88 || op = 0x3C || op = 0x74 || op = 0x75 ||
  op = 0xEB || op = 0x50 || op = 0x58 || op = 0xCD || op = 0xCF || op = 0xCB || op = 0xC3

/-- `PUSH AX; POP BX` (`50 5B`) at `2000:0100` with `AX = 1234h` and `BX = 0`. -/
def push_pop_bx_input : system__s :=
  { sample_sys [0x50, 0x5B] with regs := { sample_regs with eax := 0x1234 } }

/-- The little-endian 16-bit word held in the two bytes at `a` and `a + 1`. -/
def word_at (mem : Nat → Nat) (a : Nat) : Nat := mem a + 256 * mem (a + 1)

/-- `RETF` (`CB`) at `2000:0100` with the stack pointer at `FFF0h`. -/
def return_input : system__s :=
  { sample_sys [0xCB] with regs := { sample_regs with esp := 0xFFF0 } }

/-- The parts of the state no DOS service other than 35h and 4Ch changes: the
instruction and stack pointers, the segment registers and the run flag. -/
def kept (s s' : system__s) : Prop :=
  s'.regs.eip = s.regs.eip ∧ s'.regs.esp = s.regs.esp ∧
  s'.regs.cs = s.regs.cs ∧ s'.regs.ds = s.regs.ds ∧ s'.regs.es = s.regs.es ∧
  s'.regs.ss = s.regs.ss ∧ s'.regs.fs = s.regs.fs ∧ s'.regs.gs = s.regs.gs ∧
  s'.running = s.running

/-- What a DOS service leaves of the instruction pointer, the stack pointer,
the segment registers and the run flag. -/
def dos_frame (s s' : system__s) : Prop :=
  s'.regs.eip = s.regs.eip ∧ s'.regs.esp = s.regs.esp ∧
  s'.regs.cs = s.regs.cs ∧ s'.regs.ds = s.regs.ds ∧
  s'.regs.ss = s.regs.ss ∧ s'.regs.fs = s.regs.fs ∧ s'.regs.gs = s.regs.gs ∧
  s'.regs.es = (if AH s.regs = 0x35 then 0 else s.regs.es) ∧
  s'.running = (if AH s.regs = 0x4C then false else s.running)

/-- The state with which `INT imm8` continues after `eip += 2`. -/
def int_entry (sys : system__s) : system__s :=
  { sys with regs := { sys.regs with eip := (sys.regs.eip + 2) % 4294967296 } }

/-- The instruction at `CS:IP` is `INT 20h`, or `INT 21h` with `AH = 4Ch`. -/
def is_exit (sys : system__s) : Prop :=
  opcode_at sys = 0xCD ∧ (operand8 sys = 0x20 ∨ (operand8 sys = 0x21 ∧ AH sys.regs = 0x4C))

/-- `INT 21h` with `AH = 35h` (get interrupt vector) at `2000:0100`, `ES = 2000h`. -/
def get_vector_input : system__s :=
  { sample_sys [0xCD, 0x21] with regs := { sample_regs with eax := 0x3500 } }

/-- `NOP` at `2000:FFFF`, the last offset of the code segment. -/
def nop_wrap_input : system__s :=
  { sample_sys [] with
    regs := { sample_regs with eip := 0xFFFF },
    mem := fun a => if a = 0x2FFFF then 0x90 else 0xCC }

/-- The state after `handle_prompt_detection` has been called on the bytes of
`s`, first to last. -/
def feed_prompt (sys : system__s) (s : List Nat) : system__s :=
  s.foldl handle_prompt_detection sys

/-- The byte sequence `s` holds `CR LF '>'` with no `CR` after it. -/
def prompt_seen (s : List Nat) : Prop :=
  ∃ pre post, s = pre ++ [0x0D, 0x0A, 0x3E] ++ post ∧ 0x0D ∉ post

/-- The state after the bytes of `bs` have been written the way services 02h
and 09h write a byte: `putchar`, then `handle_prompt_detection`. -/
def emit (sys : system__s) (bs : List Nat) : system__s :=
  bs.foldl (fun s b => handle_prompt_detection (sys_putchar s b) b) sys

/-- The 16-bit `DX` the services address with: `edx & 0xFFFF`. -/
def DX (r : x86_regs) : Nat := r.edx &&& 0xFFFF

/-- The linear address of `DS:DX`. -/
def ds_dx (sys : system__s) : Nat := seg_off_to_linear sys.regs.ds (DX sys.regs)

/-- Service 09h entered with `DS:DX = 2000:0102`, where the bytes `Hi$` lie. -/
def hi_input : system__s :=
  { sample_sys [0xCD, 0x21, 0x48, 0x69, 0x24] with
    regs := { sample_regs with eax := 0x0900, edx := 0x0102 } }

/-- Service 06h with `DL = FFh` entered while the input buffer holds the one
unread byte `80h`, on a host whose plain `char` is signed. -/
def high_byte_input : system__s :=
  { sample_sys [0xCD, 0x21] with
    regs := { sample_regs with eax := 0x0600, edx := 0xFF },
    input_buffer := fun i => if i = 0 then 0x80 else 0, input_len := 1, input_pos := 0 }

/-- The buffer `hdr` after the first `fread` of `load_program` on a file with
contents `data`. -/
def header_buf (locals : load_locals) (data : List Nat) : List Nat :=
  fread_over locals.hdr (data.take 28)

/-- The loader finds the magic bytes `4D 5A` and takes the EXE branch. For a
file of two or more bytes these are its first two bytes. -/
def sees_mz (locals : load_locals) (data : List Nat) : Prop :=
  buf_byte (header_buf locals data) 0 = 0x4D ∧ buf_byte (header_buf locals data) 1 = 0x5A

instance (locals : load_locals) (data : List Nat) : Decidable (sees_mz locals data) := by
  unfold sees_mz; infer_instance

/-- The header the loader works with. -/
def exe_header (locals : load_locals) (data : List Nat) : exehdr__s :=
  parse_exehdr (header_buf locals data)

/-- The registers `load_program` sets for a COM image. -/
def com_regs : x86_regs :=
  { eax := 0, ebx := 0, ecx := 0, edx := 0, esi := 0, edi := 0, ebp := 0,
    esp := 0xFFFE, eip := 0x100, eflags := 0x0200,
    cs := 0x2000, ds := 0x2000, es := 0x2000, ss := 0x2000, fs := 0, gs := 0 }

/-- The registers `load_program` sets for an EXE image with header `hdr`. -/
def exe_regs (hdr : exehdr__s) : x86_regs :=
  { eax := 0, ebx := 0, ecx := 0, edx := 0, esi := 0, edi := 0, ebp := 0,
    esp := hdr.init_sp, eip := hdr.init_ip, eflags := 0x0200,
    cs := (0x2010 + hdr.init_cs) % 65536, ds := 0x2000, es := 0x2000,
    ss := (0x2010 + hdr.init_ss) % 65536, fs := 0, gs := 0 }

/-- The code bytes the EXE branch copies: what `fread` delivers for a request
of `exe_binsize` bytes at file offset `exe_offset`. -/
def exe_code (hdr : exehdr__s) (data : List Nat) : List Nat :=
  (data.drop (exe_offset hdr)).take (exe_binsize hdr)

/-- A host whose directory holds the one readable file `name` with contents
`data`. -/
def file_host (name : List Nat) (data : List Nat) : host_env :=
  { stdout := [], stdin := [],
    files := fun n => if n = name then some { data := data, readable := true, writable := true }
                      else none,
    may_create := fun _ => true, char_signed := true }

/-- The file name `A`. -/
def image_name : List Nat := [0x41]

/-- The state `load_program` leaves. -/
def loaded (fname : List Nat) (locals : load_locals) (sys : system__s) : system__s :=
  (load_program fname locals sys).2

/-- The byte at offset `o` of the PSP. -/
def psp_byte (sys : system__s) (o : Nat) : Nat := sys.mem (0x20000 + o)

/-- The little-endian word at offset `o` of the PSP. -/
def psp_word (sys : system__s) (o : Nat) : Nat := word_at sys.mem (0x20000 + o)

/-- The relocation entries `(off[0], off[1])` the loop of `load_program` works
through, `count` of them from entry `i` on, for a file with contents `data`:
entry `i` is what `fread` leaves in `off` after a seek to `reltable + i * 4`.
Where the table lies inside the file these are the two 16-bit words at file
offset `reltable + 4 * i`. -/
def reloc_entries (data : List Nat) (reltable : Nat) : Nat → Nat → List Nat → List (Nat × Nat)
  | 0, _, _ => []
  | count + 1, i, off =>
      (buf_word (fread_over off ((data.drop (reltable + i * 4)).take 4)) 0,
        buf_word (fread_over off ((data.drop (reltable + i * 4)).take 4)) 2) ::
      reloc_entries data reltable count (i + 1)
        (fread_over off ((data.drop (reltable + i * 4)).take 4))

/-- The linear address a relocation entry `(off, seg)` names. -/
def reloc_target (e : Nat × Nat) : Nat := 0x20100 + e.2 * 16 + e.1

/-- The words two relocation entries name do not overlap. -/
def reloc_apart (e1 e2 : Nat × Nat) : Prop :=
  reloc_target e1 + 1 < reloc_target e2 ∨ reloc_target e2 + 1 < reloc_target e1

instance (e1 e2 : Nat × Nat) : Decidable (reloc_apart e1 e2) := by
  unfold reloc_apart; infer_instance

/-- Guest memory after the EXE branch has copied the code bytes and before it
relocates them. -/
def copied (locals : load_locals) (sys : system__s) (data : List Nat) : Nat → Nat :=
  store_bytes (psp_init sys.mem) 0x20100 (exe_code (exe_header locals data) data)

/-- What the loop does for one relocation entry: `*patch += SEG_LOAD`. -/
def patch_word (mem : Nat → Nat) (e : Nat × Nat) : Nat → Nat :=
  set_word mem (reloc_target e) ((get_word mem (reloc_target e) + 0x2010) % 65536)

/-- An EXE image of 36 bytes: a 28-byte header (one relocation entry, header of
two paragraphs, table at offset 28), the entry `(off = 0002h, seg = 0000h)`,
and the four code bytes `90 90 10 00`. -/
def reloc_image : List Nat :=
  [0x4D, 0x5A, 0x24, 0x00, 0x01, 0x00, 0x01, 0x00, 0x02, 0x00, 0x00, 0x00, 0xFF, 0xFF,
   0x00, 0x00, 0xFE, 0xFF, 0x00, 0x00, 0x00, 0x00, 0x00, 0x00, 0x1C, 0x00, 0x00, 0x00,
   0x02, 0x00, 0x00, 0x00,
   0x90, 0x90, 0x10, 0x00]

/-- An EXE image of 66 bytes whose header declares an image of 32 bytes
(`filepages = 1`, `lastpagesize = 20h`) and a header of 64 bytes
(`hdrpara = 4`); the bytes `AA BB` lie at file offset 64. -/
def bad_geometry_image : List Nat :=
  [0x4D, 0x5A, 0x20, 0x00, 0x01, 0x00, 0x00, 0x00, 0x04, 0x00, 0x00, 0x00, 0xFF, 0xFF,
   0x00, 0x00, 0xFE, 0xFF, 0x00, 0x00, 0x00, 0x00, 0x00, 0x00, 0x1C, 0x00, 0x00, 0x00] ++
  List.replicate 36 0 ++ [0xAA, 0xBB]

/-- The COM image `MOV AH, 02h; MOV DL, c; INT 21h; MOV AX, 4C00h; INT 21h`. -/
def echo_image (c : Nat) : List Nat :=
  [0xB4, 0x02, 0xB2, c, 0xCD, 0x21, 0xB8, 0x00, 0x4C, 0xCD, 0x21]

/-- No contents for `hdr` and `off` on entry. -/
def no_locals : load_locals := { hdr := [], off := [] }

/-- The image size the header declares, as a number:
`filepages * 512` if `lastpagesize` is 0, else
`(filepages - 1) * 512 + lastpagesize`. -/
def image_bytes (hdr : exehdr__s) : Int :=
  if hdr.lastpagesize = 0 then (hdr.filepages : Int) * 512
  else ((hdr.filepages : Int) - 1) * 512 + (hdr.lastpagesize : Int)

/-- The relocation entries of an image, as the loader reads them. -/
def image_relocs (locals : load_locals) (data : List Nat) : List (Nat × Nat) :=
  reloc_entries data (exe_header locals data).reltable (exe_header locals data).numreloc 0
    locals.off

/-- What a run of `main` shows: the exit status, what `execute_instruction`
reported pass by pass, the bytes on stdout, and the run flag. -/
def run_summary (r : Option (Nat × List Bool × system__s)) :
    Option (Nat × List Bool × List Nat × Bool) :=
  r.map (fun x => (x.1, x.2.1, x.2.2.host.stdout, x.2.2.running))

/-- Whether the run of `main` on the echo image for the byte `c` ends after
five passes that each report a recognized instruction, with exactly `c` on
stdout, the run flag off and exit status 0. -/
def echo_ok (c : Nat) : Bool :=
  decide (run_summary
      (main image_name false no_locals (file_host image_name (echo_image c)) 1 6) =
    some (EXIT_SUCCESS, [true, true, true, true, true], [c], false))

/-- The 16-bit widened difference of `CMP AL, imm8`: `(uint16_t)(al - imm)`. -/
def wide_diff (al imm : Nat) : Nat := (((al : Int) - (imm : Int)) % 65536).toNat

/-- The 8-bit difference `al - imm`, the result canonical x86 takes the sign
flag from. -/
def narrow_diff (al imm : Nat) : Nat := (al + 256 - imm) % 256

/-- `CMP AL, 00h` (`3C 00`) at `2000:0100` with `AL = 80h`. -/
def cmp_sign_input : system__s :=
  { sample_sys [0x3C, 0x00] with regs := { sample_regs with eax := 0x80 } }

/-- The ModR/M `mod` field of the byte after the opcode. -/
def modrm_mod (sys : system__s) : Nat := (operand8 sys >>> 6) &&& 3

/-- `MOV [BX+SI], AL` (`88 00`, `mod = 0`) at `2000:0100`. -/
def mov_mem_input : system__s := sample_sys [0x88, 0x00]

/-- The selectors `dos_int21` has a case for. -/
def supported_selector (ah : Nat) : Bool :=
  ah = 0x01 || ah = 0x02 || ah = 0x06 || ah = 0x09 || ah = 0x0C || ah = 0x0F || ah = 0x10 ||
  ah = 0x14 || ah = 0x16 || ah = 0x19 || ah = 0x1A || ah = 0x25 || ah = 0x30 || ah = 0x35 ||
  ah = 0x4C

/-- The instruction at `CS:IP` is an `INT` that does nothing but advance `IP`:
`INT n` with `n` neither 20h nor 21h, or `INT 21h` with `AH` outside the
supported selectors, or `INT 21h` with `AH = 25h`. -/
def idle_int (sys : system__s) : Prop :=
  opcode_at sys = 0xCD ∧
  ((operand8 sys ≠ 0x20 ∧ operand8 sys ≠ 0x21) ∨
   (operand8 sys = 0x21 ∧ supported_selector (AH sys.regs) = false) ∨
   (operand8 sys = 0x21 ∧ AH sys.regs = 0x25))

/-- `INT 21h` with `AH = 25h` (set interrupt vector) at `2000:0100`. -/
def set_vector_input : system__s :=
  { sample_sys [0xCD, 0x21] with regs := { sample_regs with eax := 0x2500 } }

/-- The sub-functions for which service 0Ch re-enters the service layer. -/
def reentry (f : Nat) : Prop := f = 0x01 ∨ f = 0x06 ∨ f = 0x07 ∨ f = 0x08 ∨ f = 0x0A

instance (f : Nat) : Decidable (reentry f) := by unfold reentry; infer_instance

/-- The state with the input buffer emptied and stdin drained to `h`. -/
def flushed (sys : system__s) (h : host_env) : system__s :=
  { sys with input_pos := 0, input_len := 0, host := h }

/-- The state with `EAX` set to `v`. -/
def with_eax (sys : system__s) (v : Nat) : system__s :=
  { sys with regs := { sys.regs with eax := v } }

/-- A bound on the passes of the drain loop of service 0Ch: one per stdin
event and one per byte waiting. -/
def pending : List stdin_event → Nat
  | [] => 0
  | stdin_event.ready (read_result.data d) :: rest => 1 + d.length + pending rest
  | _ :: rest => 1 + pending rest

/-- Service 0Ch with `AL = 01h` entered while stdin holds one pending read of
the bytes `yes`. -/
def flush_input : system__s :=
  { sample_sys [0xCD, 0x21] with
    regs := { sample_regs with eax := 0x0C01 },
    input_buffer := fun i => if i = 0 then 0x41 else 0, input_len := 1, input_pos := 0,
    host := { sample_host with
      stdin := [stdin_event.ready (read_result.data [0x79, 0x65, 0x73])] } }

/-- The state after `k` successive calls of the service layer. -/
def calls (fuel : Nat) : Nat → system__s → Option system__s
  | 0, s => some s
  | k + 1, s =>
      match dos_int21 fuel s with
      | some s1 => calls fuel k s1
      | none => none

/-- The bytes of `bs` are held unread in the input buffer, from the read
cursor on. -/
def unread (sys : system__s) (bs : List Nat) : Prop :=
  0 ≤ sys.input_pos ∧ sys.input_pos + (bs.length : Int) ≤ sys.input_len ∧
  ∀ i, i < bs.length → sys.input_buffer (sys.input_pos.toNat + i) = bs.getD i 0

/-- The host delivers no byte to one attempt of `read_buffered_input`: `poll`
finds nothing, or the `read` that follows returns no byte. -/
def quiet (h : host_env) : Prop :=
  (host_poll h).1 = false ∨ (host_read (host_poll h).2 255).1 ≤ 0

/-- Service 01h entered with the four bytes `yes\n` unread in the input
buffer. -/
def yes_input : system__s :=
  { sample_sys [0xCD, 0x21] with
    regs := { sample_regs with eax := 0x0100 },
    input_buffer := fun i => [0x79, 0x65, 0x73, 0x0A].getD i 0, input_len := 4, input_pos := 0 }

/-- The fields of the FCB at linear address `fcb`, read back from guest
memory. -/
def fcb_drive (mem : Nat → Nat) (fcb : Nat) : Nat := mem (fcb + FCB_DRIVE)
def fcb_cblock (mem : Nat → Nat) (fcb : Nat) : Nat := get_word mem (fcb + FCB_CBLOCK)
def fcb_recsize (mem : Nat → Nat) (fcb : Nat) : Nat := get_word mem (fcb + FCB_RECSIZE)
def fcb_size (mem : Nat → Nat) (fcb : Nat) : Nat := get_dword mem (fcb + FCB_SIZE)
def fcb_crecnum (mem : Nat → Nat) (fcb : Nat) : Nat := mem (fcb + FCB_CRECNUM)

/-- The host file name `open_file` builds from the FCB at `DS:DX`. -/
def fcb_file_name (sys : system__s) : List Nat :=
  c_string (mkfilename sys.mem (ds_dx sys))

/-- The `fopen` calls of `open_file` yield a stream: for create the one with
mode `w+b`, for open the one with mode `r+b` or, failing that, the one with
mode `rb`. -/
def host_opens (sys : system__s) (create : Bool) : Prop :=
  if create then (fopen_wplus sys.host (fcb_file_name sys)).1 ≠ none
  else fopen_rplus sys.host (fcb_file_name sys) ≠ none ∨
       fopen_r sys.host (fcb_file_name sys) ≠ none

/-- The size of the host file of that name, 0 if there is none. -/
def file_size (h : host_env) (name : List Nat) : Nat :=
  match h.files name with
  | some f => f.data.length
  | none => 0

/-- The slot `open_file` chooses: for create the slot that already holds the
FCB pointer, if there is one; otherwise, and for open always, the value of the
free-slot loop. -/
def open_slot (sys : system__s) (fcb : Nat) (create : Bool) : Nat :=
  if create then
    match find_fcb sys fcb with
    | some i => i
    | none => first_free sys
  else first_free sys

/-- The stream the `fopen` calls of `open_file` yield, and the host
afterwards. -/
def open_stream (sys : system__s) (fcb : Nat) (create : Bool) : Option FILE × host_env :=
  if create then fopen_wplus sys.host (c_string (mkfilename sys.mem fcb))
  else
    match fopen_rplus sys.host (c_string (mkfilename sys.mem fcb)) with
    | some f => (some f, sys.host)
    | none => (fopen_r sys.host (c_string (mkfilename sys.mem fcb)), sys.host)

/-- Guest memory after `open_file` has filled in the FCB at `fcb`. -/
def fcb_opened (mem : Nat → Nat) (fcb size : Nat) : Nat → Nat :=
  set_byte (set_dword (set_word (set_byte (set_word mem (fcb + FCB_CBLOCK) 0)
    (fcb + FCB_CRECNUM) 0) (fcb + FCB_RECSIZE) 128) (fcb + FCB_SIZE) size) (fcb + FCB_DRIVE) 3

/-- Guest memory with an FCB at `2000:005C` naming the file `A`, and
`INT 21h` at `2000:0100`. -/
def fcb_mem : Nat → Nat :=
  store_bytes (sample_mem [0xCD, 0x21]) 0x2005C
    [0x00, 0x41, 0x20, 0x20, 0x20, 0x20, 0x20, 0x20, 0x20, 0x20, 0x20, 0x20]

/-- A host whose directory holds the one file `A` with contents `data`,
readable, and writable or not. -/
def one_file_host (data : List Nat) (writable : Bool) : host_env :=
  { stdout := [], stdin := [],
    files := fun n => if n = [0x41] then some { data := data, readable := true,
                                                writable := writable }
                      else none,
    may_create := fun _ => true, char_signed := true }

/-- Service `ah` entered with `DS:DX = 2000:005C`, where an FCB names the file
`A`, no slot taken, the host holding `A` with contents `data`. -/
def fcb_input (ah : Nat) (data : List Nat) (writable : Bool) : system__s :=
  { sample_sys [0xCD, 0x21] with
    regs := { sample_regs with eax := ah * 256, edx := 0x005C },
    mem := fcb_mem, host := one_file_host data writable }

/-- The handle-table invariant: for every slot below 16 the FCB pointer is set
exactly when the host stream is. -/
def table_ok (sys : system__s) : Prop :=
  ∀ i, i < 16 → (sys.fcbs i).isSome = (sys.fp i).isSome

instance (sys : system__s) : Decidable (table_ok sys) := by unfold table_ok; infer_instance

/-- The slots below 16 that hold an FCB pointer. -/
def occupied (sys : system__s) : List Nat :=
  (List.range 16).filter (fun i => (sys.fcbs i).isSome)

/-- The linear address of the DTA. -/
def dta_addr (sys : system__s) : Nat := seg_off_to_linear sys.dtaseg sys.dtaoff

/-- The record area of `n` bytes at `dta` contains neither the `recsize` field
nor the `crecnum` byte of the FCB at `fcb`. -/
def record_clear (dta n fcb : Nat) : Prop :=
  ∀ i, i < n → dta + i ≠ fcb + FCB_RECSIZE ∧ dta + i ≠ fcb + FCB_RECSIZE + 1 ∧
    dta + i ≠ fcb + FCB_CRECNUM

instance (dta n fcb : Nat) : Decidable (record_clear dta n fcb) := by
  unfold record_clear; infer_instance

/-- Service 14h entered with `DS:DX = 2000:005C`: the FCB there has
`recsize = 4`, sits in slot 0 with the 6-byte host file `A` open at position
0, and the DTA is `dtaseg:dtaoff`. -/
def seq_input (dtaseg dtaoff : Nat) : system__s :=
  { sample_sys [0xCD, 0x21] with
    regs := { sample_regs with eax := 0x1400, edx := 0x005C },
    mem := store_bytes fcb_mem 0x2006A [0x04, 0x00],
    fcbs := fun i => if i = 0 then some 0x2005C else none,
    fp := fun i => if i = 0 then some { name := [0x41], pos := 0 } else none,
    dtaseg := dtaseg, dtaoff := dtaoff,
    host := one_file_host [0x41, 0x42, 0x43, 0x44, 0x45, 0x46] true }

/-- The byte pair `CD 21` lies at linear address `a`. -/
def int21_at (mem : Nat → Nat) (a : Nat) : Prop := mem a = 0xCD ∧ mem (a + 1) = 0x21

instance (mem : Nat → Nat) (a : Nat) : Decidable (int21_at mem a) := by
  unfold int21_at; infer_instance

/-- The state after the watchdog has advanced `eip` by `i`. -/
def skip_to (sys : system__s) (i : Nat) : system__s :=
  { sys with regs := { sys.regs with eip := (sys.regs.eip + i) % 4294967296 } }

/-- The first `k` passes through the body of the main loop: what
`execute_instruction` reported in each, and the state after the last. -/
def run_passes (fuel : Nat) : Nat → main_state → Option (List Bool × main_state)
  | 0, st => some ([], st)
  | k + 1, st =>
      match run_passes fuel k st with
      | none => none
      | some (trace, st1) =>
          match main_loop_body fuel st1 with
          | none => none
          | some (executed, _, st2) => some (trace ++ [executed], st2)

/-- The number of passes at the end of a trace that reported an unrecognized
opcode. -/
def trailing_unrecognized (trace : List Bool) : Nat :=
  (trace.reverse.takeWhile (fun e => !e)).length

/-- A state in its 10001st pass without a recognized instruction: `CS:IP` is
`2000:FFFE`, guest memory is `0xCC` everywhere except for `CD 21` at linear
`0x30001`, two bytes past the end of the code segment. -/
def watchdog_wrap_input : main_state :=
  { sys := { sample_sys [] with
      regs := { sample_regs with eip := 0xFFFE },
      mem := fun a => if a = 0x30001 then 0xCD else if a = 0x30002 then 0x21 else 0xCC },
    cycles_without_io := 10000 }

/-- `PUSH AX; POP AX` (`50 58`) at `2000:0100` with `AX = 1234h` and the stack
pointer at `FFFEh`. -/
def push_pop_ax_input : system__s :=
  { sample_sys [0x50, 0x58] with regs := { sample_regs with eax := 0x1234 } }

/-- The bytes of a field of `len` bytes that precede its first space, all of
them if it has none. -/
def trimmed (mem : Nat → Nat) (field len : Nat) : List Nat :=
  (mem_bytes mem field len).takeWhile (fun b => b != 0x20)

/-- The host file name in the words of the specification: the trimmed name,
then, if and only if the first extension byte is not a space, a dot and the
trimmed extension, then a NUL. -/
def file_name_spec (mem : Nat → Nat) (fcb : Nat) : List Nat :=
  trimmed mem (fcb + 1) 8 ++
    (if mem (fcb + 9) ≠ 0x20 then 0x2E :: trimmed mem (fcb + 9) 3 else []) ++ [0]

/-- An FCB at linear `0x2005C` with the name `RACTER  ` and the extension
`EX `. -/
def name_mem : Nat → Nat :=
  store_bytes (sample_mem []) 0x2005C
    [0x00, 0x52, 0x41, 0x43, 0x54, 0x45, 0x52, 0x20, 0x20, 0x45, 0x58, 0x20]

/-- Service 0Fh entered with `DS:DX = 2000:005C`, where an FCB names the file
`A`, while each of the 16 slots holds another FCB pointer and an open stream. -/
def full_table_input (ah : Nat) : system__s :=
  { fcb_input ah [1, 2, 3] true with
    fcbs := fun i => if i < 16 then some (0x30000 + 64 * i) else none,
    fp := fun i => if i < 16 then some { name := [0x42], pos := 0 } else none }

/-- The two conditions on which a service can fail to return a state: for
service 09h a `'$'` lies inside the guest memory array at offset `k` from
linear(DS, DX), so the scan ends inside the array; for services 10h and 14h
the slot that holds the FCB pointer holds an open stream, so `fclose` and
`fread` are not called on `NULL`. The other services return on every state. -/
def service_defined (sys : system__s) (k : Nat) : Prop :=
  (AH sys.regs = 0x09 → in_mem (ds_dx sys + k) ∧ sys.mem (ds_dx sys + k) = 0x24) ∧
  (AH sys.regs = 0x10 ∨ AH sys.regs = 0x14 →
    ∀ h, find_fcb sys (ds_dx sys) = some h → sys.fp h ≠ none)

/-! ## Bit-level arithmetic -/

/-- Masking with a run of `k` one-bits that starts at bit `j` isolates that field. -/
theorem and_field (x j k : Nat) :
    x &&& ((2 ^ k - 1) * 2 ^ j) = x / 2 ^ j % 2 ^ k * 2 ^ j := by
  apply Nat.eq_of_testBit_eq
  intro i
  rw [← Nat.shiftLeft_eq, ← Nat.shiftLeft_eq, ← Nat.shiftRight_eq_div_pow]
  simp only [Nat.testBit_and, Nat.testBit_shiftLeft, Nat.testBit_two_pow_sub_one,
    Nat.testBit_mod_two_pow, Nat.testBit_shiftRight]
  by_cases hj : j ≤ i
  · have e : j + (i - j) = i := by omega
    by_cases hk : i - j < k <;> simp [hj, hk, e]
  · simp [hj]

theorem and_FF (x : Nat) : x &&& 0xFF = x % 256 := by
  have h := and_field x 0 8
  norm_num at h
  exact h

theorem and_FFFF (x : Nat) : x &&& 0xFFFF = x % 65536 := by
  have h := and_field x 0 16
  norm_num at h
  exact h

theorem and_FF00 (x : Nat) : x &&& 0xFF00 = x / 256 % 256 * 256 := by
  have h := and_field x 8 8
  norm_num at h
  exact h

theorem and_FFFFFF00 (x : Nat) (hx : x < 2 ^ 32) : x &&& 0xFFFFFF00 = x / 256 * 256 := by
  have h := and_field x 8 24
  norm_num at h hx
  rw [h]
  omega

theorem and_FFFF0000 (x : Nat) (hx : x < 2 ^ 32) : x &&& 0xFFFF0000 = x / 65536 * 65536 := by
  have h := and_field x 16 16
  norm_num at h hx
  rw [h]
  omega

/-- An `or` of a multiple of `2^k` with a value below `2^k` is their sum. -/
theorem or_eq_add (k a b : Nat) (hb : b < 2 ^ k) : a * 2 ^ k ||| b = a * 2 ^ k + b := by
  rw [Nat.mul_comm a (2 ^ k)]
  exact (Nat.mul_add_lt_is_or hb a).symm

theorem and_FFFF00FF (x : Nat) (hx : x < 2 ^ 32) :
    x &&& 0xFFFF00FF = x / 65536 * 65536 + x % 256 := by
  have e : (0xFFFF00FF : Nat) = 0xFFFF0000 ||| 0xFF := by decide
  rw [e, Nat.and_or_distrib_left, and_FFFF0000 x hx, and_FF]
  have h := or_eq_add 16 (x / 65536) (x % 256) (by norm_num; omega)
  norm_num at h
  exact h

theorem shr_eq_div (x k : Nat) : x >>> k = x / 2 ^ k := Nat.shiftRight_eq_div_pow x k

theorem shl_eq_mul (x k : Nat) : x <<< k = x * 2 ^ k := Nat.shiftLeft_eq x k

/-- `(x & 0xFFFFFF00) | b`: the low byte becomes `b`, the rest of `x` stays. -/
theorem low_byte_set (x b : Nat) (hx : x < 2 ^ 32) (hb : b < 256) :
    (x &&& 0xFFFFFF00) ||| b = x / 256 * 256 + b := by
  rw [and_FFFFFF00 x hx]
  have h := or_eq_add 8 (x / 256) b (by norm_num; exact hb)
  norm_num at h
  exact h

/-- `(x & 0xFFFF00FF) | (b << 8)`: the second byte becomes `b`, the rest stays. -/
theorem high_byte_set (x b : Nat) (hx : x < 2 ^ 32) (hb : b < 256) :
    (x &&& 0xFFFF00FF) ||| (b <<< 8) = x / 65536 * 65536 + b * 256 + x % 256 := by
  rw [and_FFFF00FF x hx, shl_eq_mul]
  have h1 := or_eq_add 16 (x / 65536) (x % 256) (by norm_num; omega)
  have h2 := or_eq_add 8 b (x % 256) (by norm_num; omega)
  have h3 := or_eq_add 16 (x / 65536) (b * 256 + x % 256) (by norm_num; omega)
  norm_num at h1 h2 h3 ⊢
  rw [← h1, Nat.or_assoc, Nat.or_comm (x % 256) (b * 256), h2, h3]
  omega

/-- `(x & 0xFFFF0000) | w`: the low word becomes `w`. -/
theorem low_word_set (x w : Nat) (hx : x < 2 ^ 32) (hw : w < 65536) :
    (x &&& 0xFFFF0000) ||| w = x / 65536 * 65536 + w := by
  rw [and_FFFF0000 x hx]
  have h := or_eq_add 16 (x / 65536) w (by norm_num; exact hw)
  norm_num at h
  exact h

/-- `(x & 0xFF00) | b`: `AH` kept, `AL` set, upper half cleared. -/
theorem ah_keep_al_set (x b : Nat) (hb : b < 256) :
    (x &&& 0xFF00) ||| b = x / 256 % 256 * 256 + b := by
  rw [and_FF00]
  have h := or_eq_add 8 (x / 256 % 256) b (by norm_num; exact hb)
  norm_num at h
  exact h

/-- A little-endian word of two guest bytes. -/
theorem get_word_eq (mem : Nat → Nat) (hm : mem_ok mem) (a : Nat) :
    get_word mem a = mem a + mem (a + 1) * 256 := by
  unfold get_word
  have h0 := hm a
  have h1 := hm (a + 1)
  rw [shl_eq_mul, Nat.or_comm]
  have h := or_eq_add 8 (mem (a + 1)) (mem a) (by norm_num; exact h0)
  norm_num at h ⊢
  rw [h]
  omega

theorem get_word_lt (mem : Nat → Nat) (a : Nat) : get_word mem a < 65536 := by
  unfold get_word
  omega


theorem testBit_of_lt_of_le (x i : Nat) (hx : x < 2 ^ 32) (hi : 32 ≤ i) : x.testBit i = false := by
  apply Nat.testBit_lt_two_pow
  calc x < 2 ^ 32 := hx
    _ ≤ 2 ^ i := Nat.pow_le_pow_right (by norm_num) hi

theorem testBit_FFFFFF3E (i : Nat) :
    (0xFFFFFF3E : Nat).testBit i =
      (decide (i < 32) && !decide (i = 0) && !decide (i = 6) && !decide (i = 7)) := by
  by_cases h : i < 32
  · interval_cases i <;> rfl
  · rw [testBit_of_lt_of_le _ i (by norm_num) (by omega)]
    simp [h]

theorem testBit_0040 (i : Nat) : (0x0040 : Nat).testBit i = decide (i = 6) := by
  have h := @Nat.testBit_two_pow 6 i
  norm_num at h
  simp [h, eq_comm]

theorem testBit_0080 (i : Nat) : (0x0080 : Nat).testBit i = decide (i = 7) := by
  have h := @Nat.testBit_two_pow 7 i
  norm_num at h
  simp [h, eq_comm]

theorem testBit_0001 (i : Nat) : (0x0001 : Nat).testBit i = decide (i = 0) := by
  have h := @Nat.testBit_two_pow 0 i
  norm_num at h
  simp only [h, eq_comm]

/-- A single-bit mask test is the bit itself. -/
theorem and_bit_ne_zero (x k : Nat) : x &&& 2 ^ k ≠ 0 ↔ x.testBit k = true := by
  have h := and_field x k 1
  norm_num at h
  rw [h, Nat.testBit_to_div_mod]
  have hp : 0 < 2 ^ k := Nat.two_pow_pos k
  have h2 : x / 2 ^ k % 2 = 0 ∨ x / 2 ^ k % 2 = 1 := by omega
  rcases h2 with h2 | h2 <;> simp [h2, hp.ne']

theorem cmp_result_zero (al imm : Nat) (ha : al < 256) (hi : imm < 256) :
    (((al : Int) - (imm : Int)) % 65536).toNat = 0 ↔ al = imm := by omega

theorem cmp_result_sign (al imm : Nat) (ha : al < 256) (hi : imm < 256) :
    (((al : Int) - (imm : Int)) % 65536).toNat &&& 0x8000 ≠ 0 ↔ al < imm := by
  have h := and_field (((al : Int) - (imm : Int)) % 65536).toNat 15 1
  norm_num at h
  rw [h]
  omega

/-- Bit `i` of the flag word after `CMP AL, imm8`. -/
theorem cmp_flags_testBit (e al imm i : Nat) (he : e < 2 ^ 32) (ha : al < 256) (hi : imm < 256) :
    (cmp_flags e al imm).testBit i =
      if i = 0 then decide (al < imm)
      else if i = 6 then decide (al = imm)
      else if i = 7 then decide (al < imm)
      else e.testBit i := by
  unfold cmp_flags
  simp only [cmp_result_zero al imm ha hi, cmp_result_sign al imm ha hi]
  have hhi : ¬ i < 32 → e.testBit i = false := fun h => testBit_of_lt_of_le e i he (by omega)
  by_cases c1 : al = imm <;> by_cases c2 : al < imm <;> by_cases i0 : i = 0 <;>
    by_cases i6 : i = 6 <;> by_cases i7 : i = 7 <;> by_cases i32 : i < 32 <;>
    simp [c1, c2, i0, i6, i7, i32, hhi, Nat.testBit_or, Nat.testBit_and, testBit_FFFFFF3E,
      testBit_0040, testBit_0080, testBit_0001]

theorem sample_mem_ok (code : List Nat) (h : ∀ b ∈ code, b < 256) : mem_ok (sample_mem code) := by
  intro a
  unfold sample_mem
  split
  · rename_i hc
    rw [List.getD_eq_getElem _ _ (by omega)]
    exact h _ (List.getElem_mem _)
  · norm_num

theorem sample_sys_ok (code : List Nat) (h : ∀ b ∈ code, b < 256) : state_ok (sample_sys code) :=
  ⟨by show regs_ok sample_regs; decide, sample_mem_ok code h⟩


/-! ## One step, opcode by opcode -/

theorem exec_cmp (fuel : Nat) (sys : system__s) (hop : opcode_at sys = 0x3C) :
    execute_instruction fuel sys = some (true, { sys with regs := { sys.regs with
      eflags := cmp_flags sys.regs.eflags (AL sys.regs) (operand8 sys),
      eip := (sys.regs.eip + 2) % 4294967296 } }) := by
  unfold opcode_at ip_addr at hop
  simp only [execute_instruction, hop, AL, operand8, ip_addr]

theorem eip_lt (sys : system__s) (hok : state_ok sys) : sys.regs.eip < 4294967296 := by
  have h := hok.1.2.2.2.2.2.2.2.2.1
  norm_num at h
  exact h

theorem esp_lt (sys : system__s) (hok : state_ok sys) : sys.regs.esp < 4294967296 := by
  have h := hok.1.2.2.2.2.2.2.2.1
  norm_num at h
  exact h

theorem eflags_lt (sys : system__s) (hok : state_ok sys) : sys.regs.eflags < 2 ^ 32 :=
  hok.1.2.2.2.2.2.2.2.2.2.1

theorem AL_lt (r : x86_regs) : AL r < 256 := by
  unfold AL
  rw [and_FF]
  omega

theorem operand8_lt (sys : system__s) (hok : state_ok sys) : operand8 sys < 256 := hok.2 _

theorem ZF_iff (r : x86_regs) : ZF r ↔ r.eflags.testBit 6 = true := by
  have h := and_bit_ne_zero r.eflags 6
  norm_num at h
  unfold ZF
  simp [h]

theorem CF_iff (r : x86_regs) : CF r ↔ r.eflags.testBit 0 = true := by
  have h := and_bit_ne_zero r.eflags 0
  norm_num at h
  unfold CF
  simp [h]

theorem SF_iff (r : x86_regs) : SF r ↔ r.eflags.testBit 7 = true := by
  have h := and_bit_ne_zero r.eflags 7
  norm_num at h
  unfold SF
  simp [h]


theorem exec_jz (fuel : Nat) (sys : system__s) (hop : opcode_at sys = 0x74) :
    execute_instruction fuel sys = some (true, { sys with regs := { sys.regs with
      eip := if sys.regs.eflags &&& 0x0040 ≠ 0 then
          (((sys.regs.eip + 2) % 4294967296 + int8_to_u32 (operand8 sys)) % 4294967296) &&& 0xFFFF
        else (sys.regs.eip + 2) % 4294967296 } }) := by
  unfold opcode_at ip_addr at hop
  simp only [execute_instruction, hop, operand8, ip_addr]

theorem exec_jnz (fuel : Nat) (sys : system__s) (hop : opcode_at sys = 0x75) :
    execute_instruction fuel sys = some (true, { sys with regs := { sys.regs with
      eip := if sys.regs.eflags &&& 0x0040 = 0 then
          (((sys.regs.eip + 2) % 4294967296 + int8_to_u32 (operand8 sys)) % 4294967296) &&& 0xFFFF
        else (sys.regs.eip + 2) % 4294967296 } }) := by
  unfold opcode_at ip_addr at hop
  simp only [execute_instruction, hop, operand8, ip_addr]

theorem exec_jmp (fuel : Nat) (sys : system__s) (hop : opcode_at sys = 0xEB) :
    execute_instruction fuel sys = some (true, { sys with regs := { sys.regs with
      eip := ((sys.regs.eip + 2 + int8_to_u32 (operand8 sys)) % 4294967296) &&& 0xFFFF } }) := by
  unfold opcode_at ip_addr at hop
  simp only [execute_instruction, hop, operand8, ip_addr]

/-- The displacement byte sits right after the opcode when `IP` is not at the
end of the segment. -/
theorem disp_eq_operand8 (sys : system__s) :
    sys.mem (seg_off_to_linear sys.regs.cs (IP sys.regs + 1)) = operand8 sys := by
  unfold operand8 ip_addr seg_off_to_linear IP
  congr 1


theorem exec_mov_r8_imm (fuel : Nat) (sys : system__s) (k : Nat) (hk : k < 8)
    (hop : opcode_at sys = 0xB0 + k) :
    execute_instruction fuel sys = some (true, { sys with regs :=
      { set_reg8 sys.regs k (operand8 sys) with eip := (sys.regs.eip + 2) % 4294967296 } }) := by
  unfold opcode_at ip_addr at hop
  interval_cases k <;> norm_num at hop <;>
    simp only [execute_instruction, hop, operand8, ip_addr, set_reg8]

theorem exec_mov_rm8_r8 (fuel : Nat) (sys : system__s) (hop : opcode_at sys = 0x88)
    (hmod : (operand8 sys >>> 6) &&& 3 = 3) :
    execute_instruction fuel sys = some (true, { sys with regs :=
      { set_reg8 sys.regs (operand8 sys &&& 7) (reg8 sys.regs ((operand8 sys >>> 3) &&& 7)) with
        eip := (sys.regs.eip + 2) % 4294967296 } }) := by
  unfold opcode_at ip_addr at hop
  unfold operand8 ip_addr at hmod
  have e : ∀ d v, (set_reg8 sys.regs d v).eip = sys.regs.eip := by
    intro d v
    unfold set_reg8
    split <;> rfl
  simp only [execute_instruction, hop, operand8, ip_addr, hmod, if_true, e]

theorem reg8_lt (r : x86_regs) (i : Nat) : reg8 r i < 256 := by
  unfold reg8
  split <;> first | omega | (simp only [and_FF]; omega)

/-- The three fields of `(x & 0xFFFFFF00) | v`. -/
theorem low_byte_set_fields (x v : Nat) (hx : x < 2 ^ 32) (hv : v < 256) :
    ((x &&& 0xFFFFFF00) ||| v) &&& 0xFF = v ∧
    (((x &&& 0xFFFFFF00) ||| v) >>> 8) &&& 0xFF = (x >>> 8) &&& 0xFF ∧
    ((x &&& 0xFFFFFF00) ||| v) >>> 16 = x >>> 16 := by
  simp only [low_byte_set x v hx hv, and_FF, shr_eq_div]
  omega

/-- The three fields of `(x & 0xFFFF00FF) | (v << 8)`. -/
theorem high_byte_set_fields (x v : Nat) (hx : x < 2 ^ 32) (hv : v < 256) :
    ((x &&& 0xFFFF00FF) ||| (v <<< 8)) &&& 0xFF = x &&& 0xFF ∧
    (((x &&& 0xFFFF00FF) ||| (v <<< 8)) >>> 8) &&& 0xFF = v ∧
    ((x &&& 0xFFFF00FF) ||| (v <<< 8)) >>> 16 = x >>> 16 := by
  simp only [high_byte_set x v hx hv, and_FF, shr_eq_div]
  omega

/-- Writing byte register `d` stores `v` there and leaves the seven other byte
registers, the upper halves and every other field of the register file alone. -/
theorem set_reg8_spec (r : x86_regs) (hr : regs_ok r) (d v : Nat) (hd : d < 8) (hv : v < 256) :
    reg8 (set_reg8 r d v) d = v ∧
    (∀ j, j < 8 → j ≠ d → reg8 (set_reg8 r d v) j = reg8 r j) ∧
    (set_reg8 r d v).eax >>> 16 = r.eax >>> 16 ∧ (set_reg8 r d v).ebx >>> 16 = r.ebx >>> 16 ∧
    (set_reg8 r d v).ecx >>> 16 = r.ecx >>> 16 ∧ (set_reg8 r d v).edx >>> 16 = r.edx >>> 16 ∧
    set_reg8 r d v = { r with eax := (set_reg8 r d v).eax, ebx := (set_reg8 r d v).ebx,
                              ecx := (set_reg8 r d v).ecx, edx := (set_reg8 r d v).edx } := by
  obtain ⟨ha, hb, hc, hdx, -⟩ := hr
  obtain ⟨la1, la2, la3⟩ := low_byte_set_fields r.eax v ha hv
  obtain ⟨lb1, lb2, lb3⟩ := low_byte_set_fields r.ebx v hb hv
  obtain ⟨lc1, lc2, lc3⟩ := low_byte_set_fields r.ecx v hc hv
  obtain ⟨ld1, ld2, ld3⟩ := low_byte_set_fields r.edx v hdx hv
  obtain ⟨ua1, ua2, ua3⟩ := high_byte_set_fields r.eax v ha hv
  obtain ⟨ub1, ub2, ub3⟩ := high_byte_set_fields r.ebx v hb hv
  obtain ⟨uc1, uc2, uc3⟩ := high_byte_set_fields r.ecx v hc hv
  obtain ⟨ud1, ud2, ud3⟩ := high_byte_set_fields r.edx v hdx hv
  refine ⟨?_, ?_, ?_, ?_, ?_, ?_, ?_⟩
  · interval_cases d <;>
      simp only [reg8, set_reg8, la1, lb1, lc1, ld1, ua2, ub2, uc2, ud2]
  · intro j hj hne
    interval_cases d <;> interval_cases j <;>
      first
      | exact absurd rfl hne
      | simp only [reg8, set_reg8, la2, lb2, lc2, ld2, ua1, ub1, uc1, ud1]
  · interval_cases d <;> simp only [set_reg8, la3, ua3]
  · interval_cases d <;> simp only [set_reg8, lb3, ub3]
  · interval_cases d <;> simp only [set_reg8, lc3, uc3]
  · interval_cases d <;> simp only [set_reg8, ld3, ud3]
  · interval_cases d <;> simp only [set_reg8]


theorem and_7_lt (x : Nat) : x &&& 7 < 8 := by
  have h := and_field x 0 3
  norm_num at h
  rw [h]
  omega


theorem exec_push (fuel : Nat) (sys : system__s) (hop : opcode_at sys = 0x50) :
    execute_instruction fuel sys = some (true, { sys with
      mem := set_word sys.mem
        (seg_off_to_linear sys.regs.ss (((sys.regs.esp + 4294967294) % 4294967296) &&& 0xFFFF))
        (sys.regs.eax &&& 0xFFFF),
      regs := { sys.regs with
        esp := ((sys.regs.esp + 4294967294) % 4294967296) &&& 0xFFFF,
        eip := (sys.regs.eip + 1) % 4294967296 } }) := by
  unfold opcode_at ip_addr at hop
  simp only [execute_instruction, hop]

theorem exec_pop (fuel : Nat) (sys : system__s) (hop : opcode_at sys = 0x58) :
    execute_instruction fuel sys = some (true, { sys with regs := { sys.regs with
      eax := (sys.regs.eax &&& 0xFFFF0000) |||
        get_word sys.mem (seg_off_to_linear sys.regs.ss (sys.regs.esp &&& 0xFFFF)),
      esp := ((sys.regs.esp + 2) % 4294967296) &&& 0xFFFF,
      eip := (sys.regs.eip + 1) % 4294967296 } }) := by
  unfold opcode_at ip_addr at hop
  simp only [execute_instruction, hop]

theorem exec_default (fuel : Nat) (sys : system__s) (hop : recognized (opcode_at sys) = false) :
    execute_instruction fuel sys = some (false,
      { sys with regs := { sys.regs with eip := (sys.regs.eip + 1) % 4294967296 } }) := by
  unfold opcode_at ip_addr at hop
  unfold execute_instruction
  simp only
  generalize sys.mem (seg_off_to_linear sys.regs.cs (sys.regs.eip &&& 0xFFFF)) = op at hop ⊢
  simp [recognized] at hop
  split <;> first | rfl | (exfalso; omega)

/-- Reading back a word just stored. -/
theorem get_word_set_word (mem : Nat → Nat) (a w : Nat) (hw : w < 65536) :
    get_word (set_word mem a w) a = w := by
  unfold get_word set_word
  have h1 : ¬ a = a + 1 := by omega
  simp only [h1, if_false, if_true]
  rw [shl_eq_mul, Nat.or_comm, and_FF, shr_eq_div, and_FF]
  have h := or_eq_add 8 (w / 2 ^ 8 % 256) (w % 256) (by norm_num; omega)
  norm_num at h ⊢
  rw [h]
  omega

/-- A store of a word leaves every other address alone. -/
theorem set_word_other (mem : Nat → Nat) (a w x : Nat) (h0 : x ≠ a) (h1 : x ≠ a + 1) :
    set_word mem a w x = mem x := by
  unfold set_word
  simp only [h0, h1, if_false]



/-- The low word of `(x & 0xFFFF0000) | w`. -/
theorem low_word_set_low (x w : Nat) (hx : x < 2 ^ 32) (hw : w < 65536) :
    ((x &&& 0xFFFF0000) ||| w) &&& 0xFFFF = w := by
  rw [low_word_set x w hx hw, and_FFFF]
  omega

theorem and_FFFF_lt (x : Nat) : x &&& 0xFFFF < 65536 := by
  rw [and_FFFF]
  omega

/-- `SP` after `PUSH` then `POP`. -/
theorem sp_push_pop (x : Nat) :
    (((((x + 4294967294) % 4294967296) &&& 0xFFFF) + 2) % 4294967296 &&& 0xFFFF) &&& 0xFFFF
      = x &&& 0xFFFF := by
  simp only [and_FFFF]
  omega

/-- `SP` after `PUSH`. -/
theorem sp_push (x : Nat) :
    (((x + 4294967294) % 4294967296) &&& 0xFFFF) &&& 0xFFFF = ((x &&& 0xFFFF) + 65534) % 65536 := by
  simp only [and_FFFF]
  omega

/-- The effect of `PUSH AX`, field by field. -/
theorem push_effect (fuel : Nat) (sys : system__s) (hop : opcode_at sys = 0x50) :
    ∃ s1, execute_instruction fuel sys = some (true, s1) ∧
      s1.regs = { sys.regs with
        esp := ((sys.regs.esp + 4294967294) % 4294967296) &&& 0xFFFF,
        eip := (sys.regs.eip + 1) % 4294967296 } ∧
      s1.mem = set_word sys.mem
        (seg_off_to_linear sys.regs.ss (((sys.regs.esp + 4294967294) % 4294967296) &&& 0xFFFF))
        (sys.regs.eax &&& 0xFFFF) :=
  ⟨_, exec_push fuel sys hop, rfl, rfl⟩

/-- The effect of `POP AX`, field by field. -/
theorem pop_effect (fuel : Nat) (sys : system__s) (hop : opcode_at sys = 0x58) :
    ∃ s1, execute_instruction fuel sys = some (true, s1) ∧
      s1.regs = { sys.regs with
        eax := (sys.regs.eax &&& 0xFFFF0000) |||
          get_word sys.mem (seg_off_to_linear sys.regs.ss (sys.regs.esp &&& 0xFFFF)),
        esp := ((sys.regs.esp + 2) % 4294967296) &&& 0xFFFF,
        eip := (sys.regs.eip + 1) % 4294967296 } ∧
      s1.mem = sys.mem :=
  ⟨_, exec_pop fuel sys hop, rfl, rfl⟩

/-- The effect of an opcode without a case, field by field. -/
theorem default_effect (fuel : Nat) (sys : system__s) (hop : recognized (opcode_at sys) = false) :
    ∃ s1, execute_instruction fuel sys = some (false, s1) ∧
      s1 = { sys with regs := { sys.regs with eip := (sys.regs.eip + 1) % 4294967296 } } :=
  ⟨_, exec_default fuel sys hop, rfl⟩

/-- The opcode fetched after a `PUSH AX` whose word misses the next code byte. -/
theorem opcode_after_push (sys s1 : system__s) (hok : state_ok sys)
    (hr1 : s1.regs = { sys.regs with
        esp := ((sys.regs.esp + 4294967294) % 4294967296) &&& 0xFFFF,
        eip := (sys.regs.eip + 1) % 4294967296 })
    (hm1 : s1.mem = set_word sys.mem
        (seg_off_to_linear sys.regs.ss (((sys.regs.esp + 4294967294) % 4294967296) &&& 0xFFFF))
        (sys.regs.eax &&& 0xFFFF))
    (hfree : ∀ a, a = seg_off_to_linear sys.regs.ss ((SP sys.regs + 65534) % 65536) ∨
        a = seg_off_to_linear sys.regs.ss ((SP sys.regs + 65534) % 65536) + 1 →
      a ≠ seg_off_to_linear sys.regs.cs ((IP sys.regs + 1) % 65536)) :
    opcode_at s1 = sys.mem (seg_off_to_linear sys.regs.cs ((IP sys.regs + 1) % 65536)) := by
  have hip := eip_lt sys hok
  have hsp := esp_lt sys hok
  have e1 : ((sys.regs.eip + 1) % 4294967296) &&& 0xFFFF = (IP sys.regs + 1) % 65536 := by
    simp only [IP, and_FFFF]
    omega
  have e2 : ((sys.regs.esp + 4294967294) % 4294967296) &&& 0xFFFF
      = (SP sys.regs + 65534) % 65536 := by
    simp only [SP, and_FFFF]
    omega
  unfold opcode_at ip_addr
  rw [hm1, hr1]
  simp only
  rw [e1, e2]
  apply set_word_other
  · exact fun h => hfree _ (Or.inl rfl) h.symm
  · exact fun h => hfree _ (Or.inr rfl) h.symm


theorem exec_iret (fuel : Nat) (sys : system__s) (hop : opcode_at sys = 0xCF) :
    execute_instruction fuel sys = some (true, { sys with regs := { sys.regs with
      eip := get_word sys.mem (seg_off_to_linear sys.regs.ss (sys.regs.esp &&& 0xFFFF)),
      cs := get_word sys.mem (seg_off_to_linear sys.regs.ss (sys.regs.esp &&& 0xFFFF) + 2),
      eflags := get_word sys.mem (seg_off_to_linear sys.regs.ss (sys.regs.esp &&& 0xFFFF) + 4),
      esp := (sys.regs.esp + 6) % 4294967296 } }) := by
  unfold opcode_at ip_addr at hop
  simp only [execute_instruction, hop]

theorem exec_retf (fuel : Nat) (sys : system__s) (hop : opcode_at sys = 0xCB) :
    execute_instruction fuel sys = some (true, { sys with regs := { sys.regs with
      eip := get_word sys.mem (seg_off_to_linear sys.regs.ss (sys.regs.esp &&& 0xFFFF)),
      cs := get_word sys.mem (seg_off_to_linear sys.regs.ss (sys.regs.esp &&& 0xFFFF) + 2),
      esp := (sys.regs.esp + 4) % 4294967296 } }) := by
  unfold opcode_at ip_addr at hop
  simp only [execute_instruction, hop]

theorem exec_ret (fuel : Nat) (sys : system__s) (hop : opcode_at sys = 0xC3) :
    execute_instruction fuel sys = some (true, { sys with regs := { sys.regs with
      eip := get_word sys.mem (seg_off_to_linear sys.regs.ss (sys.regs.esp &&& 0xFFFF)),
      esp := (sys.regs.esp + 2) % 4294967296 } }) := by
  unfold opcode_at ip_addr at hop
  simp only [execute_instruction, hop]

/-- `get_word` reads the little-endian word at `linear(seg, off + k)`. -/
theorem get_word_word_at (mem : Nat → Nat) (hm : mem_ok mem) (seg off k : Nat) :
    get_word mem (seg_off_to_linear seg off + k) = word_at mem (seg_off_to_linear seg (off + k)) := by
  have e : seg_off_to_linear seg off + k = seg_off_to_linear seg (off + k) := by
    unfold seg_off_to_linear
    omega
  rw [e, get_word_eq mem hm]
  unfold word_at
  omega

theorem word_at_lt (mem : Nat → Nat) (hm : mem_ok mem) (a : Nat) : word_at mem a < 65536 := by
  have h0 := hm a
  have h1 := hm (a + 1)
  unfold word_at
  omega

/-- The 16-bit stack pointer after `esp += k`. -/
theorem sp_add (x k : Nat) :
    ((x + k) % 4294967296) &&& 0xFFFF = ((x &&& 0xFFFF) + k) % 65536 := by
  simp only [and_FFFF]
  omega


theorem kept_refl (s : system__s) : kept s s := ⟨rfl, rfl, rfl, rfl, rfl, rfl, rfl, rfl, rfl⟩

theorem kept_trans {a b c : system__s} (h1 : kept a b) (h2 : kept b c) : kept a c := by
  unfold kept at *
  obtain ⟨a1, a2, a3, a4, a5, a6, a7, a8, a9⟩ := h1
  obtain ⟨b1, b2, b3, b4, b5, b6, b7, b8, b9⟩ := h2
  exact ⟨b1.trans a1, b2.trans a2, b3.trans a3, b4.trans a4, b5.trans a5, b6.trans a6,
    b7.trans a7, b8.trans a8, b9.trans a9⟩

theorem kept_putchar (s : system__s) (c : Nat) : kept s (sys_putchar s c) :=
  ⟨rfl, rfl, rfl, rfl, rfl, rfl, rfl, rfl, rfl⟩

theorem kept_prompt (s : system__s) (c : Nat) : kept s (handle_prompt_detection s c) := by
  unfold handle_prompt_detection
  simp only
  split_ifs <;> exact ⟨rfl, rfl, rfl, rfl, rfl, rfl, rfl, rfl, rfl⟩

theorem kept_set_al (s : system__s) (c : Int) : kept s (set_al_from_int s c) :=
  ⟨rfl, rfl, rfl, rfl, rfl, rfl, rfl, rfl, rfl⟩

theorem kept_echo (s : system__s) (c : Int) : kept s (echo_char s c) := by
  unfold echo_char
  split_ifs
  · exact kept_putchar s _
  · exact kept_refl s

theorem kept_read (s : system__s) : kept s (read_buffered_input s).2 := by
  unfold read_buffered_input
  simp only
  split_ifs <;> exact ⟨rfl, rfl, rfl, rfl, rfl, rfl, rfl, rfl, rfl⟩

theorem kept_open_file (s : system__s) (fcb : Nat) (create : Bool) :
    kept s (open_file s fcb create).2 := by
  unfold open_file
  simp only
  split <;> exact ⟨rfl, rfl, rfl, rfl, rfl, rfl, rfl, rfl, rfl⟩

theorem kept_write_string (fuel : Nat) :
    ∀ (s s' : system__s) (addr : Nat), dos_write_string fuel s addr = some s' → kept s s' := by
  induction fuel with
  | zero => intro s s' addr h; simp [dos_write_string] at h
  | succ n ih =>
    intro s s' addr h
    unfold dos_write_string at h
    split_ifs at h
    · cases h
      exact kept_refl s
    · exact kept_trans (kept_trans (kept_putchar s _) (kept_prompt _ _)) (ih _ _ _ h)


theorem dos_frame_of_kept (s s' : system__s) (hk : kept s s') (h35 : AH s.regs ≠ 0x35)
    (h4c : AH s.regs ≠ 0x4C) : dos_frame s s' := by
  obtain ⟨a1, a2, a3, a4, a5, a6, a7, a8, a9⟩ := hk
  refine ⟨a1, a2, a3, a4, a6, a7, a8, ?_, ?_⟩
  · rw [if_neg h35]
    exact a5
  · rw [if_neg h4c]
    exact a9

theorem reentry_selector (sub : Nat)
    (h : sub = 0x01 ∨ sub = 0x06 ∨ sub = 0x07 ∨ sub = 0x08 ∨ sub = 0x0A) :
    (((sub <<< 8) ||| sub) >>> 8) &&& 0xFF = sub := by
  rcases h with h | h | h | h | h <;> subst h <;> decide

theorem dos_int21_frame (fuel : Nat) :
    ∀ (s s' : system__s), dos_int21 fuel s = some s' → dos_frame s s' := by
  induction fuel with
  | zero => intro s s' h; simp [dos_int21] at h
  | succ n ih =>
    intro s s' h
    unfold dos_int21 at h
    simp only at h
    generalize hf : (s.regs.eax >>> 8) &&& 0xFF = func at h
    have hAH : AH s.regs = func := hf
    have upd : ∀ (t : system__s) (v : Nat),
        kept t { t with regs := { t.regs with eax := v } } :=
      fun t v => ⟨rfl, rfl, rfl, rfl, rfl, rfl, rfl, rfl, rfl⟩
    have updf : ∀ (t : system__s) (v : Nat),
        kept t { t with regs := { t.regs with eflags := v } } :=
      fun t v => ⟨rfl, rfl, rfl, rfl, rfl, rfl, rfl, rfl, rfl⟩
    split at h
    · -- 01h
      refine dos_frame_of_kept _ _ ?_ (by rw [hAH]; decide) (by rw [hAH]; decide)
      split_ifs at h <;> cases h
      · exact kept_trans (kept_read s) (kept_trans (kept_set_al _ _) (kept_echo _ _))
      · exact kept_trans (kept_read s) (kept_trans (kept_read _)
          (kept_trans (kept_set_al _ _) (kept_echo _ _)))
      · exact kept_trans (kept_read s) (kept_trans (kept_read _) (upd _ _))
    · -- 02h
      refine dos_frame_of_kept _ _ ?_ (by rw [hAH]; decide) (by rw [hAH]; decide)
      cases h
      exact kept_trans (kept_putchar s _) (kept_prompt _ _)
    · -- 06h
      refine dos_frame_of_kept _ _ ?_ (by rw [hAH]; decide) (by rw [hAH]; decide)
      split_ifs at h <;> cases h
      · exact kept_trans (kept_read s)
          (kept_trans (kept_set_al _ (read_buffered_input s).1) (updf _ _))
      · exact kept_trans (kept_read s) (updf _ _)
      · exact kept_trans (kept_putchar s _) (kept_prompt _ _)
    · -- 09h
      refine dos_frame_of_kept _ _ ?_ (by rw [hAH]; decide) (by rw [hAH]; decide)
      exact kept_write_string n _ _ _ h
    · -- 0Ch
      refine dos_frame_of_kept _ _ ?_ (by rw [hAH]; decide) (by rw [hAH]; decide)
      split at h
      · cases h
      · split_ifs at h with hsub
        · have hfr := ih _ _ h
          have hsel : AH ({ s.regs with eax := (s.regs.eax &&& 0xFF) <<< 8 ||| s.regs.eax &&& 0xFF } :
              x86_regs) = s.regs.eax &&& 0xFF := reentry_selector _ hsub
          obtain ⟨a1, a2, a3, a4, a5, a6, a7, a8, a9⟩ := hfr
          have n35 : ¬ (s.regs.eax &&& 0xFF = 0x35) := by
            rcases hsub with e | e | e | e | e <;> rw [e] <;> decide
          have n4c : ¬ (s.regs.eax &&& 0xFF = 0x4C) := by
            rcases hsub with e | e | e | e | e <;> rw [e] <;> decide
          simp only [hsel, if_neg n35, if_neg n4c] at a8 a9
          exact ⟨a1, a2, a3, a4, a8, a5, a6, a7, a9⟩
        · cases h
          exact ⟨rfl, rfl, rfl, rfl, rfl, rfl, rfl, rfl, rfl⟩
    · -- 0Fh
      refine dos_frame_of_kept _ _ ?_ (by rw [hAH]; decide) (by rw [hAH]; decide)
      cases h
      exact kept_trans (kept_open_file s _ false) (upd _ _)
    · -- 10h
      refine dos_frame_of_kept _ _ ?_ (by rw [hAH]; decide) (by rw [hAH]; decide)
      split at h
      · split at h
        · cases h
        · cases h
          exact ⟨rfl, rfl, rfl, rfl, rfl, rfl, rfl, rfl, rfl⟩
      · cases h
        exact upd _ _
    · -- 14h
      refine dos_frame_of_kept _ _ ?_ (by rw [hAH]; decide) (by rw [hAH]; decide)
      split at h
      · split at h
        · cases h
        · split_ifs at h <;> cases h <;> exact ⟨rfl, rfl, rfl, rfl, rfl, rfl, rfl, rfl, rfl⟩
      · cases h
        exact upd _ _
    · -- 16h
      refine dos_frame_of_kept _ _ ?_ (by rw [hAH]; decide) (by rw [hAH]; decide)
      cases h
      exact kept_trans (kept_open_file s _ true) (upd _ _)
    · -- 19h
      refine dos_frame_of_kept _ _ ?_ (by rw [hAH]; decide) (by rw [hAH]; decide)
      cases h
      exact upd _ _
    · -- 1Ah
      refine dos_frame_of_kept _ _ ?_ (by rw [hAH]; decide) (by rw [hAH]; decide)
      cases h
      exact ⟨rfl, rfl, rfl, rfl, rfl, rfl, rfl, rfl, rfl⟩
    · -- 25h
      refine dos_frame_of_kept _ _ ?_ (by rw [hAH]; decide) (by rw [hAH]; decide)
      cases h
      exact kept_refl s
    · -- 30h
      refine dos_frame_of_kept _ _ ?_ (by rw [hAH]; decide) (by rw [hAH]; decide)
      cases h
      exact ⟨rfl, rfl, rfl, rfl, rfl, rfl, rfl, rfl, rfl⟩
    · -- 35h
      cases h
      refine ⟨rfl, rfl, rfl, rfl, rfl, rfl, rfl, ?_, ?_⟩
      · rw [hAH]
        rfl
      · rw [hAH]
        rfl
    · -- 4Ch
      cases h
      refine ⟨rfl, rfl, rfl, rfl, rfl, rfl, rfl, ?_, ?_⟩
      · rw [hAH]
        rfl
      · rw [hAH]
        rfl
    · -- any other selector
      rename_i h35 h4c
      cases h
      exact dos_frame_of_kept _ _ (kept_refl s) (by rw [hAH]; exact h35) (by rw [hAH]; exact h4c)


theorem exec_int (fuel : Nat) (sys : system__s) (hop : opcode_at sys = 0xCD) :
    execute_instruction fuel sys =
      if operand8 sys = 0x21 then
        match dos_int21 fuel (int_entry sys) with
        | some sys2 => some (true, sys2)
        | none => none
      else if operand8 sys = 0x20 then some (true, { int_entry sys with running := false })
      else some (true, int_entry sys) := by
  unfold opcode_at ip_addr at hop
  simp only [execute_instruction, hop]
  rfl

/-- A step on any opcode but `INT` keeps the run flag and `DS/ES/SS/FS/GS`, and
keeps `CS` unless the opcode is `IRET` or `RETF`. -/
theorem exec_non_int_frame (fuel : Nat) (sys : system__s) (r : Bool) (sys' : system__s)
    (h : execute_instruction fuel sys = some (r, sys')) (hop : opcode_at sys ≠ 0xCD) :
    sys'.running = sys.running ∧ sys'.regs.ds = sys.regs.ds ∧ sys'.regs.es = sys.regs.es ∧
    sys'.regs.ss = sys.regs.ss ∧ sys'.regs.fs = sys.regs.fs ∧ sys'.regs.gs = sys.regs.gs ∧
    (opcode_at sys ≠ 0xCF → opcode_at sys ≠ 0xCB → sys'.regs.cs = sys.regs.cs) := by
  have hset : ∀ d v, (set_reg8 sys.regs d v).cs = sys.regs.cs ∧
      (set_reg8 sys.regs d v).ds = sys.regs.ds ∧ (set_reg8 sys.regs d v).es = sys.regs.es ∧
      (set_reg8 sys.regs d v).ss = sys.regs.ss ∧ (set_reg8 sys.regs d v).fs = sys.regs.fs ∧
      (set_reg8 sys.regs d v).gs = sys.regs.gs := by
    intro d v
    unfold set_reg8
    split <;> exact ⟨rfl, rfl, rfl, rfl, rfl, rfl⟩
  unfold opcode_at ip_addr at hop
  unfold execute_instruction at h
  simp only at h
  unfold opcode_at ip_addr
  generalize sys.mem (seg_off_to_linear sys.regs.cs (sys.regs.eip &&& 0xFFFF)) = op at h hop
  split at h
  case h_18 =>
    simp only [Option.some.injEq, Prod.mk.injEq] at h
    obtain ⟨-, hs⟩ := h
    have h1 := congrArg system__s.running hs
    have h2 := congrArg system__s.regs hs
    dsimp only at h1 h2
    rw [← h1, ← h2]
    split_ifs
    · exact ⟨rfl, (hset _ _).2.1, (hset _ _).2.2.1, (hset _ _).2.2.2.1, (hset _ _).2.2.2.2.1,
        (hset _ _).2.2.2.2.2, fun _ _ => (hset _ _).1⟩
    · exact ⟨rfl, rfl, rfl, rfl, rfl, rfl, fun _ _ => rfl⟩
  case h_25 => exact absurd rfl hop
  case h_26 =>
    simp only [Option.some.injEq, Prod.mk.injEq] at h
    obtain ⟨-, hs⟩ := h
    have h1 := congrArg system__s.running hs
    have h2 := congrArg system__s.regs hs
    dsimp only at h1 h2
    rw [← h1, ← h2]
    exact ⟨rfl, rfl, rfl, rfl, rfl, rfl, fun h1 _ => absurd rfl h1⟩
  case h_27 =>
    simp only [Option.some.injEq, Prod.mk.injEq] at h
    obtain ⟨-, hs⟩ := h
    have h1 := congrArg system__s.running hs
    have h2 := congrArg system__s.regs hs
    dsimp only at h1 h2
    rw [← h1, ← h2]
    exact ⟨rfl, rfl, rfl, rfl, rfl, rfl, fun _ h2 => absurd rfl h2⟩
  all_goals
    simp only [Option.some.injEq, Prod.mk.injEq] at h
    obtain ⟨-, hs⟩ := h
    have h1 := congrArg system__s.running hs
    have h2 := congrArg system__s.regs hs
    dsimp only at h1 h2
    rw [← h1, ← h2]
    exact ⟨rfl, rfl, rfl, rfl, rfl, rfl, fun _ _ => rfl⟩


theorem int_entry_regs (sys : system__s) :
    (int_entry sys).regs = { sys.regs with eip := (sys.regs.eip + 2) % 4294967296 } := rfl

theorem int_entry_running (sys : system__s) : (int_entry sys).running = sys.running := rfl

theorem int_entry_AH (sys : system__s) : AH (int_entry sys).regs = AH sys.regs := by
  rw [int_entry_regs]
  rfl

/-- Service 4Ch clears the run flag and returns. -/
theorem dos_int21_exit (n : Nat) (s : system__s) (h : AH s.regs = 0x4C) :
    dos_int21 (n + 1) s = some { s with running := false } := by
  unfold AH at h
  simp only [dos_int21, h]

/-- Service 35h zeroes `ES` and `BX` and returns. -/
theorem dos_int21_get_vector (n : Nat) (s : system__s) (h : AH s.regs = 0x35) :
    dos_int21 (n + 1) s = some { s with regs := { s.regs with es := 0x0000, ebx := 0x0000 } } := by
  unfold AH at h
  simp only [dos_int21, h]

/-- The frame of an `INT imm8` step. -/
theorem exec_int_frame (fuel : Nat) (sys : system__s) (r : Bool) (sys' : system__s)
    (h : execute_instruction fuel sys = some (r, sys')) (hop : opcode_at sys = 0xCD) :
    r = true ∧
    sys'.regs.eip = (sys.regs.eip + 2) % 4294967296 ∧ sys'.regs.esp = sys.regs.esp ∧
    sys'.regs.cs = sys.regs.cs ∧ sys'.regs.ds = sys.regs.ds ∧
    sys'.regs.ss = sys.regs.ss ∧ sys'.regs.fs = sys.regs.fs ∧ sys'.regs.gs = sys.regs.gs ∧
    sys'.regs.es = (if operand8 sys = 0x21 ∧ AH sys.regs = 0x35 then 0 else sys.regs.es) ∧
    sys'.running = (if operand8 sys = 0x20 ∨ (operand8 sys = 0x21 ∧ AH sys.regs = 0x4C)
      then false else sys.running) := by
  rw [exec_int fuel sys hop] at h
  have hr := int_entry_regs sys
  have hrun := int_entry_running sys
  have hah := int_entry_AH sys
  split_ifs at h with h21 h20
  · cases hd : dos_int21 fuel (int_entry sys) with
    | none => rw [hd] at h; cases h
    | some s2 =>
      rw [hd] at h
      simp only [Option.some.injEq, Prod.mk.injEq] at h
      obtain ⟨hr0, hs⟩ := h
      subst hs
      obtain ⟨a1, a2, a3, a4, a5, a6, a7, a8, a9⟩ := dos_int21_frame fuel _ _ hd
      rw [hah] at a8 a9
      rw [hr] at a1 a2 a3 a4 a5 a6 a7 a8
      rw [hrun] at a9
      refine ⟨hr0.symm, a1, a2, a3, a4, a5, a6, a7, ?_, ?_⟩
      · rw [a8]
        simp only [h21, true_and]
      · rw [a9]
        by_cases h4c : AH sys.regs = 0x4C <;> simp [h21, h4c]
  · simp only [Option.some.injEq, Prod.mk.injEq] at h
    obtain ⟨hr0, hs⟩ := h
    have h1 := congrArg system__s.running hs
    have h2 := congrArg system__s.regs hs
    dsimp only at h1 h2
    rw [hr] at h2
    rw [← h1, ← h2]
    refine ⟨hr0.symm, rfl, rfl, rfl, rfl, rfl, rfl, rfl, ?_, ?_⟩
    · simp only [h21, false_and, if_false]
    · simp only [h20, true_or, if_true]
  · simp only [Option.some.injEq, Prod.mk.injEq] at h
    obtain ⟨hr0, hs⟩ := h
    have h1 := congrArg system__s.running hs
    have h2 := congrArg system__s.regs hs
    rw [hr] at h2
    rw [hrun] at h1
    rw [← h1, ← h2]
    refine ⟨hr0.symm, rfl, rfl, rfl, rfl, rfl, rfl, rfl, ?_, ?_⟩
    · simp only [h21, false_and, if_false]
    · simp only [h21, h20, false_and, or_self, if_false]


/-- On every opcode but `INT` the step returns, reporting whether the opcode
has a case. -/
theorem exec_returns (fuel : Nat) (sys : system__s) (hop : opcode_at sys ≠ 0xCD) :
    ∃ sys', execute_instruction fuel sys = some (recognized (opcode_at sys), sys') := by
  by_cases hrec : recognized (opcode_at sys) = false
  · rw [hrec]
    exact ⟨_, exec_default fuel sys hrec⟩
  · unfold opcode_at ip_addr at hop hrec ⊢
    unfold execute_instruction
    simp only
    generalize sys.mem (seg_off_to_linear sys.regs.cs (sys.regs.eip &&& 0xFFFF)) = op at hop hrec ⊢
    split
    all_goals
      first
      | exact absurd rfl hop
      | exact ⟨_, rfl⟩
      | (exfalso
         apply hrec
         simp only [imp_false] at *
         simp only [recognized, Bool.or_eq_false_iff, Bool.and_eq_false_imp, decide_eq_false_iff_not,
           decide_eq_true_eq]
         refine ⟨⟨⟨⟨⟨⟨⟨⟨⟨⟨⟨⟨?_, ?_⟩, ?_⟩, ?_⟩, ?_⟩, ?_⟩, ?_⟩, ?_⟩, ?_⟩, ?_⟩, ?_⟩, ?_⟩, ?_⟩ <;>
           (try intro) <;> omega)


theorem prompt_mem (s : system__s) (c : Nat) : (handle_prompt_detection s c).mem = s.mem := by
  unfold handle_prompt_detection
  simp only
  split_ifs <;> rfl

/-- Service 09h is the `'$'` scan from `DS:DX`. -/
theorem dos_int21_write_string (n : Nat) (s : system__s) (h : AH s.regs = 0x09) :
    dos_int21 (n + 1) s =
      dos_write_string n s (seg_off_to_linear s.regs.ds (s.regs.edx &&& 0xFFFF)) := by
  unfold AH at h
  simp only [dos_int21, h]


theorem set_reg8_eip_esp (r : x86_regs) (d v : Nat) :
    (set_reg8 r d v).eip = r.eip ∧ (set_reg8 r d v).esp = r.esp := by
  unfold set_reg8
  split <;> exact ⟨rfl, rfl⟩

/-- How far the stored instruction and stack pointers can move in one step on
an opcode other than `INT`. -/
theorem exec_non_int_bounds (fuel : Nat) (sys : system__s) (r : Bool) (sys' : system__s)
    (hip : sys.regs.eip < 65536) (hsp : sys.regs.esp < 65536)
    (h : execute_instruction fuel sys = some (r, sys')) (hop : opcode_at sys ≠ 0xCD) :
    sys'.regs.eip < 65539 ∧ sys'.regs.esp < 65542 := by
  unfold opcode_at ip_addr at hop
  unfold execute_instruction at h
  simp only at h
  generalize sys.mem (seg_off_to_linear sys.regs.cs (sys.regs.eip &&& 0xFFFF)) = op at h hop
  split at h
  case h_18 =>
    simp only [Option.some.injEq, Prod.mk.injEq] at h
    obtain ⟨-, hs⟩ := h
    have h2 := congrArg system__s.regs hs
    dsimp only at h2
    rw [← h2]
    dsimp only
    clear hs h2
    split_ifs
    · rw [(set_reg8_eip_esp _ _ _).1, (set_reg8_eip_esp _ _ _).2]
      constructor <;> omega
    · constructor <;> omega
  case h_25 => exact absurd rfl hop
  all_goals
    simp only [Option.some.injEq, Prod.mk.injEq] at h
    obtain ⟨-, hs⟩ := h
    have h2 := congrArg system__s.regs hs
    dsimp only at h2
    rw [← h2]
    dsimp only
    clear hs h2
    constructor <;> (try split_ifs) <;> (try simp only [and_FFFF]) <;>
      first
      | omega
      | exact lt_trans (get_word_lt _ _) (by norm_num)


theorem exec_nop (fuel : Nat) (sys : system__s) (hop : opcode_at sys = 0x90) :
    execute_instruction fuel sys = some (true,
      { sys with regs := { sys.regs with eip := (sys.regs.eip + 1) % 4294967296 } }) := by
  unfold opcode_at ip_addr at hop
  simp only [execute_instruction, hop]

/-! ### Prompt detection over a byte sequence -/

theorem prompt_seen_nil : ¬ prompt_seen [] := by
  rintro ⟨pre, post, h, -⟩
  have := congrArg List.length h
  simp at this
  omega

theorem prompt_seen_snoc (s : List Nat) (c : Nat) :
    prompt_seen (s ++ [c]) ↔
      ((∃ pre, s = pre ++ [0x0D, 0x0A]) ∧ c = 0x3E) ∨ (prompt_seen s ∧ c ≠ 0x0D) := by
  constructor
  · rintro ⟨pre, post, h, hp⟩
    rcases List.eq_nil_or_concat post with rfl | ⟨post', d, rfl⟩
    · left
      have h2 : s ++ [c] = (pre ++ [0x0D, 0x0A]) ++ [0x3E] := by simpa using h
      have h3 := List.append_inj' h2 rfl
      exact ⟨⟨pre, h3.1⟩, by simpa using h3.2⟩
    · right
      have h2 : s ++ [c] = (pre ++ [0x0D, 0x0A, 0x3E] ++ post') ++ [d] := by
        simpa [List.append_assoc] using h
      have h3 := List.append_inj' h2 rfl
      have hd : c = d := by simpa using h3.2
      simp only [List.concat_eq_append, List.mem_append, List.mem_singleton, not_or] at hp
      exact ⟨⟨pre, post', h3.1, hp.1⟩, by rw [hd]; exact fun e => hp.2 e.symm⟩
  · rintro (⟨⟨pre, rfl⟩, rfl⟩ | ⟨⟨pre, post, rfl, hp⟩, hc⟩)
    · exact ⟨pre, [], by simp, by simp⟩
    · refine ⟨pre, post ++ [c], by simp, ?_⟩
      simp only [List.mem_append, List.mem_singleton, not_or]
      exact ⟨hp, fun e => hc e.symm⟩


theorem feed_prompt_snoc (sys : system__s) (s : List Nat) (c : Nat) :
    feed_prompt sys (s ++ [c]) = handle_prompt_detection (feed_prompt sys s) c := by
  simp [feed_prompt, List.foldl_append]

theorem handle_prompt_window (sys : system__s) (c : Nat) :
    (handle_prompt_detection sys c).prompt =
      [sys.prompt.getD 1 0, sys.prompt.getD 2 0, sys.prompt.getD 3 0, c] := by
  unfold handle_prompt_detection
  simp only
  split_ifs <;> rfl

theorem handle_prompt_input (sys : system__s) (c : Nat) :
    (handle_prompt_detection sys c).input =
      if sys.prompt.getD 2 0 = 0x0D ∧ sys.prompt.getD 3 0 = 0x0A ∧ c = 0x3E then true
      else if c = 0x0D then false else sys.input := by
  unfold handle_prompt_detection
  simp only [List.getD_cons_succ, List.getD_cons_zero]
  split_ifs <;> rfl


theorem ends_cr_lf (s : List Nat) :
    (∃ pre, s = pre ++ [0x0D, 0x0A]) ↔ s.reverse.getD 1 0 = 0x0D ∧ s.reverse.getD 0 0 = 0x0A := by
  constructor
  · rintro ⟨pre, rfl⟩
    simp
  · intro h
    have hs : s = s.reverse.reverse := (List.reverse_reverse s).symm
    generalize s.reverse = r at h hs
    match r, h with
    | [], h => simp at h
    | [_], h => simp at h
    | x :: y :: t, h =>
        simp only [List.getD_cons_succ, List.getD_cons_zero] at h
        refine ⟨t.reverse, ?_⟩
        rw [hs, h.1, h.2]
        simp

theorem feed_prompt_inv (sys : system__s) (hw : sys.prompt = [0, 0, 0, 0])
    (hi : sys.input = false) (s : List Nat) :
    (feed_prompt sys s).prompt.getD 2 0 = s.reverse.getD 1 0 ∧
    (feed_prompt sys s).prompt.getD 3 0 = s.reverse.getD 0 0 ∧
    ((feed_prompt sys s).input = true ↔ prompt_seen s) := by
  induction s using List.reverseRecOn with
  | nil =>
      refine ⟨by simp [feed_prompt, hw], by simp [feed_prompt, hw], ?_⟩
      simp only [feed_prompt, List.foldl_nil, hi]
      exact ⟨fun h => absurd h (by simp), fun h => absurd h prompt_seen_nil⟩
  | append_singleton s c ih =>
      obtain ⟨h2, h3, hin⟩ := ih
      rw [feed_prompt_snoc]
      refine ⟨?_, ?_, ?_⟩
      · rw [handle_prompt_window, List.reverse_append]
        simp only [List.reverse_cons, List.reverse_nil, List.nil_append, List.singleton_append,
          List.getD_cons_succ, List.getD_cons_zero]
        exact h3
      · rw [handle_prompt_window, List.reverse_append]
        simp only [List.reverse_cons, List.reverse_nil, List.nil_append, List.singleton_append,
          List.getD_cons_succ, List.getD_cons_zero]
      · rw [handle_prompt_input, prompt_seen_snoc, ends_cr_lf, h2, h3, ← hin]
        by_cases hc : c = 0x3E
        · by_cases hp : s.reverse.getD 1 0 = 0x0D ∧ s.reverse.getD 0 0 = 0x0A
          · simp [hc, hp]
          · have hp2 : ¬ (s.reverse.getD 1 0 = 0x0D ∧ s.reverse.getD 0 0 = 0x0A ∧ c = 0x3E) :=
              fun h => hp ⟨h.1, h.2.1⟩
            simp [hc, hp, hp2]
        · have hp2 : ¬ (s.reverse.getD 1 0 = 0x0D ∧ s.reverse.getD 0 0 = 0x0A ∧ c = 0x3E) :=
            fun h => hc h.2.2
          rw [if_neg hp2]
          by_cases hd : c = 0x0D
          · simp [hc, hd]
          · simp [hc, hd]

/-! ### Writing a byte sequence -/

theorem prompt_regs (s : system__s) (c : Nat) : (handle_prompt_detection s c).regs = s.regs := by
  unfold handle_prompt_detection
  simp only
  split_ifs <;> rfl

theorem prompt_host (s : system__s) (c : Nat) : (handle_prompt_detection s c).host = s.host := by
  unfold handle_prompt_detection
  simp only
  split_ifs <;> rfl

theorem prompt_of_putchar (s : system__s) (b c : Nat) :
    (handle_prompt_detection (sys_putchar s b) c).prompt = (handle_prompt_detection s c).prompt ∧
    (handle_prompt_detection (sys_putchar s b) c).input = (handle_prompt_detection s c).input := by
  rw [handle_prompt_window, handle_prompt_window, handle_prompt_input, handle_prompt_input]
  exact ⟨rfl, rfl⟩

theorem mem_bytes_succ (mem : Nat → Nat) (a k : Nat) :
    mem_bytes mem a (k + 1) = mem a :: mem_bytes mem (a + 1) k := by
  unfold mem_bytes
  rw [List.range_succ_eq_map]
  simp only [List.map_cons, List.map_map, Nat.add_zero]
  congr 1
  apply List.map_congr_left
  intro i _
  simp only [Function.comp]
  congr 1
  omega

/-- What `emit` changes: stdout grows by the bytes, the prompt detector has
seen them, registers and guest memory stay. -/
theorem emit_effect (bs : List Nat) : ∀ (s : system__s),
    (emit s bs).regs = s.regs ∧ (emit s bs).mem = s.mem ∧
    (emit s bs).host.stdout = s.host.stdout ++ bs.map (fun b => b % 256) ∧
    (emit s bs).prompt = (feed_prompt s bs).prompt ∧
    (emit s bs).input = (feed_prompt s bs).input := by
  induction bs using List.reverseRecOn with
  | nil => intro s; simp [emit, feed_prompt]
  | append_singleton bs b ih =>
      intro s
      obtain ⟨h1, h2, h3, h4, h5⟩ := ih s
      have e : emit s (bs ++ [b]) = handle_prompt_detection (sys_putchar (emit s bs) b) b := by
        simp [emit, List.foldl_append]
      rw [e, feed_prompt_snoc]
      refine ⟨?_, ?_, ?_, ?_, ?_⟩
      · rw [prompt_regs]; exact h1
      · rw [prompt_mem]; exact h2
      · rw [prompt_host]
        show (emit s bs).host.stdout ++ [b % 256] = _
        rw [h3]
        simp
      · rw [(prompt_of_putchar _ b b).1, handle_prompt_window, handle_prompt_window, h4]
      · rw [(prompt_of_putchar _ b b).2, handle_prompt_input, handle_prompt_input, h4, h5]

theorem emit_cons (s : system__s) (b : Nat) (bs : List Nat) :
    emit s (b :: bs) = emit (handle_prompt_detection (sys_putchar s b) b) bs := rfl

/-- The scan of service 09h stops at the first `'$'`. -/
theorem write_string_emit (k : Nat) : ∀ (fuel : Nat) (s : system__s) (a : Nat),
    s.mem (a + k) = 0x24 → (∀ j, j < k → s.mem (a + j) ≠ 0x24) → k + 1 ≤ fuel →
    dos_write_string fuel s a = some (emit s (mem_bytes s.mem a k)) := by
  induction k with
  | zero =>
      intro fuel s a h0 _ hf
      obtain ⟨n, rfl⟩ : ∃ n, fuel = n + 1 := ⟨fuel - 1, by omega⟩
      unfold dos_write_string
      rw [if_pos (by simpa using h0)]
      rfl
  | succ k ih =>
      intro fuel s a hk hfirst hf
      obtain ⟨n, rfl⟩ : ∃ n, fuel = n + 1 := ⟨fuel - 1, by omega⟩
      unfold dos_write_string
      rw [if_neg (by simpa using hfirst 0 (by omega))]
      have hm : (handle_prompt_detection (sys_putchar s (s.mem a)) (s.mem a)).mem = s.mem := by
        rw [prompt_mem]; rfl
      rw [ih n _ (a + 1) (by rw [hm]; rw [← hk]; congr 1; omega)
        (by intro j hj; rw [hm]; have := hfirst (j + 1) (by omega); rw [show a + 1 + j = a + (j + 1) by omega]; exact this)
        (by omega)]
      rw [hm, mem_bytes_succ, emit_cons]

theorem map_mod_bytes (mem : Nat → Nat) (hm : mem_ok mem) (a k : Nat) :
    (mem_bytes mem a k).map (fun b => b % 256) = mem_bytes mem a k := by
  unfold mem_bytes
  rw [List.map_map]
  apply List.map_congr_left
  intro i _
  exact Nat.mod_eq_of_lt (hm _)

/-! ### The loader -/

theorem fread_over_idem (buf chunk : List Nat) :
    fread_over (fread_over buf chunk) chunk = fread_over buf chunk := by
  unfold fread_over
  rw [List.drop_left]

theorem host_fread_at (h : host_env) (name : List Nat) (f : host_file) (pos n : Nat)
    (hf : h.files name = some f) :
    (host_fread h { name := name, pos := pos } n).1 = (f.data.drop pos).take n := by
  unfold host_fread
  simp only [hf]

theorem fopen_r_some (h : host_env) (name : List Nat) (f : host_file)
    (hf : h.files name = some f) (hr : f.readable = true) :
    fopen_r h name = some { name := name, pos := 0 } := by
  unfold fopen_r
  simp only [hf, hr, if_true]

theorem host_fsize_at (h : host_env) (name : List Nat) (f : host_file) (pos : Nat)
    (hf : h.files name = some f) :
    host_fsize h { name := name, pos := pos } = f.data.length := by
  unfold host_fsize
  simp only [hf]

/-- The COM branch on an image that fits. -/
theorem load_program_com (fname : List Nat) (locals : load_locals) (sys : system__s)
    (f : host_file) (hf : sys.host.files fname = some f) (hr : f.readable = true)
    (hcom : ¬ sees_mz locals f.data) (hlen : f.data.length ≤ 65280) :
    load_program fname locals sys =
      (EXIT_SUCCESS, { sys with mem := store_bytes (psp_init sys.mem) 0x20100 f.data,
                                regs := com_regs, dtaseg := 0x2000, dtaoff := 0x80 }) := by
  unfold load_program
  rw [fopen_r_some sys.host fname f hf hr]
  simp only [host_fread_at sys.host fname f 0 _ hf, host_fsize_at sys.host fname f 0 hf,
    List.drop_zero]
  have hcom2 : ¬ (buf_byte (fread_over locals.hdr (f.data.take 28)) 0 = 0x4D ∧
      buf_byte (fread_over locals.hdr (f.data.take 28)) 1 = 0x5A) := hcom
  rw [if_neg hcom2, if_neg (by omega)]
  rw [List.take_of_length_le (le_refl _)]
  rfl

/-- The COM branch on an image that is too large. -/
theorem load_program_com_large (fname : List Nat) (locals : load_locals) (sys : system__s)
    (f : host_file) (hf : sys.host.files fname = some f) (hr : f.readable = true)
    (hcom : ¬ sees_mz locals f.data) (hlen : 65280 < f.data.length) :
    load_program fname locals sys = (EXIT_FAILURE, { sys with mem := psp_init sys.mem }) := by
  unfold load_program
  rw [fopen_r_some sys.host fname f hf hr]
  simp only [host_fread_at sys.host fname f 0 _ hf, host_fsize_at sys.host fname f 0 hf,
    List.drop_zero]
  have hcom2 : ¬ (buf_byte (fread_over locals.hdr (f.data.take 28)) 0 = 0x4D ∧
      buf_byte (fread_over locals.hdr (f.data.take 28)) 1 = 0x5A) := hcom
  rw [if_neg hcom2, if_pos (by omega)]

/-- The EXE branch. -/
theorem load_program_exe (fname : List Nat) (locals : load_locals) (sys : system__s)
    (f : host_file) (hf : sys.host.files fname = some f) (hr : f.readable = true)
    (hmz : sees_mz locals f.data) :
    load_program fname locals sys =
      (EXIT_SUCCESS,
        { sys with
          mem := apply_relocs sys.host { name := fname, pos := 0 }
            (exe_header locals f.data).reltable (exe_header locals f.data).numreloc 0 locals.off
            (store_bytes (psp_init sys.mem) 0x20100 (exe_code (exe_header locals f.data) f.data)),
          regs := exe_regs (exe_header locals f.data), dtaseg := 0x2000, dtaoff := 0x80 }) := by
  unfold load_program
  rw [fopen_r_some sys.host fname f hf hr]
  simp only [host_fread_at sys.host fname f _ _ hf, List.drop_zero, fread_over_idem]
  have hmz2 : (buf_byte (fread_over locals.hdr (f.data.take 28)) 0 = 0x4D ∧
      buf_byte (fread_over locals.hdr (f.data.take 28)) 1 = 0x5A) := hmz
  rw [if_pos hmz2]
  rfl

/-- When the file cannot be opened. -/
theorem load_program_open_failed (fname : List Nat) (locals : load_locals) (sys : system__s)
    (hf : fopen_r sys.host fname = none) :
    load_program fname locals sys = (EXIT_FAILURE, { sys with mem := psp_init sys.mem }) := by
  unfold load_program
  rw [hf]

theorem store_bytes_below (mem : Nat → Nat) (a : Nat) (bs : List Nat) (x : Nat) (h : x < a) :
    store_bytes mem a bs x = mem x := by
  unfold store_bytes
  rw [if_neg (by omega)]

theorem store_bytes_at (mem : Nat → Nat) (a : Nat) (bs : List Nat) (i : Nat)
    (h : i < bs.length) : store_bytes mem a bs (a + i) = bs.getD i 0 := by
  unfold store_bytes
  rw [if_pos (by omega), Nat.add_sub_cancel_left]

/-- The relocation loop writes at `MEM_LOAD` and above only. -/
theorem apply_relocs_below (h : host_env) (fp : FILE) (reltable : Nat) (count : Nat) :
    ∀ (i : Nat) (off : List Nat) (mem : Nat → Nat) (x : Nat), x < 0x20100 →
      apply_relocs h fp reltable count i off mem x = mem x := by
  induction count with
  | zero => intro i off mem x _; rfl
  | succ n ih =>
      intro i off mem x hx
      unfold apply_relocs
      simp only
      rw [ih _ _ _ x hx, set_word_other]
      · have : MEM_LOAD = 0x20100 := rfl
        omega
      · have : MEM_LOAD = 0x20100 := rfl
        omega

/-- Whatever `load_program` returns, guest memory below `0x20100` is what the
PSP set-up left. -/
theorem load_program_below (fname : List Nat) (locals : load_locals) (sys : system__s)
    (x : Nat) (hx : x < 0x20100) :
    (load_program fname locals sys).2.mem x = psp_init sys.mem x := by
  cases hopen : fopen_r sys.host fname with
  | none => rw [load_program_open_failed fname locals sys hopen]
  | some fp =>
      unfold fopen_r at hopen
      cases hf : sys.host.files fname with
      | none => simp [hf] at hopen
      | some f =>
          have hr : f.readable = true := by
            cases hread : f.readable with
            | true => rfl
            | false => simp [hf, hread] at hopen
          by_cases hmz : sees_mz locals f.data
          · rw [load_program_exe fname locals sys f hf hr hmz]
            simp only
            rw [apply_relocs_below _ _ _ _ _ _ _ x hx, store_bytes_below _ _ _ _ hx]
          · by_cases hlen : f.data.length ≤ 65280
            · rw [load_program_com fname locals sys f hf hr hmz hlen]
              simp only
              rw [store_bytes_below _ _ _ _ hx]
            · rw [load_program_com_large fname locals sys f hf hr hmz (by omega)]

theorem psp_init_bytes (mem : Nat → Nat) :
    psp_init mem 0x20000 = 0xCD ∧ psp_init mem 0x20001 = 0x20 ∧
    psp_init mem 0x20005 = 0x9A ∧
    psp_init mem 0x20006 = 0x50 ∧ psp_init mem 0x20007 = 0x00 ∧
    psp_init mem 0x20008 = 0x00 ∧ psp_init mem 0x20009 = 0x20 ∧
    psp_init mem 0x2000A = 0x81 ∧ psp_init mem 0x2000B = 0x00 ∧
    psp_init mem 0x2000C = 0x00 ∧ psp_init mem 0x2000D = 0x20 ∧
    psp_init mem 0x2000E = 0x82 ∧ psp_init mem 0x2000F = 0x00 ∧
    psp_init mem 0x20010 = 0x00 ∧ psp_init mem 0x20011 = 0x20 ∧
    psp_init mem 0x20012 = 0x83 ∧ psp_init mem 0x20013 = 0x00 ∧
    psp_init mem 0x20014 = 0x00 ∧ psp_init mem 0x20015 = 0x20 ∧
    psp_init mem 0x2002C = 0x00 ∧ psp_init mem 0x2002D = 0x10 ∧
    psp_init mem 0x20050 = 0xCD ∧ psp_init mem 0x20051 = 0x21 ∧ psp_init mem 0x20052 = 0xCB ∧
    psp_init mem 0x20081 = 0xCF ∧ psp_init mem 0x20082 = 0xCF ∧ psp_init mem 0x20083 = 0xCF := by
  refine ⟨rfl, rfl, rfl, rfl, rfl, rfl, rfl, rfl, rfl, rfl, rfl, rfl, rfl, rfl, rfl, rfl, rfl,
    rfl, rfl, rfl, rfl, rfl, rfl, rfl, rfl, rfl, rfl⟩

/-! ### Relocation -/

theorem patch_word_eq (mem : Nat → Nat) (a b : Nat) :
    patch_word mem (a, b) =
      set_word mem (MEM_LOAD + a + b * 16) ((get_word mem (MEM_LOAD + a + b * 16) + SEG_LOAD) % 65536) := by
  have e : reloc_target (a, b) = MEM_LOAD + a + b * 16 := by
    unfold reloc_target MEM_LOAD SEG_LOAD
    omega
  unfold patch_word
  rw [e]
  rfl

theorem apply_relocs_eq (h : host_env) (fname : List Nat) (f : host_file)
    (hf : h.files fname = some f) (reltable : Nat) (count : Nat) :
    ∀ (pos i : Nat) (off : List Nat) (mem : Nat → Nat),
      apply_relocs h { name := fname, pos := pos } reltable count i off mem =
        (reloc_entries f.data reltable count i off).foldl patch_word mem := by
  induction count with
  | zero => intro pos i off mem; rfl
  | succ n ih =>
      intro pos i off mem
      unfold apply_relocs reloc_entries
      simp only [host_fread_at h fname f _ _ hf, List.foldl_cons]
      rw [ih, patch_word_eq]

theorem get_word_congr (m1 m2 : Nat → Nat) (a : Nat) (h0 : m1 a = m2 a)
    (h1 : m1 (a + 1) = m2 (a + 1)) : get_word m1 a = get_word m2 a := by
  unfold get_word
  rw [h0, h1]

theorem patch_word_other (mem : Nat → Nat) (e : Nat × Nat) (x : Nat)
    (h0 : x ≠ reloc_target e) (h1 : x ≠ reloc_target e + 1) : patch_word mem e x = mem x :=
  set_word_other mem _ _ x h0 h1

theorem patch_fold_other (es : List (Nat × Nat)) : ∀ (mem : Nat → Nat) (x : Nat),
    (∀ e ∈ es, x ≠ reloc_target e ∧ x ≠ reloc_target e + 1) →
    es.foldl patch_word mem x = mem x := by
  induction es with
  | nil => intro mem x _; rfl
  | cons e rest ih =>
      intro mem x hx
      rw [List.foldl_cons, ih _ x (fun e' he' => hx e' (List.mem_cons_of_mem _ he'))]
      exact patch_word_other mem e x (hx e (List.mem_cons_self _ _)).1
        (hx e (List.mem_cons_self _ _)).2

theorem patch_fold_word (es : List (Nat × Nat)) : ∀ (mem : Nat → Nat),
    es.Pairwise reloc_apart → ∀ e ∈ es,
      get_word (es.foldl patch_word mem) (reloc_target e) =
        (get_word mem (reloc_target e) + 0x2010) % 65536 := by
  induction es with
  | nil => intro mem _ e he; simp at he
  | cons e0 rest ih =>
      intro mem hp e he
      rw [List.pairwise_cons] at hp
      rw [List.foldl_cons]
      rcases List.mem_cons.mp he with rfl | hin
      · have hfar : ∀ x, (x = reloc_target e ∨ x = reloc_target e + 1) →
            ∀ e' ∈ rest, x ≠ reloc_target e' ∧ x ≠ reloc_target e' + 1 := by
          intro x hx e' he'
          have := hp.1 e' he'
          unfold reloc_apart at this
          omega
        rw [get_word_congr _ (patch_word mem e) (reloc_target e)
          (patch_fold_other rest _ _ (hfar _ (Or.inl rfl)))
          (patch_fold_other rest _ _ (hfar _ (Or.inr rfl)))]
        exact get_word_set_word mem _ _ (Nat.mod_lt _ (by norm_num))
      · rw [ih (patch_word mem e0) hp.2 e hin]
        have := hp.1 e hin
        unfold reloc_apart at this
        rw [get_word_congr (patch_word mem e0) mem (reloc_target e)
          (patch_word_other mem e0 _ (by omega) (by omega))
          (patch_word_other mem e0 _ (by omega) (by omega))]

theorem exe_code_getD (hdr : exehdr__s) (data : List Nat) (j : Nat)
    (hj : j < (exe_code hdr data).length) :
    (exe_code hdr data).getD j 0 = data.getD (exe_offset hdr + j) 0 := by
  unfold exe_code at hj ⊢
  simp only [List.length_take, List.length_drop] at hj
  rw [List.getD_eq_getElem?_getD, List.getD_eq_getElem?_getD, List.getElem?_take_of_lt (by omega),
    List.getElem?_drop]

set_option maxRecDepth 1000000 in
/-- The echo run, byte by byte. -/
theorem echo_all : ∀ c, c < 256 → echo_ok c = true := by
  decide

/-- Where the header does not exceed the declared image size, the count handed
to `fread` is the difference. -/
theorem exe_binsize_fits (hdr : exehdr__s) (hl : hdr.lastpagesize < 65536)
    (hp : hdr.filepages < 65536) (hh : hdr.hdrpara < 65536)
    (hfit : ((hdr.hdrpara * 16 : Nat) : Int) ≤ image_bytes hdr) :
    (exe_binsize hdr : Int) = image_bytes hdr - ((hdr.hdrpara * 16 : Nat) : Int) := by
  unfold exe_binsize exe_image_size exe_offset size_t_of_int
  unfold image_bytes at hfit ⊢
  split_ifs at hfit ⊢ <;> omega

/-! ### Service 06h, input -/

theorem dos_int21_direct_input (fuel : Nat) (sys : system__s) (hah : AH sys.regs = 0x06)
    (hdl : sys.regs.edx &&& 0xFF = 0xFF) :
    dos_int21 (fuel + 1) sys =
      if (read_buffered_input sys).1 ≥ 0 then
        some { set_al_from_int (read_buffered_input sys).2 (read_buffered_input sys).1 with
          regs := { (set_al_from_int (read_buffered_input sys).2 (read_buffered_input sys).1).regs with
            eflags := (set_al_from_int (read_buffered_input sys).2
              (read_buffered_input sys).1).regs.eflags &&& 0xFFFFFFBF } }
      else
        some { (read_buffered_input sys).2 with
          regs := { (read_buffered_input sys).2.regs with
            eflags := (read_buffered_input sys).2.regs.eflags ||| 0x40 } } := by
  unfold AH at hah
  simp only [dos_int21, hah, hdl, if_true]

theorem clear_zf_bits (x i : Nat) (hi : i < 32) (h6 : i ≠ 6) :
    (x &&& 0xFFFFFFBF).testBit i = x.testBit i := by
  rw [Nat.testBit_and]
  have : (0xFFFFFFBF : Nat).testBit i = true := by
    interval_cases i <;> first | exact absurd rfl h6 | decide
  rw [this, Bool.and_true]

theorem clear_zf_bit (x : Nat) : (x &&& 0xFFFFFFBF).testBit 6 = false := by
  rw [Nat.testBit_and]
  have : (0xFFFFFFBF : Nat).testBit 6 = false := by decide
  rw [this, Bool.and_false]

theorem set_zf_bit (x : Nat) : (x ||| 0x40).testBit 6 = true := by
  rw [Nat.testBit_or]
  have : (0x40 : Nat).testBit 6 = true := by decide
  rw [this, Bool.or_true]

theorem al_of_set (x b : Nat) (hb : b < 256) :
    ((x &&& 0xFF00) ||| b) &&& 0xFF = b ∧
    (((x &&& 0xFF00) ||| b) >>> 8) &&& 0xFF = (x >>> 8) &&& 0xFF := by
  rw [ah_keep_al_set x b hb, and_FF, shr_eq_div, and_FF, shr_eq_div, and_FF]
  constructor <;> omega

/-- Service 06h with `DL = FFh` on a buffered byte that `char` holds as a
non-negative value: the byte is delivered in `AL`, ZF is cleared, `AH` and the
other flag bits stay, the cursor moves on by one. -/
theorem direct_input_byte (fuel : Nat) (sys : system__s) (b : Nat)
    (hah : AH sys.regs = 0x06) (hdl : sys.regs.edx &&& 0xFF = 0xFF)
    (hlt : sys.input_pos < sys.input_len)
    (hb : sys.input_buffer sys.input_pos.toNat = b) (hb8 : b < 256)
    (hpos : b < 128 ∨ sys.host.char_signed = false) :
    ∃ sys', dos_int21 (fuel + 1) sys = some sys' ∧
      AL sys'.regs = b ∧ ¬ ZF sys'.regs ∧ AH sys'.regs = AH sys.regs ∧
      (∀ i, i < 32 → i ≠ 6 → sys'.regs.eflags.testBit i = sys.regs.eflags.testBit i) ∧
      sys'.input_pos = sys.input_pos + 1 := by
  have hr : read_buffered_input sys = ((b : Int), { sys with input_pos := sys.input_pos + 1 }) := by
    unfold read_buffered_input
    rw [if_pos hlt, hb]
    have : char_to_int sys.host.char_signed b = (b : Int) := by
      unfold char_to_int
      rcases hpos with h | h
      · have : ¬ (128 ≤ b) := by omega
        simp [this]
      · simp [h]
    rw [this]
  rw [dos_int21_direct_input fuel sys hah hdl, hr]
  simp only [ge_iff_le, Int.natCast_nonneg, if_true]
  refine ⟨_, rfl, ?_, ?_, ?_, ?_, rfl⟩
  · show ((sys.regs.eax &&& 0xFF00) ||| int_low_byte (b : Int)) &&& 0xFF = b
    have : int_low_byte (b : Int) = b := by unfold int_low_byte; omega
    rw [this]
    exact (al_of_set _ b hb8).1
  · rw [ZF_iff]
    show ¬ ((sys.regs.eflags &&& 0xFFFFFFBF).testBit 6 = true)
    rw [clear_zf_bit]
    simp
  · show (((sys.regs.eax &&& 0xFF00) ||| int_low_byte (b : Int)) >>> 8) &&& 0xFF =
      (sys.regs.eax >>> 8) &&& 0xFF
    have : int_low_byte (b : Int) = b := by unfold int_low_byte; omega
    rw [this]
    exact (al_of_set _ b hb8).2
  · intro i hi h6
    exact clear_zf_bits _ i hi h6

/-- Service 06h with `DL = FFh` when nothing is buffered and the host has
nothing to deliver: ZF is set and `EAX` stays. -/
theorem direct_input_none (fuel : Nat) (sys : system__s)
    (hah : AH sys.regs = 0x06) (hdl : sys.regs.edx &&& 0xFF = 0xFF)
    (hemp : ¬ sys.input_pos < sys.input_len) (hpoll : (host_poll sys.host).1 = false) :
    ∃ sys', dos_int21 (fuel + 1) sys = some sys' ∧ ZF sys'.regs ∧
      sys'.regs.eax = sys.regs.eax := by
  have hr : read_buffered_input sys = (-1, { sys with host := (host_poll sys.host).2 }) := by
    unfold read_buffered_input
    rw [if_neg hemp]
    simp only [hpoll, Bool.false_eq_true, if_false]
  rw [dos_int21_direct_input fuel sys hah hdl, hr]
  simp only [ge_iff_le, Int.reduceNeg, Left.nonneg_neg_iff, Int.reduceLE, if_false]
  refine ⟨_, rfl, ?_, rfl⟩
  rw [ZF_iff]
  exact set_zf_bit _

/-! ### Interrupts without effect -/

theorem dos_int21_default (n : Nat) (s : system__s) (h : supported_selector (AH s.regs) = false) :
    dos_int21 (n + 1) s = some s := by
  unfold AH at h
  unfold dos_int21
  simp only
  generalize (s.regs.eax >>> 8) &&& 0xFF = func at h ⊢
  simp [supported_selector] at h
  split <;> first | rfl | (exfalso; omega)

theorem dos_int21_set_vector (n : Nat) (s : system__s) (h : AH s.regs = 0x25) :
    dos_int21 (n + 1) s = some s := by
  unfold AH at h
  simp only [dos_int21, h]

theorem ip_add (e k : Nat) :
    ((e + k) % 4294967296) &&& 0xFFFF = ((e &&& 0xFFFF) + k) % 65536 := by
  rw [and_FFFF, and_FFFF]
  omega

/-! ### Service 0Ch -/

/-- The drain loop of service 0Ch ends. -/
theorem drain_stdin_returns (fuel : Nat) : ∀ (h : host_env), pending h.stdin < fuel →
    ∃ h', drain_stdin fuel h = some h' := by
  induction fuel with
  | zero => intro h hf; omega
  | succ n ih =>
      intro h hf
      unfold drain_stdin
      rcases hs : h.stdin with _ | ⟨ev, rest⟩
      · simp [host_poll, hs]
      · cases ev with
        | idle => simp [host_poll, hs]
        | ready r =>
            cases r with
            | failed => simp [host_poll, host_read, hs]
            | data d =>
                rw [hs] at hf
                simp only [pending] at hf
                simp only [host_poll, host_read, hs, if_true]
                by_cases hd : d.length ≤ 256
                · simp only [hd, if_true]
                  by_cases h0 : ((d.length : Int)) ≤ 0
                  · simp [h0]
                  · simp only [h0, if_false]
                    exact ih _ (by simp only; omega)
                · simp only [hd, if_false]
                  have h0 : ¬ ((256 : Int) ≤ 0) := by norm_num
                  simp only [Nat.cast_ofNat, h0, if_false]
                  apply ih
                  simp only [pending, List.length_drop]
                  omega

theorem dos_int21_flush (n : Nat) (s : system__s) (hah : AH s.regs = 0x0C) :
    dos_int21 (n + 1) s =
      match drain_stdin n s.host with
      | none => none
      | some h =>
          if reentry (AL s.regs) then
            dos_int21 n (with_eax (flushed s h) ((AL s.regs <<< 8) ||| AL s.regs))
          else some (flushed s h) := by
  unfold AH at hah
  simp only [dos_int21, hah]
  rfl

theorem al_twice (f : Nat) (hf : f < 256) : (f <<< 8) ||| f = f * 256 + f := by
  rw [shl_eq_mul]
  have h := or_eq_add 8 f f (by norm_num; exact hf)
  norm_num at h ⊢
  exact h

/-- The services service 0Ch re-enters use no fuel beyond their own call. -/
theorem dos_int21_reentered (n : Nat) (s : system__s) (h : reentry (AH s.regs)) :
    dos_int21 (n + 1) s = dos_int21 1 s ∧ ∃ r, dos_int21 1 s = some r := by
  unfold AH at h
  rcases h with h | h | h | h | h
  · simp only [dos_int21, h]
    refine ⟨trivial, ?_⟩
    split_ifs <;> exact ⟨_, rfl⟩
  · simp only [dos_int21, h]
    refine ⟨trivial, ?_⟩
    split_ifs <;> exact ⟨_, rfl⟩
  · simp only [dos_int21, h]
    exact ⟨trivial, _, rfl⟩
  · simp only [dos_int21, h]
    exact ⟨trivial, _, rfl⟩
  · simp only [dos_int21, h]
    exact ⟨trivial, _, rfl⟩

/-! ### Service 01h -/

theorem dos_int21_read_char (n : Nat) (s : system__s) (hah : AH s.regs = 0x01) :
    dos_int21 (n + 1) s =
      if (read_buffered_input s).1 ≥ 0 then
        some (echo_char (set_al_from_int (read_buffered_input s).2 (read_buffered_input s).1)
          (read_buffered_input s).1)
      else if (read_buffered_input (read_buffered_input s).2).1 ≥ 0 then
        some (echo_char (set_al_from_int (read_buffered_input (read_buffered_input s).2).2
          (read_buffered_input (read_buffered_input s).2).1)
          (read_buffered_input (read_buffered_input s).2).1)
      else
        some { (read_buffered_input (read_buffered_input s).2).2 with
          regs := { (read_buffered_input (read_buffered_input s).2).2.regs with
            eax := (read_buffered_input (read_buffered_input s).2).2.regs.eax &&& 0xFF00 } } := by
  unfold AH at hah
  simp only [dos_int21, hah]

/-- A buffered byte below 80h is returned as it is. -/
theorem read_buffered_byte (s : system__s) (b : Nat) (hlt : s.input_pos < s.input_len)
    (hb : s.input_buffer s.input_pos.toNat = b) (h7 : b < 128) :
    read_buffered_input s = ((b : Int), { s with input_pos := s.input_pos + 1 }) := by
  unfold read_buffered_input
  rw [if_pos hlt, hb]
  have : char_to_int s.host.char_signed b = (b : Int) := by
    unfold char_to_int
    have : ¬ (128 ≤ b) := by omega
    simp [this]
  rw [this]

/-- An attempt that finds no byte: the return value is -1, the buffer stays
empty, and nothing but the host and the buffer changes. -/
theorem read_buffered_none (s : system__s) (hpos : 0 ≤ s.input_pos)
    (hemp : ¬ s.input_pos < s.input_len) (hq : quiet s.host) :
    (read_buffered_input s).1 = -1 ∧ (read_buffered_input s).2.regs = s.regs ∧
    (read_buffered_input s).2.input_pos = s.input_pos ∧
    ¬ (read_buffered_input s).2.input_pos < (read_buffered_input s).2.input_len ∧
    (read_buffered_input s).2.host.stdout = s.host.stdout := by
  have hout : ∀ h : host_env, (host_poll h).2.stdout = h.stdout ∧
      (host_read h 255).2.2.stdout = h.stdout := by
    intro h
    unfold host_poll host_read
    constructor
    · split <;> rfl
    · split
      · split_ifs <;> rfl
      · rfl
      · rfl
  by_cases hp : (host_poll s.host).1 = true
  · have hr : (host_read (host_poll s.host).2 255).1 ≤ 0 := by
      rcases hq with h | h
      · rw [hp] at h; exact absurd h (by simp)
      · exact h
    have hr2 : ¬ (host_read (host_poll s.host).2 255).1 > 0 := by omega
    have e : read_buffered_input s =
        (-1, { s with host := (host_read (host_poll s.host).2 255).2.2,
                      input_len := (host_read (host_poll s.host).2 255).1,
                      input_buffer := store_bytes s.input_buffer 0
                        (host_read (host_poll s.host).2 255).2.1 }) := by
      unfold read_buffered_input
      rw [if_neg hemp]
      simp only [hp, if_true, hr2, if_false]
    rw [e]
    refine ⟨rfl, rfl, rfl, ?_, ?_⟩
    · show ¬ s.input_pos < (host_read (host_poll s.host).2 255).1
      omega
    · show (host_read (host_poll s.host).2 255).2.2.stdout = s.host.stdout
      rw [(hout _).2, (hout _).1]
  · have e : read_buffered_input s = (-1, { s with host := (host_poll s.host).2 }) := by
      unfold read_buffered_input
      rw [if_neg hemp]
      simp only [hp, Bool.false_eq_true, if_false]
    rw [e]
    exact ⟨rfl, rfl, rfl, hemp, (hout _).1⟩

theorem int_low_byte_nat (b : Nat) (hb : b < 256) : int_low_byte (b : Int) = b := by
  unfold int_low_byte
  omega

/-- One call of service 01h on a buffered byte below 80h. -/
theorem read_char_byte (n : Nat) (s : system__s) (b : Nat) (hah : AH s.regs = 0x01)
    (hlt : s.input_pos < s.input_len) (hb : s.input_buffer s.input_pos.toNat = b)
    (h7 : b < 128) :
    ∃ s', dos_int21 (n + 1) s = some s' ∧ AL s'.regs = b ∧ AH s'.regs = AH s.regs ∧
      s'.host.stdout = s.host.stdout ++ (if b = 0x0A then [] else [b]) ∧
      s'.input_pos = s.input_pos + 1 ∧ s'.input_len = s.input_len ∧
      s'.input_buffer = s.input_buffer := by
  rw [dos_int21_read_char n s hah, read_buffered_byte s b hlt hb h7]
  simp only [ge_iff_le, Int.natCast_nonneg, if_true]
  have hl := int_low_byte_nat b (by omega)
  have hal := al_of_set s.regs.eax b (by omega)
  by_cases h10 : b = 0x0A
  · have e : echo_char (set_al_from_int { s with input_pos := s.input_pos + 1 } (b : Int)) (b : Int) =
        set_al_from_int { s with input_pos := s.input_pos + 1 } (b : Int) := by
      unfold echo_char
      rw [if_neg (by rw [h10]; simp)]
    rw [e]
    refine ⟨_, rfl, ?_, ?_, ?_, rfl, rfl, rfl⟩
    · show ((s.regs.eax &&& 0xFF00) ||| int_low_byte (b : Int)) &&& 0xFF = b
      rw [hl]; exact hal.1
    · show (((s.regs.eax &&& 0xFF00) ||| int_low_byte (b : Int)) >>> 8) &&& 0xFF = _
      rw [hl]; exact hal.2
    · simp [h10, set_al_from_int]
  · have e : echo_char (set_al_from_int { s with input_pos := s.input_pos + 1 } (b : Int)) (b : Int) =
        sys_putchar (set_al_from_int { s with input_pos := s.input_pos + 1 } (b : Int))
          (int_low_byte (b : Int)) := by
      unfold echo_char
      rw [if_pos (by
        intro hc
        apply h10
        exact_mod_cast hc)]
    rw [e]
    refine ⟨_, rfl, ?_, ?_, ?_, rfl, rfl, rfl⟩
    · show ((s.regs.eax &&& 0xFF00) ||| int_low_byte (b : Int)) &&& 0xFF = b
      rw [hl]; exact hal.1
    · show (((s.regs.eax &&& 0xFF00) ||| int_low_byte (b : Int)) >>> 8) &&& 0xFF = _
      rw [hl]; exact hal.2
    · show s.host.stdout ++ [int_low_byte (b : Int) % 256] = _
      rw [hl, if_neg h10, Nat.mod_eq_of_lt (by omega)]

theorem calls_snoc (fuel : Nat) (k : Nat) : ∀ (s : system__s),
    calls fuel (k + 1) s = (calls fuel k s).bind (dos_int21 fuel) := by
  induction k with
  | zero =>
      intro s
      simp only [calls, Option.some_bind]
      cases dos_int21 fuel s <;> rfl
  | succ n ih =>
      intro s
      rw [calls]
      cases h : dos_int21 fuel s with
      | none => simp [calls, h]
      | some s1 =>
          simp only
          rw [ih s1]
          conv_rhs => rw [calls, h]

/-- After `k` calls of service 01h on buffered bytes below 80h the cursor has
moved by `k` and `AH` is still 01h. -/
theorem calls_read_char (sys : system__s) (bs : List Nat) (hah : AH sys.regs = 0x01)
    (hun : unread sys bs) (h7 : ∀ b ∈ bs, b < 128) (k : Nat) (hk : k ≤ bs.length) :
    ∃ s, calls 1 k sys = some s ∧ AH s.regs = 0x01 ∧
      s.input_pos = sys.input_pos + (k : Int) ∧ s.input_len = sys.input_len ∧
      s.input_buffer = sys.input_buffer := by
  induction k with
  | zero => exact ⟨sys, rfl, hah, by simp, rfl, rfl⟩
  | succ n ih =>
      obtain ⟨s, hs, ha, hp, hl, hb⟩ := ih (by omega)
      obtain ⟨h0, hlen, hbuf⟩ := hun
      have hlt : s.input_pos < s.input_len := by rw [hp, hl]; omega
      have hbyte : s.input_buffer s.input_pos.toNat = bs.getD n 0 := by
        rw [hb, hp, ← hbuf n (by omega)]
        congr 1
        omega
      have hn7 : bs.getD n 0 < 128 := by
        rw [List.getD_eq_getElem _ _ (by omega)]
        exact h7 _ (List.getElem_mem _)
      obtain ⟨s', hs', -, hah', -, hp', hl', hb'⟩ := read_char_byte 0 s _ ha hlt hbyte hn7
      refine ⟨s', ?_, by rw [hah', ha], ?_, by rw [hl', hl], by rw [hb', hb]⟩
      · rw [calls_snoc, hs]
        exact hs'
      · rw [hp', hp]
        push_cast
        omega

/-! ### The FCB fields `open_file` writes -/

theorem set_byte_same (mem : Nat → Nat) (a v : Nat) : set_byte mem a v a = v := by
  unfold set_byte
  rw [if_pos rfl]

theorem set_byte_other (mem : Nat → Nat) (a v x : Nat) (h : x ≠ a) : set_byte mem a v x = mem x := by
  unfold set_byte
  rw [if_neg h]

theorem get_dword_set_dword (mem : Nat → Nat) (a v : Nat) (hv : v < 4294967296) :
    get_dword (set_dword mem a v) a = v := by
  unfold get_dword set_dword
  have hlo : v &&& 0xFFFF < 65536 := by rw [and_FFFF]; omega
  have hhi : (v >>> 16) &&& 0xFFFF < 65536 := by rw [and_FFFF]; omega
  rw [get_word_set_word _ _ _ hhi]
  rw [get_word_congr _ (set_word mem a (v &&& 0xFFFF)) a
    (set_word_other _ _ _ _ (by omega) (by omega))
    (set_word_other _ _ _ _ (by omega) (by omega))]
  rw [get_word_set_word _ _ _ hlo]
  rw [shl_eq_mul, Nat.or_comm, and_FFFF, and_FFFF, shr_eq_div]
  have h := or_eq_add 16 (v / 2 ^ 16 % 65536) (v % 65536) (by norm_num; omega)
  rw [h]
  norm_num
  omega

/-- Guest memory after the five field writes of `open_file`. -/
theorem open_file_fields (mem : Nat → Nat) (fcb size : Nat) (hs : size < 4294967296) :
    fcb_cblock (set_byte (set_dword (set_word (set_byte (set_word mem (fcb + FCB_CBLOCK) 0)
      (fcb + FCB_CRECNUM) 0) (fcb + FCB_RECSIZE) 128) (fcb + FCB_SIZE) size) (fcb + FCB_DRIVE) 3)
      fcb = 0 ∧
    fcb_recsize (set_byte (set_dword (set_word (set_byte (set_word mem (fcb + FCB_CBLOCK) 0)
      (fcb + FCB_CRECNUM) 0) (fcb + FCB_RECSIZE) 128) (fcb + FCB_SIZE) size) (fcb + FCB_DRIVE) 3)
      fcb = 128 ∧
    fcb_crecnum (set_byte (set_dword (set_word (set_byte (set_word mem (fcb + FCB_CBLOCK) 0)
      (fcb + FCB_CRECNUM) 0) (fcb + FCB_RECSIZE) 128) (fcb + FCB_SIZE) size) (fcb + FCB_DRIVE) 3)
      fcb = 0 ∧
    fcb_drive (set_byte (set_dword (set_word (set_byte (set_word mem (fcb + FCB_CBLOCK) 0)
      (fcb + FCB_CRECNUM) 0) (fcb + FCB_RECSIZE) 128) (fcb + FCB_SIZE) size) (fcb + FCB_DRIVE) 3)
      fcb = 3 ∧
    fcb_size (set_byte (set_dword (set_word (set_byte (set_word mem (fcb + FCB_CBLOCK) 0)
      (fcb + FCB_CRECNUM) 0) (fcb + FCB_RECSIZE) 128) (fcb + FCB_SIZE) size) (fcb + FCB_DRIVE) 3)
      fcb = size := by
  have c0 : FCB_DRIVE = 0 := rfl
  have c12 : FCB_CBLOCK = 12 := rfl
  have c14 : FCB_RECSIZE = 14 := rfl
  have c16 : FCB_SIZE = 16 := rfl
  have c26 : FCB_CRECNUM = 26 := rfl
  have sd : ∀ (m : Nat → Nat) (a v x : Nat), x ≠ a → x ≠ a + 1 → x ≠ a + 2 → x ≠ a + 3 →
      set_dword m a v x = m x := by
    intro m a v x h0 h1 h2 h3
    unfold set_dword
    rw [set_word_other _ _ _ _ (by omega) (by omega), set_word_other _ _ _ _ h0 h1]
  refine ⟨?_, ?_, ?_, ?_, ?_⟩
  · unfold fcb_cblock
    rw [get_word_congr _ (set_word mem (fcb + FCB_CBLOCK) 0) (fcb + FCB_CBLOCK)
      (by rw [set_byte_other _ _ _ _ (by omega), sd _ _ _ _ (by omega) (by omega) (by omega) (by omega),
            set_word_other _ _ _ _ (by omega) (by omega), set_byte_other _ _ _ _ (by omega)])
      (by rw [set_byte_other _ _ _ _ (by omega), sd _ _ _ _ (by omega) (by omega) (by omega) (by omega),
            set_word_other _ _ _ _ (by omega) (by omega), set_byte_other _ _ _ _ (by omega)])]
    exact get_word_set_word _ _ _ (by norm_num)
  · unfold fcb_recsize
    rw [get_word_congr _ (set_word (set_byte (set_word mem (fcb + FCB_CBLOCK) 0)
        (fcb + FCB_CRECNUM) 0) (fcb + FCB_RECSIZE) 128) (fcb + FCB_RECSIZE)
      (by rw [set_byte_other _ _ _ _ (by omega), sd _ _ _ _ (by omega) (by omega) (by omega) (by omega)])
      (by rw [set_byte_other _ _ _ _ (by omega), sd _ _ _ _ (by omega) (by omega) (by omega) (by omega)])]
    exact get_word_set_word _ _ _ (by norm_num)
  · unfold fcb_crecnum
    rw [set_byte_other _ _ _ _ (by omega), sd _ _ _ _ (by omega) (by omega) (by omega) (by omega),
      set_word_other _ _ _ _ (by omega) (by omega), set_byte_same]
  · unfold fcb_drive
    rw [set_byte_same]
  · unfold fcb_size get_dword
    rw [get_word_congr _ (set_dword (set_word (set_byte (set_word mem (fcb + FCB_CBLOCK) 0)
        (fcb + FCB_CRECNUM) 0) (fcb + FCB_RECSIZE) 128) (fcb + FCB_SIZE) size) (fcb + FCB_SIZE)
      (set_byte_other _ _ _ _ (by omega)) (set_byte_other _ _ _ _ (by omega)),
      get_word_congr _ (set_dword (set_word (set_byte (set_word mem (fcb + FCB_CBLOCK) 0)
        (fcb + FCB_CRECNUM) 0) (fcb + FCB_RECSIZE) 128) (fcb + FCB_SIZE) size) (fcb + FCB_SIZE + 2)
      (set_byte_other _ _ _ _ (by omega)) (set_byte_other _ _ _ _ (by omega))]
    exact get_dword_set_dword _ _ _ hs

/-- `open_file` when `fopen` yields no stream. -/
theorem open_file_failed (sys : system__s) (fcb : Nat) (create : Bool)
    (h : (open_stream sys fcb create).1 = none) :
    open_file sys fcb create =
      (255, { sys with fp := set_slot sys.fp (open_slot sys fcb create) none,
                       host := (open_stream sys fcb create).2 }) := by
  have e : open_file sys fcb create =
      match (open_stream sys fcb create).1 with
      | none => (255, { sys with
          fp := set_slot sys.fp (open_slot sys fcb create) (open_stream sys fcb create).1,
          host := (open_stream sys fcb create).2 })
      | some f => (0, { sys with
          fp := set_slot sys.fp (open_slot sys fcb create) (open_stream sys fcb create).1,
          host := (open_stream sys fcb create).2,
          fcbs := set_slot sys.fcbs (open_slot sys fcb create) (some fcb),
          mem := fcb_opened sys.mem fcb
            (if create then 0 else host_fsize (open_stream sys fcb create).2 f % 4294967296) }) := rfl
  rw [e]
  generalize open_stream sys fcb create = os at h ⊢
  rw [h]

/-- `open_file` when `fopen` yields a stream. -/
theorem open_file_ok (sys : system__s) (fcb : Nat) (create : Bool) (f : FILE)
    (h : (open_stream sys fcb create).1 = some f) :
    open_file sys fcb create =
      (0, { sys with fp := set_slot sys.fp (open_slot sys fcb create) (some f),
                     host := (open_stream sys fcb create).2,
                     fcbs := set_slot sys.fcbs (open_slot sys fcb create) (some fcb),
                     mem := fcb_opened sys.mem fcb
                       (if create then 0
                        else host_fsize (open_stream sys fcb create).2 f % 4294967296) }) := by
  have e : open_file sys fcb create =
      match (open_stream sys fcb create).1 with
      | none => (255, { sys with
          fp := set_slot sys.fp (open_slot sys fcb create) (open_stream sys fcb create).1,
          host := (open_stream sys fcb create).2 })
      | some f => (0, { sys with
          fp := set_slot sys.fp (open_slot sys fcb create) (open_stream sys fcb create).1,
          host := (open_stream sys fcb create).2,
          fcbs := set_slot sys.fcbs (open_slot sys fcb create) (some fcb),
          mem := fcb_opened sys.mem fcb
            (if create then 0 else host_fsize (open_stream sys fcb create).2 f % 4294967296) }) := rfl
  rw [e]
  generalize open_stream sys fcb create = os at h ⊢
  rw [h]

theorem dos_int21_open (n : Nat) (s : system__s) (create : Bool)
    (hah : AH s.regs = (if create then 0x16 else 0x0F)) :
    dos_int21 (n + 1) s =
      some { (open_file s (ds_dx s) create).2 with
        regs := { (open_file s (ds_dx s) create).2.regs with
          eax := ((open_file s (ds_dx s) create).2.regs.eax &&& 0xFF00) |||
            (open_file s (ds_dx s) create).1 } } := by
  unfold AH at hah
  cases create with
  | true =>
      simp only [if_true] at hah
      simp only [dos_int21, hah]
      rfl
  | false =>
      simp only [Bool.false_eq_true, if_false] at hah
      simp only [dos_int21, hah]
      rfl

/-- The stream an open (not create) yields carries the file name, and the host
is as before. -/
theorem open_stream_name (sys : system__s) (fcb : Nat) (f : FILE)
    (h : (open_stream sys fcb false).1 = some f) :
    (open_stream sys fcb false).2 = sys.host ∧ f.name = c_string (mkfilename sys.mem fcb) := by
  unfold open_stream at h ⊢
  simp only [Bool.false_eq_true, if_false] at h ⊢
  have hr : ∀ n f, fopen_r sys.host n = some f → f.name = n := by
    intro n f hf
    unfold fopen_r at hf
    split at hf
    · split_ifs at hf
      cases hf
      rfl
    · cases hf
  have hp : ∀ n f, fopen_rplus sys.host n = some f → f.name = n := by
    intro n f hf
    unfold fopen_rplus at hf
    split at hf
    · split_ifs at hf
      cases hf
      rfl
    · cases hf
  cases hrp : fopen_rplus sys.host (c_string (mkfilename sys.mem fcb)) with
  | some g =>
      rw [hrp] at h
      simp only [Option.some.injEq] at h
      subst h
      exact ⟨rfl, hp _ _ hrp⟩
  | none =>
      rw [hrp] at h
      exact ⟨rfl, hr _ _ h⟩

/-! ### Service 14h -/

theorem store_bytes_other (mem : Nat → Nat) (a : Nat) (bs : List Nat) (x : Nat)
    (h : ∀ i, i < bs.length → a + i ≠ x) : store_bytes mem a bs x = mem x := by
  unfold store_bytes
  rw [if_neg]
  intro hx
  exact h (x - a) (by omega) (by omega)

theorem dos_int21_seq_none (n : Nat) (s : system__s) (hah : AH s.regs = 0x14)
    (hf : find_fcb s (ds_dx s) = none) :
    dos_int21 (n + 1) s =
      some { s with regs := { s.regs with eax := (s.regs.eax &&& 0xFF00) ||| 0xFF } } := by
  unfold AH at hah
  unfold ds_dx DX at hf
  simp only [dos_int21, hah, hf]

theorem dos_int21_seq_read (n : Nat) (s : system__s) (hah : AH s.regs = 0x14)
    (slot : Nat) (f : FILE) (hf : find_fcb s (ds_dx s) = some slot) (hfp : s.fp slot = some f) :
    dos_int21 (n + 1) s =
      if (host_fread s.host f (fcb_recsize s.mem (ds_dx s))).1.length =
          fcb_recsize (store_bytes s.mem (dta_addr s)
            (host_fread s.host f (fcb_recsize s.mem (ds_dx s))).1) (ds_dx s) then
        some { s with
          mem := set_byte (store_bytes s.mem (dta_addr s)
              (host_fread s.host f (fcb_recsize s.mem (ds_dx s))).1) (ds_dx s + FCB_CRECNUM)
            ((store_bytes s.mem (dta_addr s)
              (host_fread s.host f (fcb_recsize s.mem (ds_dx s))).1 (ds_dx s + FCB_CRECNUM) + 1)
              % 256),
          fp := set_slot s.fp slot (some (host_fread s.host f (fcb_recsize s.mem (ds_dx s))).2),
          regs := { s.regs with eax := s.regs.eax &&& 0xFF00 } }
      else
        some { s with
          mem := store_bytes s.mem (dta_addr s)
            (host_fread s.host f (fcb_recsize s.mem (ds_dx s))).1,
          fp := set_slot s.fp slot (some (host_fread s.host f (fcb_recsize s.mem (ds_dx s))).2),
          regs := { s.regs with eax := (s.regs.eax &&& 0xFF00) ||| 0x01 } } := by
  unfold AH at hah
  unfold ds_dx DX at hf
  simp only [dos_int21, hah, hf, hfp]
  rfl

theorem dos_int21_set_dta (n : Nat) (s : system__s) (hah : AH s.regs = 0x1A) :
    dos_int21 (n + 1) s = some { s with dtaseg := s.regs.ds, dtaoff := DX s.regs } := by
  unfold AH at hah
  simp only [dos_int21, hah]
  rfl

theorem host_fread_file (h : host_env) (f : FILE) (hf : host_file) (n : Nat)
    (hfile : h.files f.name = some hf) :
    (host_fread h f n).1 = (hf.data.drop f.pos).take n := by
  unfold host_fread
  simp only [hfile]

/-- A record read into an area clear of the FCB leaves `recsize` and `crecnum`
as they were. -/
theorem record_clear_fields (mem : Nat → Nat) (dta fcb n : Nat) (chunk : List Nat)
    (hlen : chunk.length ≤ n) (hc : record_clear dta n fcb) :
    fcb_recsize (store_bytes mem dta chunk) fcb = fcb_recsize mem fcb ∧
    store_bytes mem dta chunk (fcb + FCB_CRECNUM) = mem (fcb + FCB_CRECNUM) := by
  unfold fcb_recsize
  refine ⟨get_word_congr _ _ _ ?_ ?_, ?_⟩
  · exact store_bytes_other _ _ _ _ (fun i hi => (hc i (by omega)).1)
  · exact store_bytes_other _ _ _ _ (fun i hi => (hc i (by omega)).2.1)
  · exact store_bytes_other _ _ _ _ (fun i hi => (hc i (by omega)).2.2)

/-! ### The watchdog of the main loop -/

/-- What the scan of the watchdog finds: the least offset in range with
`CD 21`, or nothing when there is none. -/
theorem scan_int21_spec (mem : Nat → Nat) (addr : Nat) (count : Nat) : ∀ (i0 : Nat),
    (∀ i, scan_int21 mem addr count i0 = some i →
      i0 ≤ i ∧ i < i0 + count ∧ int21_at mem (addr + i) ∧
      ∀ j, i0 ≤ j → j < i → ¬ int21_at mem (addr + j)) ∧
    (scan_int21 mem addr count i0 = none →
      ∀ j, i0 ≤ j → j < i0 + count → ¬ int21_at mem (addr + j)) := by
  induction count with
  | zero =>
      intro i0
      constructor
      · intro i h; simp [scan_int21] at h
      · intro _ j h1 h2; omega
  | succ n ih =>
      intro i0
      unfold scan_int21
      by_cases hc : mem (addr + i0) = 0xCD ∧ mem (addr + i0 + 1) = 0x21
      · rw [if_pos hc]
        constructor
        · intro i h
          simp only [Option.some.injEq] at h
          subst h
          exact ⟨le_refl _, by omega, hc, fun j h1 h2 => by omega⟩
        · intro h; simp at h
      · rw [if_neg hc]
        obtain ⟨ih1, ih2⟩ := ih (i0 + 1)
        constructor
        · intro i h
          obtain ⟨a, b, c, d⟩ := ih1 i h
          refine ⟨by omega, by omega, c, ?_⟩
          intro j h1 h2
          by_cases hj : j = i0
          · subst hj; exact hc
          · exact d j (by omega) h2
        · intro h j h1 h2
          by_cases hj : j = i0
          · subst hj; exact hc
          · exact ih2 h j (by omega) (by omega)

/-- The body of the loop when the instruction is not recognized and the
counter passes 10000. -/
theorem main_loop_body_watchdog (fuel : Nat) (st : main_state) (sys1 : system__s)
    (hex : execute_instruction fuel st.sys = some (false, sys1))
    (hcy : st.cycles_without_io + 1 > 10000) :
    main_loop_body fuel st =
      match scan_int21 sys1.mem (ip_addr sys1) 100 0 with
      | some i => some (false, false, { sys := skip_to sys1 i, cycles_without_io := 0 })
      | none => some (false, true, { sys := sys1, cycles_without_io := st.cycles_without_io + 1 }) := by
  unfold main_loop_body
  rw [hex]
  simp only [Bool.false_eq_true, if_false, hcy, if_true]
  rfl

/-- The counter after one pass: 0 after a recognized instruction; after an
unrecognized one, one more than before, or 0 when the watchdog found `CD 21`. -/
theorem main_loop_body_counter (fuel : Nat) (st st' : main_state) (executed stop : Bool)
    (h : main_loop_body fuel st = some (executed, stop, st')) :
    (executed = true → st'.cycles_without_io = 0) ∧
    (executed = false →
      st'.cycles_without_io = st.cycles_without_io + 1 ∨ st'.cycles_without_io = 0) := by
  unfold main_loop_body at h
  cases hex : execute_instruction fuel st.sys with
  | none => rw [hex] at h; simp at h
  | some r =>
      obtain ⟨e, s1⟩ := r
      rw [hex] at h
      simp only at h
      cases e with
      | true =>
          simp only [if_true, Option.some.injEq, Prod.mk.injEq] at h
          obtain ⟨he, -, hs⟩ := h
          refine ⟨fun _ => by rw [← hs], fun hf => ?_⟩
          rw [← he] at hf
          cases hf
      | false =>
          simp only [Bool.false_eq_true, if_false] at h
          refine ⟨fun ht => ?_, fun _ => ?_⟩
          · split_ifs at h
            · split at h <;>
              · simp only [Option.some.injEq, Prod.mk.injEq] at h
                rw [← h.1] at ht
                cases ht
            · simp only [Option.some.injEq, Prod.mk.injEq] at h
              rw [← h.1] at ht
              cases ht
          · split_ifs at h
            · split at h
              · simp only [Option.some.injEq, Prod.mk.injEq] at h
                right
                rw [← h.2.2]
              · simp only [Option.some.injEq, Prod.mk.injEq] at h
                left
                rw [← h.2.2]
            · simp only [Option.some.injEq, Prod.mk.injEq] at h
              left
              rw [← h.2.2]

theorem trailing_snoc (trace : List Bool) (e : Bool) :
    trailing_unrecognized (trace ++ [e]) = if e then 0 else trailing_unrecognized trace + 1 := by
  unfold trailing_unrecognized
  rw [List.reverse_append]
  cases e <;> simp [List.takeWhile]

/-- From a counter of 0, after any number of passes the counter is at most the
number of unrecognized opcodes in a row at the end of the trace. -/
theorem counter_bound (fuel : Nat) (st0 : main_state) (h0 : st0.cycles_without_io = 0)
    (k : Nat) : ∀ (trace : List Bool) (st : main_state),
    run_passes fuel k st0 = some (trace, st) →
    0 ≤ st.cycles_without_io ∧ st.cycles_without_io ≤ (trailing_unrecognized trace : Int) := by
  induction k with
  | zero =>
      intro trace st h
      simp only [run_passes, Option.some.injEq, Prod.mk.injEq] at h
      rw [← h.2, h0]
      exact ⟨le_refl _, by positivity⟩
  | succ n ih =>
      intro trace st h
      rw [run_passes] at h
      cases hp : run_passes fuel n st0 with
      | none => rw [hp] at h; simp at h
      | some r =>
          obtain ⟨tr, st1⟩ := r
          rw [hp] at h
          simp only at h
          cases hb : main_loop_body fuel st1 with
          | none => rw [hb] at h; simp at h
          | some r2 =>
              obtain ⟨e, stop, st2⟩ := r2
              rw [hb] at h
              simp only [Option.some.injEq, Prod.mk.injEq] at h
              obtain ⟨ht, hs⟩ := h
              subst ht
              subst hs
              obtain ⟨i1, i2⟩ := ih tr st1 hp
              obtain ⟨c1, c2⟩ := main_loop_body_counter fuel st1 st2 e stop hb
              rw [trailing_snoc]
              cases e with
              | true =>
                  rw [c1 rfl]
                  simp
              | false =>
                  simp only [Bool.false_eq_true, if_false]
                  rcases c2 rfl with c | c
                  · rw [c]
                    push_cast
                    omega
                  · rw [c]
                    exact ⟨le_refl _, by positivity⟩

/-- Watchdog recovery: in a pass whose instruction is not recognized and whose
counter passes 10000, if `CD 21` lies at an offset below 100 from
linear(CS, IP), the least such offset `i` is added to `eip`, the counter is
reset and the loop goes on; `IP` has advanced by `i` modulo `2^16`, and when
`IP + i` stays below `2^16` the next instruction fetched is `INT 21h`. If
there is no such offset the loop is left. -/
theorem watchdog_recovery (fuel : Nat) (st : main_state) (sys1 : system__s)
    (hex : execute_instruction fuel st.sys = some (false, sys1))
    (hcy : st.cycles_without_io + 1 > 10000) :
    (∀ i, i < 100 → int21_at sys1.mem (ip_addr sys1 + i) →
      (∀ j, j < i → ¬ int21_at sys1.mem (ip_addr sys1 + j)) →
      main_loop_body fuel st =
        some (false, false, { sys := skip_to sys1 i, cycles_without_io := 0 }) ∧
      IP (skip_to sys1 i).regs = (IP sys1.regs + i) % 65536 ∧
      (IP sys1.regs + i < 65536 →
        opcode_at (skip_to sys1 i) = 0xCD ∧ operand8 (skip_to sys1 i) = 0x21)) ∧
    ((∀ i, i < 100 → ¬ int21_at sys1.mem (ip_addr sys1 + i)) →
      main_loop_body fuel st =
        some (false, true, { sys := sys1, cycles_without_io := st.cycles_without_io + 1 })) := by
  have hb := main_loop_body_watchdog fuel st sys1 hex hcy
  obtain ⟨hsome, hnone⟩ := scan_int21_spec sys1.mem (ip_addr sys1) 100 0
  constructor
  · intro i hi hat hleast
    cases hs : scan_int21 sys1.mem (ip_addr sys1) 100 0 with
    | none => exact absurd hat (hnone hs i (by omega) (by omega))
    | some i' =>
        obtain ⟨-, h2, h3, h4⟩ := hsome i' hs
        have hii : i' = i := by
          by_contra hne
          rcases Nat.lt_or_gt_of_ne hne with hlt | hgt
          · exact hleast i' hlt h3
          · exact h4 i (by omega) hgt hat
        subst hii
        rw [hs] at hb
        refine ⟨hb, ip_add sys1.regs.eip i', ?_⟩
        intro hw
        have hip : ip_addr (skip_to sys1 i') = ip_addr sys1 + i' := by
          unfold ip_addr seg_off_to_linear
          show sys1.regs.cs * 16 + (((sys1.regs.eip + i') % 4294967296) &&& 0xFFFF) =
            sys1.regs.cs * 16 + (sys1.regs.eip &&& 0xFFFF) + i'
          rw [ip_add]
          unfold IP at hw
          rw [Nat.mod_eq_of_lt hw]
          omega
        unfold opcode_at operand8
        rw [hip]
        exact h3
  · intro hno
    cases hs : scan_int21 sys1.mem (ip_addr sys1) 100 0 with
    | none => rw [hs] at hb; exact hb
    | some i' =>
        obtain ⟨-, h2, h3, -⟩ := hsome i' hs
        exact absurd h3 (hno i' (by omega))

/-- Leaving the loop: a pass that ends in `break` is the last one. -/
theorem main_loop_break (fuel passes : Nat) (st st' : main_state) (executed : Bool)
    (hrun : st.sys.running = true)
    (hb : main_loop_body fuel st = some (executed, true, st')) :
    main_loop fuel (passes + 1) st = some ([executed], st') := by
  rw [main_loop, if_pos hrun, hb]
  rfl

/-! ### PUSH AX and POP AX -/

/-- The two bytes `set_word` stores for the low word of `x`. -/
theorem push_bytes (mem : Nat → Nat) (a x : Nat) :
    set_word mem a (x &&& 0xFFFF) a = (x &&& 0xFFFF) % 256 ∧
    set_word mem a (x &&& 0xFFFF) (a + 1) = (x &&& 0xFFFF) / 256 ∧
    (x &&& 0xFFFF) < 65536 := by
  have hw := and_FFFF_lt x
  unfold set_word
  have h1 : ¬ a = a + 1 := by omega
  simp only [h1, if_false, if_true]
  rw [and_FF, shr_eq_div, and_FF]
  refine ⟨rfl, ?_, hw⟩
  norm_num
  omega

/-! ### mkfilename -/

theorem store_bytes_nil (m : Nat → Nat) (a : Nat) : store_bytes m a [] = m := by
  funext x
  unfold store_bytes
  rw [if_neg]
  simp

theorem store_bytes_single (m : Nat → Nat) (a v : Nat) : set_byte m a v = store_bytes m a [v] := by
  funext x
  unfold set_byte store_bytes
  by_cases h : x = a
  · subst h
    simp
  · rw [if_neg h, if_neg]
    simp only [List.length_singleton]
    omega

theorem store_bytes_append (m : Nat → Nat) (a : Nat) (xs ys : List Nat) :
    store_bytes (store_bytes m a xs) (a + xs.length) ys = store_bytes m a (xs ++ ys) := by
  funext x
  unfold store_bytes
  simp only [List.length_append]
  by_cases h1 : a + xs.length ≤ x ∧ x < a + xs.length + ys.length
  · rw [if_pos h1, if_pos (by omega)]
    rw [List.getD_append_right _ _ _ _ (by omega)]
    congr 1
    omega
  · rw [if_neg h1]
    by_cases h2 : a ≤ x ∧ x < a + xs.length
    · rw [if_pos h2, if_pos (by omega), List.getD_append _ _ _ _ (by omega)]
    · rw [if_neg h2, if_neg (by omega)]

theorem trimmed_length (mem : Nat → Nat) (field len : Nat) : (trimmed mem field len).length ≤ len := by
  unfold trimmed
  have h := (List.takeWhile_prefix (fun b => b != 0x20) (l := mem_bytes mem field len)).length_le
  have h2 : (mem_bytes mem field len).length = len := by simp [mem_bytes]
  omega

theorem trimmed_succ (mem : Nat → Nat) (field n : Nat) :
    trimmed mem field (n + 1) =
      if mem field ≠ 0x20 then mem field :: trimmed mem (field + 1) n else [] := by
  unfold trimmed
  rw [mem_bytes_succ, List.takeWhile_cons]
  by_cases h : mem field = 0x20
  · simp [h]
  · simp [h]

/-- A copy loop writes the trimmed field at `c` and leaves `c` behind it. -/
theorem copy_field_spec (mem : Nat → Nat) (field : Nat) (n : Nat) :
    ∀ (i c : Nat) (fname : Nat → Nat),
      copy_field mem field n i c fname =
        (c + (trimmed mem (field + i) n).length,
          store_bytes fname c (trimmed mem (field + i) n)) := by
  induction n with
  | zero =>
      intro i c fname
      have : trimmed mem (field + i) 0 = [] := rfl
      rw [this, store_bytes_nil]
      rfl
  | succ n ih =>
      intro i c fname
      rw [copy_field, trimmed_succ]
      by_cases h : mem (field + i) = 0x20
      · simp only [h, ne_eq, not_true_eq_false, if_false, List.length_nil, Nat.add_zero,
          store_bytes_nil]
      · simp only [ne_eq, h, not_false_eq_true, if_true, List.length_cons]
        rw [ih (i + 1) (c + 1), store_bytes_single]
        have e : field + (i + 1) = field + i + 1 := by omega
        rw [e]
        have e2 := store_bytes_append fname c [mem (field + i)] (trimmed mem (field + i + 1) n)
        simp only [List.length_singleton, List.singleton_append] at e2
        rw [e2]
        congr 1
        omega

/-- The loops of `mkfilename`, summed up: the buffer receives the name in the
words of the specification, and the NUL goes to its last index. -/
theorem mkfilename_buf_eq (fname mem : Nat → Nat) (fcb : Nat) :
    mkfilename_buf fname mem fcb =
      ((file_name_spec mem fcb).length - 1, store_bytes fname 0 (file_name_spec mem fcb)) := by
  have hn := copy_field_spec mem (fcb + FCB_NAME) 8 0 0 fname
  have c1 : fcb + FCB_NAME + 0 = fcb + 1 := rfl
  have c9 : fcb + FCB_EXT = fcb + 9 := rfl
  rw [c1, Nat.zero_add] at hn
  unfold mkfilename_buf
  simp only
  rw [hn, c9]
  unfold file_name_spec
  by_cases h : mem (fcb + 9) = 0x20
  · simp only [h, ne_eq, not_true_eq_false, if_false, List.append_nil]
    rw [store_bytes_single]
    have e := store_bytes_append fname 0 (trimmed mem (fcb + 1) 8) [0]
    rw [Nat.zero_add] at e
    rw [e]
    simp
  · simp only [ne_eq, h, not_false_eq_true, if_true]
    have he := copy_field_spec mem (fcb + 9) 3 0 ((trimmed mem (fcb + 1) 8).length + 1)
      (set_byte (store_bytes fname 0 (trimmed mem (fcb + 1) 8)) (trimmed mem (fcb + 1) 8).length 0x2E)
    rw [Nat.add_zero] at he
    rw [he]
    simp only
    rw [store_bytes_single, store_bytes_single]
    have e1 := store_bytes_append fname 0 (trimmed mem (fcb + 1) 8) [0x2E]
    rw [Nat.zero_add] at e1
    rw [e1]
    have e2 := store_bytes_append fname 0 (trimmed mem (fcb + 1) 8 ++ [0x2E])
      (trimmed mem (fcb + 9) 3)
    simp only [Nat.zero_add, List.length_append, List.length_singleton] at e2
    rw [e2]
    have e3 := store_bytes_append fname 0
      (trimmed mem (fcb + 1) 8 ++ [0x2E] ++ trimmed mem (fcb + 9) 3) [0]
    simp only [Nat.zero_add, List.length_append, List.length_singleton] at e3
    rw [e3]
    simp [List.append_assoc]
    omega

theorem mkfilename_eq_spec (mem : Nat → Nat) (fcb : Nat) :
    mkfilename mem fcb = file_name_spec mem fcb := by
  unfold mkfilename file_name_spec trimmed
  have c1 : fcb + FCB_NAME = fcb + 1 := rfl
  have c9 : fcb + FCB_EXT = fcb + 9 := rfl
  have e0 : (mem_bytes mem (fcb + 9) 3).getD 0 0 = mem (fcb + 9) := by
    rw [mem_bytes_succ]
    rfl
  simp only [c1, c9, e0]
  by_cases h : mem (fcb + 9) = 0x20
  · simp [h]
  · simp [h]

theorem file_name_spec_length (mem : Nat → Nat) (fcb : Nat) :
    1 ≤ (file_name_spec mem fcb).length ∧ (file_name_spec mem fcb).length ≤ 13 := by
  have h1 := trimmed_length mem (fcb + 1) 8
  have h2 := trimmed_length mem (fcb + 9) 3
  unfold file_name_spec
  split_ifs <;> simp only [List.length_append, List.length_cons, List.length_nil] <;> omega

/-! ### Slots of the handle table -/

/-- The free-slot loop ends at the first empty slot, or at the bound when
there is none. -/
theorem first_free_from_spec (fcbs : Nat → Option Nat) (n : Nat) : ∀ (i : Nat),
    i ≤ first_free_from fcbs i n ∧ first_free_from fcbs i n ≤ i + n ∧
    (first_free_from fcbs i n < i + n → fcbs (first_free_from fcbs i n) = none) ∧
    (∀ j, i ≤ j → j < first_free_from fcbs i n → fcbs j ≠ none) := by
  induction n with
  | zero =>
      intro i
      unfold first_free_from
      exact ⟨le_refl _, le_refl _, fun h => by omega, fun j h1 h2 => by omega⟩
  | succ n ih =>
      intro i
      unfold first_free_from
      by_cases h : fcbs i = none
      · rw [if_pos h]
        exact ⟨le_refl _, by omega, fun _ => h, fun j h1 h2 => by omega⟩
      · rw [if_neg h]
        obtain ⟨a, b, c, d⟩ := ih (i + 1)
        refine ⟨by omega, by omega, fun hlt => c (by omega), ?_⟩
        intro j h1 h2
        by_cases hj : j = i
        · subst hj; exact h
        · exact d j (by omega) h2

/-- `find_fcb` returns a slot below the bound that holds the pointer. -/
theorem find_fcb_from_spec (fcbs : Nat → Option Nat) (fcb : Nat) (n : Nat) : ∀ (i k : Nat),
    find_fcb_from fcbs fcb i n = some k → i ≤ k ∧ k < i + n ∧ fcbs k = some fcb := by
  induction n with
  | zero => intro i k h; simp [find_fcb_from] at h
  | succ n ih =>
      intro i k h
      unfold find_fcb_from at h
      by_cases hc : fcbs i = some fcb
      · rw [if_pos hc] at h
        simp only [Option.some.injEq] at h
        subst h
        exact ⟨le_refl _, by omega, hc⟩
      · rw [if_neg hc] at h
        obtain ⟨a, b, c⟩ := ih (i + 1) k h
        exact ⟨by omega, by omega, c⟩

/-- The slot `open_file` uses lies in the table when the table has an empty
slot, and for create also when the FCB pointer is already in it; with all 16
slots taken and the pointer in none of them it is index 16. -/
theorem open_slot_bound (sys : system__s) (fcb : Nat) (create : Bool) :
    ((∃ i, i < 16 ∧ sys.fcbs i = none) → open_slot sys fcb create < 16) ∧
    (create = true → find_fcb sys fcb ≠ none → open_slot sys fcb create < 16) ∧
    ((∀ i, i < 16 → sys.fcbs i ≠ none) → find_fcb sys fcb = none →
      open_slot sys fcb create = 16) := by
  obtain ⟨f1, f2, f3, f4⟩ := first_free_from_spec sys.fcbs 16 0
  have hfree : (∃ i, i < 16 ∧ sys.fcbs i = none) → first_free sys < 16 := by
    rintro ⟨i, hi, hn⟩
    unfold first_free
    by_contra hge
    exact f4 i (by omega) (by omega) hn
  have hfull : (∀ i, i < 16 → sys.fcbs i ≠ none) → first_free sys = 16 := by
    intro hall
    unfold first_free
    by_contra hne
    have hlt : first_free_from sys.fcbs 0 16 < 0 + 16 := by omega
    exact hall _ (by omega) (f3 hlt)
  unfold open_slot
  refine ⟨?_, ?_, ?_⟩
  · intro hex
    cases create with
    | false => exact hfree hex
    | true =>
        simp only [if_true]
        cases hf : find_fcb sys fcb with
        | none => exact hfree hex
        | some k =>
            have := find_fcb_from_spec sys.fcbs fcb 16 0 k hf
            simp only
            omega
  · intro hc hfound
    subst hc
    simp only [if_true]
    cases hf : find_fcb sys fcb with
    | none => exact absurd hf hfound
    | some k =>
        have := find_fcb_from_spec sys.fcbs fcb 16 0 k hf
        simp only
        omega
  · intro hall hnone
    cases create with
    | false => exact hfull hall
    | true =>
        simp only [if_true, hnone]
        exact hfull hall

/-! ### The service layer returns -/

/-- The scan of service 09h returns when a `'$'` lies within reach of the
fuel. -/
theorem write_string_returns (k : Nat) : ∀ (fuel : Nat) (s : system__s) (a : Nat),
    s.mem (a + k) = 0x24 → k + 1 ≤ fuel → ∃ s', dos_write_string fuel s a = some s' := by
  induction k with
  | zero =>
      intro fuel s a h0 hf
      obtain ⟨n, rfl⟩ : ∃ n, fuel = n + 1 := ⟨fuel - 1, by omega⟩
      unfold dos_write_string
      rw [if_pos (by simpa using h0)]
      exact ⟨s, rfl⟩
  | succ k ih =>
      intro fuel s a hk hf
      obtain ⟨n, rfl⟩ : ∃ n, fuel = n + 1 := ⟨fuel - 1, by omega⟩
      unfold dos_write_string
      by_cases h0 : s.mem a = 0x24
      · rw [if_pos h0]
        exact ⟨s, rfl⟩
      · rw [if_neg h0]
        apply ih n _ (a + 1) _ (by omega)
        rw [prompt_mem]
        show s.mem (a + 1 + k) = 0x24
        rw [← hk]
        congr 1
        omega

/-- Every service returns when its accesses are defined and the fuel covers
the scan of service 09h and the drain of service 0Ch. -/
theorem dos_int21_returns (fuel : Nat) (s : system__s) (k : Nat)
    (hdef : service_defined s k) (hfuel : k + pending s.host.stdin + 2 ≤ fuel) :
    ∃ s', dos_int21 fuel s = some s' := by
  obtain ⟨n, rfl⟩ : ∃ n, fuel = n + 1 := ⟨fuel - 1, by omega⟩
  obtain ⟨h9, hfp⟩ := hdef
  by_cases c9 : AH s.regs = 0x09
  · rw [dos_int21_write_string n s c9]
    exact write_string_returns k n s _ (h9 c9).2 (by omega)
  by_cases cC : AH s.regs = 0x0C
  · rw [dos_int21_flush n s cC]
    obtain ⟨h, hd⟩ := drain_stdin_returns n s.host (by omega)
    rw [hd]
    simp only
    by_cases hre : reentry (AL s.regs)
    · rw [if_pos hre, al_twice _ (AL_lt s.regs)]
      obtain ⟨m, rfl⟩ : ∃ m, n = m + 1 := ⟨n - 1, by omega⟩
      have hah2 : AH (with_eax (flushed s h) (AL s.regs * 256 + AL s.regs)).regs = AL s.regs := by
        show ((AL s.regs * 256 + AL s.regs) >>> 8) &&& 0xFF = AL s.regs
        have hal := AL_lt s.regs
        rw [shr_eq_div, and_FF]
        have e1 : (AL s.regs * 256 + AL s.regs) / 2 ^ 8 = AL s.regs := by
          norm_num
          omega
        rw [e1]
        exact Nat.mod_eq_of_lt hal
      obtain ⟨e, r, hr⟩ := dos_int21_reentered m
        (with_eax (flushed s h) (AL s.regs * 256 + AL s.regs)) (by rw [hah2]; exact hre)
      exact ⟨r, by rw [e, hr]⟩
    · rw [if_neg hre]
      exact ⟨_, rfl⟩
  by_cases c10 : AH s.regs = 0x10
  · have hf := hfp (Or.inl c10)
    unfold AH at c10
    unfold ds_dx DX at hf
    simp only [dos_int21, c10]
    cases hfind : find_fcb s (seg_off_to_linear s.regs.ds (s.regs.edx &&& 0xFFFF)) with
    | none => exact ⟨_, rfl⟩
    | some handle =>
        simp only
        cases hp : s.fp handle with
        | none => exact absurd hp (hf handle hfind)
        | some f => exact ⟨_, rfl⟩
  by_cases c14 : AH s.regs = 0x14
  · have hf := hfp (Or.inr c14)
    cases hfind : find_fcb s (ds_dx s) with
    | none =>
        rw [dos_int21_seq_none n s c14 hfind]
        exact ⟨_, rfl⟩
    | some handle =>
        cases hp : s.fp handle with
        | none => exact absurd hp (hf handle hfind)
        | some f =>
            rw [dos_int21_seq_read n s c14 handle f hfind hp]
            split_ifs <;> exact ⟨_, rfl⟩
  unfold AH at c9 cC c10 c14
  unfold dos_int21
  simp only
  generalize (s.regs.eax >>> 8) &&& 0xFF = func at c9 cC c10 c14 ⊢
  split
  · split_ifs <;> exact ⟨_, rfl⟩
  · exact ⟨_, rfl⟩
  · split_ifs <;> exact ⟨_, rfl⟩
  · exact absurd rfl c9
  · exact absurd rfl cC
  · exact ⟨_, rfl⟩
  · exact absurd rfl c10
  · exact absurd rfl c14
  · exact ⟨_, rfl⟩
  · exact ⟨_, rfl⟩
  · exact ⟨_, rfl⟩
  · exact ⟨_, rfl⟩
  · exact ⟨_, rfl⟩
  · exact ⟨_, rfl⟩
  · exact ⟨_, rfl⟩
  · exact ⟨_, rfl⟩
/-! ## Properties of the interpreter -/

/-- C1: with opcode `3C` (`CMP AL, imm8`) at `CS:IP`, one step sets ZF iff
`AL = imm8` and CF iff `AL < imm8` (unsigned), keeps every flag bit other than
bits 0, 6 and 7, changes no general-purpose register, no segment register and
no memory byte, and advances the instruction pointer by 2. -/
theorem cmp_al_imm8_step (fuel : Nat) (sys : system__s) (hok : state_ok sys)
    (hop : opcode_at sys = 0x3C) :
    ∃ sys', execute_instruction fuel sys = some (true, sys') ∧
      (ZF sys'.regs ↔ AL sys.regs = operand8 sys) ∧
      (CF sys'.regs ↔ AL sys.regs < operand8 sys) ∧
      (∀ i, i ≠ 0 → i ≠ 6 → i ≠ 7 →
        sys'.regs.eflags.testBit i = sys.regs.eflags.testBit i) ∧
      same_gprs sys.regs sys'.regs ∧ same_segs sys.regs sys'.regs ∧
      sys'.mem = sys.mem ∧
      sys'.regs.eip = (sys.regs.eip + 2) % 4294967296 ∧
      IP sys'.regs = (IP sys.regs + 2) % 65536 := by
  have he := eflags_lt sys hok
  have hal := AL_lt sys.regs
  have himm := operand8_lt sys hok
  have hip := eip_lt sys hok
  refine ⟨_, exec_cmp fuel sys hop, ?_, ?_, ?_, ?_, ?_, rfl, rfl, ?_⟩
  · rw [ZF_iff]
    simp [cmp_flags_testBit _ _ _ 6 he hal himm]
  · rw [CF_iff]
    simp [cmp_flags_testBit _ _ _ 0 he hal himm]
  · intro i h0 h6 h7
    simp only [cmp_flags_testBit _ _ _ i he hal himm, h0, h6, h7, if_false]
  · simp [same_gprs]
  · simp [same_segs]
  · simp only [IP, and_FFFF]
    omega

/-- C1 at a concrete state: `CMP AL, 05h` at `2000:0100`. -/
theorem cmp_al_imm8_step_witness :
    state_ok (sample_sys [0x3C, 0x05]) ∧ opcode_at (sample_sys [0x3C, 0x05]) = 0x3C ∧
    ∃ sys', execute_instruction 0 (sample_sys [0x3C, 0x05]) = some (true, sys') ∧
      (ZF sys'.regs ↔ AL (sample_sys [0x3C, 0x05]).regs = operand8 (sample_sys [0x3C, 0x05])) ∧
      (CF sys'.regs ↔ AL (sample_sys [0x3C, 0x05]).regs < operand8 (sample_sys [0x3C, 0x05])) ∧
      (∀ i, i ≠ 0 → i ≠ 6 → i ≠ 7 →
        sys'.regs.eflags.testBit i = (sample_sys [0x3C, 0x05]).regs.eflags.testBit i) ∧
      same_gprs (sample_sys [0x3C, 0x05]).regs sys'.regs ∧
      same_segs (sample_sys [0x3C, 0x05]).regs sys'.regs ∧
      sys'.mem = (sample_sys [0x3C, 0x05]).mem ∧
      sys'.regs.eip = ((sample_sys [0x3C, 0x05]).regs.eip + 2) % 4294967296 ∧
      IP sys'.regs = (IP (sample_sys [0x3C, 0x05]).regs + 2) % 65536 :=
  ⟨sample_sys_ok _ (by decide), by decide,
    cmp_al_imm8_step 0 (sample_sys [0x3C, 0x05]) (sample_sys_ok _ (by decide)) (by decide)⟩

/-- C2: with `IP <= 0xFFFD` and displacement byte `d` at `CS:IP+1`, `JZ` (74)
moves `IP` to `(IP + 2 + signext8 d) mod 2^16` when ZF is set and to `IP + 2`
otherwise, `JNZ` (75) does so when ZF is clear, `JMP` (EB) always; nothing but
the instruction pointer changes. -/
theorem jump_rel8_step (fuel : Nat) (sys : system__s) (hok : state_ok sys)
    (hip : IP sys.regs ≤ 0xFFFD) :
    (opcode_at sys = 0x74 →
      ∃ sys', execute_instruction fuel sys = some (true, sys') ∧
        (IP sys'.regs : Int) =
          (if ZF sys.regs then
            ((IP sys.regs : Int) + 2 +
              signext8 (sys.mem (seg_off_to_linear sys.regs.cs (IP sys.regs + 1)))) % 65536
          else (IP sys.regs : Int) + 2) ∧
        sys' = { sys with regs := { sys.regs with eip := sys'.regs.eip } }) ∧
    (opcode_at sys = 0x75 →
      ∃ sys', execute_instruction fuel sys = some (true, sys') ∧
        (IP sys'.regs : Int) =
          (if ¬ ZF sys.regs then
            ((IP sys.regs : Int) + 2 +
              signext8 (sys.mem (seg_off_to_linear sys.regs.cs (IP sys.regs + 1)))) % 65536
          else (IP sys.regs : Int) + 2) ∧
        sys' = { sys with regs := { sys.regs with eip := sys'.regs.eip } }) ∧
    (opcode_at sys = 0xEB →
      ∃ sys', execute_instruction fuel sys = some (true, sys') ∧
        (IP sys'.regs : Int) =
          ((IP sys.regs : Int) + 2 +
            signext8 (sys.mem (seg_off_to_linear sys.regs.cs (IP sys.regs + 1)))) % 65536 ∧
        sys' = { sys with regs := { sys.regs with eip := sys'.regs.eip } }) := by
  have hd := operand8_lt sys hok
  have he := eip_lt sys hok
  rw [disp_eq_operand8 sys]
  unfold IP at hip
  rw [and_FFFF] at hip
  refine ⟨fun hop => ⟨_, exec_jz fuel sys hop, ?_, rfl⟩,
    fun hop => ⟨_, exec_jnz fuel sys hop, ?_, rfl⟩,
    fun hop => ⟨_, exec_jmp fuel sys hop, ?_, rfl⟩⟩
  · simp only [IP, ZF, and_FFFF, int8_to_u32, signext8]
    split_ifs <;> omega
  · simp only [IP, ZF, and_FFFF, int8_to_u32, signext8, ne_eq, not_not]
    split_ifs <;> omega
  · simp only [IP, and_FFFF, int8_to_u32, signext8]
    split_ifs <;> omega

/-- C2 at a concrete state: `JMP $` (`EB FE`) at `2000:0100`. -/
theorem jump_rel8_step_witness :
    state_ok (sample_sys [0xEB, 0xFE]) ∧ IP (sample_sys [0xEB, 0xFE]).regs ≤ 0xFFFD ∧
    opcode_at (sample_sys [0xEB, 0xFE]) = 0xEB ∧
    ∃ sys', execute_instruction 0 (sample_sys [0xEB, 0xFE]) = some (true, sys') ∧
      (IP sys'.regs : Int) =
        ((IP (sample_sys [0xEB, 0xFE]).regs : Int) + 2 +
          signext8 ((sample_sys [0xEB, 0xFE]).mem
            (seg_off_to_linear (sample_sys [0xEB, 0xFE]).regs.cs
              (IP (sample_sys [0xEB, 0xFE]).regs + 1)))) % 65536 ∧
      sys' = { sample_sys [0xEB, 0xFE] with
        regs := { (sample_sys [0xEB, 0xFE]).regs with eip := sys'.regs.eip } } :=
  ⟨sample_sys_ok _ (by decide), by decide, by decide,
    (jump_rel8_step 0 (sample_sys [0xEB, 0xFE]) (sample_sys_ok _ (by decide)) (by decide)).2.2
      (by decide)⟩

/-- C3: a step that writes an 8-bit register - `MOV r8, imm8` (B0..B7) or
`MOV r/m8, r8` (88 with mod = 3) - stores the immediate, or the prior value of
the source byte register, in the destination byte register of the encoding
`AL=0 .. BH=7`, leaves the other seven byte registers, the upper halves of
`eax..edx`, every other register, the flags and memory unchanged, and advances
the instruction pointer by 2. -/
theorem mov_r8_step (fuel : Nat) (sys : system__s) (hok : state_ok sys) :
    (∀ k, k < 8 → opcode_at sys = 0xB0 + k →
      ∃ sys', execute_instruction fuel sys = some (true, sys') ∧
        reg8 sys'.regs k = operand8 sys ∧
        (∀ j, j < 8 → j ≠ k → reg8 sys'.regs j = reg8 sys.regs j) ∧
        sys'.regs.eax >>> 16 = sys.regs.eax >>> 16 ∧
        sys'.regs.ebx >>> 16 = sys.regs.ebx >>> 16 ∧
        sys'.regs.ecx >>> 16 = sys.regs.ecx >>> 16 ∧
        sys'.regs.edx >>> 16 = sys.regs.edx >>> 16 ∧
        sys' = { sys with regs := { sys.regs with
          eax := sys'.regs.eax, ebx := sys'.regs.ebx, ecx := sys'.regs.ecx,
          edx := sys'.regs.edx, eip := (sys.regs.eip + 2) % 4294967296 } }) ∧
    (opcode_at sys = 0x88 → (operand8 sys >>> 6) &&& 3 = 3 →
      ∃ sys', execute_instruction fuel sys = some (true, sys') ∧
        reg8 sys'.regs (operand8 sys &&& 7) = reg8 sys.regs ((operand8 sys >>> 3) &&& 7) ∧
        (∀ j, j < 8 → j ≠ operand8 sys &&& 7 → reg8 sys'.regs j = reg8 sys.regs j) ∧
        sys'.regs.eax >>> 16 = sys.regs.eax >>> 16 ∧
        sys'.regs.ebx >>> 16 = sys.regs.ebx >>> 16 ∧
        sys'.regs.ecx >>> 16 = sys.regs.ecx >>> 16 ∧
        sys'.regs.edx >>> 16 = sys.regs.edx >>> 16 ∧
        sys' = { sys with regs := { sys.regs with
          eax := sys'.regs.eax, ebx := sys'.regs.ebx, ecx := sys'.regs.ecx,
          edx := sys'.regs.edx, eip := (sys.regs.eip + 2) % 4294967296 } }) := by
  constructor
  · intro k hk hop
    obtain ⟨h1, h2, h3, h4, h5, h6, h7⟩ :=
      set_reg8_spec sys.regs hok.1 k (operand8 sys) hk (operand8_lt sys hok)
    refine ⟨_, exec_mov_r8_imm fuel sys k hk hop, h1, h2, h3, h4, h5, h6, ?_⟩
    simp only
    conv_lhs => rw [h7]
  · intro hop hmod
    obtain ⟨h1, h2, h3, h4, h5, h6, h7⟩ :=
      set_reg8_spec sys.regs hok.1 (operand8 sys &&& 7)
        (reg8 sys.regs ((operand8 sys >>> 3) &&& 7)) (and_7_lt _) (reg8_lt _ _)
    refine ⟨_, exec_mov_rm8_r8 fuel sys hop hmod, h1, h2, h3, h4, h5, h6, ?_⟩
    simp only
    conv_lhs => rw [h7]

/-- C3 at a concrete state: `MOV AH, 02h` (`B4 02`) at `2000:0100`. -/
theorem mov_r8_step_witness :
    state_ok (sample_sys [0xB4, 0x02]) ∧ opcode_at (sample_sys [0xB4, 0x02]) = 0xB0 + 4 ∧
    ∃ sys', execute_instruction 0 (sample_sys [0xB4, 0x02]) = some (true, sys') ∧
      reg8 sys'.regs 4 = operand8 (sample_sys [0xB4, 0x02]) ∧
      (∀ j, j < 8 → j ≠ 4 → reg8 sys'.regs j = reg8 (sample_sys [0xB4, 0x02]).regs j) ∧
      sys'.regs.eax >>> 16 = (sample_sys [0xB4, 0x02]).regs.eax >>> 16 ∧
      sys'.regs.ebx >>> 16 = (sample_sys [0xB4, 0x02]).regs.ebx >>> 16 ∧
      sys'.regs.ecx >>> 16 = (sample_sys [0xB4, 0x02]).regs.ecx >>> 16 ∧
      sys'.regs.edx >>> 16 = (sample_sys [0xB4, 0x02]).regs.edx >>> 16 ∧
      sys' = { sample_sys [0xB4, 0x02] with regs := { (sample_sys [0xB4, 0x02]).regs with
        eax := sys'.regs.eax, ebx := sys'.regs.ebx, ecx := sys'.regs.ecx,
        edx := sys'.regs.edx, eip := ((sample_sys [0xB4, 0x02]).regs.eip + 2) % 4294967296 } } :=
  ⟨sample_sys_ok _ (by decide), by decide,
    (mov_r8_step 0 (sample_sys [0xB4, 0x02]) (sample_sys_ok _ (by decide))).1 4 (by decide)
      (by decide)⟩

/-- C4: the linearizer does not truncate to 20 bits. At `FFFF:0010` it returns
`0x100000`, which is outside the guest array and differs from the truncated
value `0`; the five-instruction program `far_return_program` brings the
interpreter to fetch from that address. -/
theorem seg_off_to_linear_not_truncated :
    seg_off_to_linear 0xFFFF 0x0010 = 0x100000 ∧
    ¬ in_mem (seg_off_to_linear 0xFFFF 0x0010) ∧
    seg_off_to_linear 0xFFFF 0x0010 ≠ (0xFFFF * 16 + 0x0010) % 2 ^ 20 ∧
    (exec_n 0 5 (sample_sys far_return_program)).map ip_addr = some 0x100000 := by
  refine ⟨by decide, by decide, by decide, by rfl⟩

/-- C5 as stated fails: after `PUSH AX; POP BX` (`50 5B`) with `AX = 1234h`,
`BX` is still 0 and `SP` is `FFFCh`, not its initial `FFFEh`. -/
theorem push_pop_bx_counterexample :
    AX push_pop_bx_input.regs = 0x1234 ∧
    opcode_at push_pop_bx_input = 0x50 ∧ operand8 push_pop_bx_input = 0x5B ∧
    SP push_pop_bx_input.regs = 0xFFFE ∧
    (exec_n 0 2 push_pop_bx_input).map (fun s => (BX s.regs, SP s.regs)) = some (0, 0xFFFC) := by
  refine ⟨by decide, by decide, by decide, by decide, by rfl⟩

/-- C5, amended: with `AX = v`, `PUSH AX` at `CS:IP` and the pushed word not
falling on the next code byte, the step is recognized; if the next code byte
is `58` (`POP AX`) the second step restores `AX = v` and `SP`; if it is `5B`
(`POP BX`, which has no case) the second step is reported unrecognized, `BX`
keeps its value and `SP` stays two below its initial value. -/
theorem push_pop_round_trip (fuel : Nat) (v : Nat) (sys : system__s) (hok : state_ok sys)
    (hv : AX sys.regs = v) (hpush : opcode_at sys = 0x50)
    (hfree : ∀ a, a = seg_off_to_linear sys.regs.ss ((SP sys.regs + 65534) % 65536) ∨
        a = seg_off_to_linear sys.regs.ss ((SP sys.regs + 65534) % 65536) + 1 →
      a ≠ seg_off_to_linear sys.regs.cs ((IP sys.regs + 1) % 65536)) :
    ∃ s1, execute_instruction fuel sys = some (true, s1) ∧
      (sys.mem (seg_off_to_linear sys.regs.cs ((IP sys.regs + 1) % 65536)) = 0x58 →
        ∃ s2, execute_instruction fuel s1 = some (true, s2) ∧
          AX s2.regs = v ∧ SP s2.regs = SP sys.regs) ∧
      (sys.mem (seg_off_to_linear sys.regs.cs ((IP sys.regs + 1) % 65536)) = 0x5B →
        ∃ s2, execute_instruction fuel s1 = some (false, s2) ∧
          BX s2.regs = BX sys.regs ∧ SP s2.regs = (SP sys.regs + 65534) % 65536) := by
  have hax : sys.regs.eax < 2 ^ 32 := hok.1.1
  obtain ⟨s1, h1, hr1, hm1⟩ := push_effect fuel sys hpush
  have hnext := opcode_after_push sys s1 hok hr1 hm1 hfree
  refine ⟨s1, h1, ?_, ?_⟩
  · intro hb
    have hpop : opcode_at s1 = 0x58 := by rw [hnext, hb]
    obtain ⟨s2, h2, hr2, -⟩ := pop_effect fuel s1 hpop
    refine ⟨s2, h2, ?_, ?_⟩
    · have hw := and_FFFF_lt sys.regs.eax
      have e : s1.regs.esp &&& 0xFFFF = s1.regs.esp := by
        rw [hr1]
        simp only [and_FFFF]
        omega
      rw [← hv]
      unfold AX
      rw [hr2]
      simp only
      rw [e, hm1, hr1]
      simp only
      rw [get_word_set_word _ _ _ hw]
      exact low_word_set_low _ _ hax hw
    · unfold SP
      rw [hr2]
      simp only
      rw [hr1]
      exact sp_push_pop sys.regs.esp
  · intro hb
    have hpop : opcode_at s1 = 0x5B := by rw [hnext, hb]
    obtain ⟨s2, h2, hs2⟩ := default_effect fuel s1 (by rw [hpop]; decide)
    refine ⟨s2, h2, ?_, ?_⟩
    · unfold BX
      rw [hs2]
      simp only
      rw [hr1]
    · unfold SP
      rw [hs2]
      simp only
      rw [hr1]
      exact sp_push sys.regs.esp

/-- C5, amended, at a concrete state: `PUSH AX; POP AX` (`50 58`) at `2000:0100`
with the stack at `2000:FFFE`. -/
theorem push_pop_round_trip_witness :
    ∃ s1, execute_instruction 0 (sample_sys [0x50, 0x58]) = some (true, s1) ∧
      ∃ s2, execute_instruction 0 s1 = some (true, s2) ∧
        AX s2.regs = 0 ∧ SP s2.regs = SP (sample_sys [0x50, 0x58]).regs := by
  obtain ⟨s1, h1, h58, -⟩ :=
    push_pop_round_trip 0 0 (sample_sys [0x50, 0x58]) (sample_sys_ok _ (by decide))
      (by decide) (by decide)
      (by
        intro a ha
        have e1 : seg_off_to_linear (sample_sys [0x50, 0x58]).regs.ss
            ((SP (sample_sys [0x50, 0x58]).regs + 65534) % 65536) = 0x2FFFC := by decide
        have e2 : seg_off_to_linear (sample_sys [0x50, 0x58]).regs.cs
            ((IP (sample_sys [0x50, 0x58]).regs + 1) % 65536) = 0x20101 := by decide
        rw [e1] at ha
        rw [e2]
        omega)
  exact ⟨s1, h1, h58 (by decide)⟩

/-- C6: whenever the step returns, it returns true exactly for the opcodes
`90, B0..BF, 88, 3C, 74, 75, EB, 50, 58, CD, CF, CB, C3`; on any other opcode
it returns false and only adds one to the instruction pointer, every other
register, the flags, guest memory and the run flag unchanged; on a listed
opcode other than `INT 21h` it always returns true; on `INT 21h` it returns
exactly when the DOS service it invokes returns, and that service returns,
with result true, whenever its accesses are defined in C (`service_defined`)
and the fuel covers the scan of service 09h and the drain of service 0Ch. -/
theorem recognized_step (fuel : Nat) (sys : system__s) :
    (∀ r sys', execute_instruction fuel sys = some (r, sys') →
      r = recognized (opcode_at sys)) ∧
    (recognized (opcode_at sys) = false →
      execute_instruction fuel sys = some (false,
        { sys with regs := { sys.regs with eip := (sys.regs.eip + 1) % 4294967296 } })) ∧
    (recognized (opcode_at sys) = true → ¬ (opcode_at sys = 0xCD ∧ operand8 sys = 0x21) →
      ∃ sys', execute_instruction fuel sys = some (true, sys')) ∧
    (opcode_at sys = 0xCD → operand8 sys = 0x21 →
      execute_instruction fuel sys = (dos_int21 fuel (int_entry sys)).map (fun s => (true, s))) ∧
    (opcode_at sys = 0xCD → operand8 sys = 0x21 →
      ∀ k, service_defined sys k → k + pending sys.host.stdin + 2 ≤ fuel →
        ∃ sys', execute_instruction fuel sys = some (true, sys')) := by
  refine ⟨?_, exec_default fuel sys, ?_, ?_, ?_⟩
  · intro r sys' h
    by_cases hop : opcode_at sys = 0xCD
    · rw [(exec_int_frame fuel sys r sys' h hop).1, hop]
      decide
    · obtain ⟨s2, h2⟩ := exec_returns fuel sys hop
      rw [h2] at h
      simp only [Option.some.injEq, Prod.mk.injEq] at h
      exact h.1.symm
  · intro hrec hnot
    by_cases hop : opcode_at sys = 0xCD
    · have h21 : ¬ operand8 sys = 0x21 := fun h => hnot ⟨hop, h⟩
      rw [exec_int fuel sys hop, if_neg h21]
      split_ifs
      · exact ⟨_, rfl⟩
      · exact ⟨_, rfl⟩
    · obtain ⟨s2, h2⟩ := exec_returns fuel sys hop
      rw [hrec] at h2
      exact ⟨s2, h2⟩
  · intro hop h21
    rw [exec_int fuel sys hop, if_pos h21]
    cases dos_int21 fuel (int_entry sys) <;> rfl
  · intro hop h21 k hdef hfuel
    rw [exec_int fuel sys hop, if_pos h21]
    have hdef2 : service_defined (int_entry sys) k := hdef
    have hfuel2 : k + pending (int_entry sys).host.stdin + 2 ≤ fuel := hfuel
    obtain ⟨s2, h2⟩ := dos_int21_returns fuel (int_entry sys) k hdef2 hfuel2
    rw [h2]
    exact ⟨s2, rfl⟩

/-- C6 at concrete states: `F4` (no case) is reported unrecognized and only
the instruction pointer moves, `NOP` is reported recognized, and `INT 21h`
with `AH = 09h` on the string `Hi$` is reported recognized. -/
theorem recognized_step_witness :
    execute_instruction 0 (sample_sys [0xF4]) = some (false,
      { sample_sys [0xF4] with regs := { (sample_sys [0xF4]).regs with
        eip := ((sample_sys [0xF4]).regs.eip + 1) % 4294967296 } }) ∧
    (∃ sys', execute_instruction 0 (sample_sys [0x90]) = some (true, sys')) ∧
    ∃ sys', execute_instruction 4 hi_input = some (true, sys') :=
  ⟨(recognized_step 0 (sample_sys [0xF4])).2.1 (by decide),
    (recognized_step 0 (sample_sys [0x90])).2.2.1 (by decide) (by decide),
    (recognized_step 4 hi_input).2.2.2.2 (by decide) (by decide) 2
      ⟨fun _ => ⟨by decide, by decide⟩, fun h => absurd h (by decide)⟩ (by decide)⟩

/-- C7 as stated fails: with stored `IP = FFFFh` and `SP = FFFEh`, both below
`2^16`, `NOP` leaves the stored instruction pointer at `10000h`, and `RET` at
`SP = FFFEh` leaves the stored stack pointer at `10000h`. -/
theorem ip_sp_wrap_counterexample :
    nop_wrap_input.regs.eip < 2 ^ 16 ∧ nop_wrap_input.regs.esp < 2 ^ 16 ∧
    opcode_at nop_wrap_input = 0x90 ∧
    (execute_instruction 0 nop_wrap_input).map (fun p => p.2.regs.eip) = some 0x10000 ∧
    (sample_sys [0xC3]).regs.eip < 2 ^ 16 ∧ (sample_sys [0xC3]).regs.esp < 2 ^ 16 ∧
    opcode_at (sample_sys [0xC3]) = 0xC3 ∧
    (execute_instruction 0 (sample_sys [0xC3])).map (fun p => p.2.regs.esp) = some 0x10000 ∧
    ¬ (0x10000 < 2 ^ 16) := by
  refine ⟨by decide, by decide, by decide, by rfl, by decide, by decide, by decide, by rfl,
    by decide⟩

/-- C7, amended: from stored pointers below `2^16`, one step leaves the stored
instruction pointer below `2^16 + 3` and the stored stack pointer below
`2^16 + 6`; they are not re-masked, and it is their low 16 bits, which the
next fetch and stack access use, that wrap: `NOP` adds one to the stored
instruction pointer and `IP` becomes `(IP + 1) mod 2^16`, `RET` adds two to the
stored stack pointer and `SP` becomes `(SP + 2) mod 2^16`. -/
theorem ip_sp_wrap_step (fuel : Nat) (sys : system__s) (r : Bool) (sys' : system__s)
    (hip : sys.regs.eip < 2 ^ 16) (hsp : sys.regs.esp < 2 ^ 16)
    (h : execute_instruction fuel sys = some (r, sys')) :
    sys'.regs.eip < 2 ^ 16 + 3 ∧ sys'.regs.esp < 2 ^ 16 + 6 ∧
    (opcode_at sys = 0x90 →
      sys'.regs.eip = sys.regs.eip + 1 ∧ IP sys'.regs = (IP sys.regs + 1) % 65536) ∧
    (opcode_at sys = 0xC3 →
      sys'.regs.esp = sys.regs.esp + 2 ∧ SP sys'.regs = (SP sys.regs + 2) % 65536) := by
  norm_num at hip hsp ⊢
  have hb : sys'.regs.eip < 65539 ∧ sys'.regs.esp < 65542 := by
    by_cases hop : opcode_at sys = 0xCD
    · obtain ⟨-, a1, a2, -⟩ := exec_int_frame fuel sys r sys' h hop
      rw [a1, a2]
      constructor <;> omega
    · exact exec_non_int_bounds fuel sys r sys' hip hsp h hop
  refine ⟨hb.1, hb.2, ?_, ?_⟩
  · intro hop
    rw [exec_nop fuel sys hop] at h
    simp only [Option.some.injEq, Prod.mk.injEq] at h
    obtain ⟨-, hs⟩ := h
    have h2 := congrArg system__s.regs hs
    dsimp only at h2
    rw [← h2]
    dsimp only [IP]
    clear hs h2 hb
    simp only [and_FFFF]
    constructor <;> omega
  · intro hop
    rw [exec_ret fuel sys hop] at h
    simp only [Option.some.injEq, Prod.mk.injEq] at h
    obtain ⟨-, hs⟩ := h
    have h2 := congrArg system__s.regs hs
    dsimp only at h2
    rw [← h2]
    dsimp only [SP]
    clear hs h2 hb
    simp only [and_FFFF]
    constructor <;> omega

/-- C7, amended, at a concrete state: `NOP` at `IP = FFFFh` leaves the stored
instruction pointer at `10000h` and `IP` at 0. -/
theorem ip_sp_wrap_step_witness :
    ∃ r sys', execute_instruction 0 nop_wrap_input = some (r, sys') ∧
      sys'.regs.eip = 0x10000 ∧ IP sys'.regs = 0 := by
  obtain ⟨sys', h⟩ := exec_returns 0 nop_wrap_input (by decide)
  obtain ⟨-, -, hn, -⟩ := ip_sp_wrap_step 0 nop_wrap_input _ sys' (by decide) (by decide) h
  obtain ⟨e1, e2⟩ := hn (by decide)
  refine ⟨_, sys', h, ?_, ?_⟩
  · rw [e1]
    decide
  · rw [e2]
    decide

/-- C8: with `SP <= 0xFFFA`, `IRET` (CF) loads `IP`, `CS` and `FLAGS` from the
little-endian words at `linear(SS, SP)`, `linear(SS, SP+2)`, `linear(SS, SP+4)`
and adds 6 to `SP`; `RETF` (CB) loads `IP` and `CS` and adds 4; `RET` (C3)
loads `IP` and adds 2. Nothing else changes: memory, the other general-purpose
registers and `DS/ES/SS` are kept, and `RETF` and `RET` keep the flags. -/
theorem return_step (fuel : Nat) (sys : system__s) (hok : state_ok sys)
    (hsp : SP sys.regs ≤ 0xFFFA) :
    (opcode_at sys = 0xCF →
      ∃ sys', execute_instruction fuel sys = some (true, sys') ∧
        sys'.regs.eip = word_at sys.mem (seg_off_to_linear sys.regs.ss (SP sys.regs)) ∧
        IP sys'.regs = word_at sys.mem (seg_off_to_linear sys.regs.ss (SP sys.regs)) ∧
        sys'.regs.cs = word_at sys.mem (seg_off_to_linear sys.regs.ss ((SP sys.regs + 2) % 65536)) ∧
        sys'.regs.eflags = word_at sys.mem (seg_off_to_linear sys.regs.ss ((SP sys.regs + 4) % 65536)) ∧
        sys'.regs.esp = (sys.regs.esp + 6) % 4294967296 ∧
        SP sys'.regs = (SP sys.regs + 6) % 65536 ∧
        sys' = { sys with regs := { sys.regs with
          eip := sys'.regs.eip, cs := sys'.regs.cs, eflags := sys'.regs.eflags,
          esp := sys'.regs.esp } }) ∧
    (opcode_at sys = 0xCB →
      ∃ sys', execute_instruction fuel sys = some (true, sys') ∧
        sys'.regs.eip = word_at sys.mem (seg_off_to_linear sys.regs.ss (SP sys.regs)) ∧
        IP sys'.regs = word_at sys.mem (seg_off_to_linear sys.regs.ss (SP sys.regs)) ∧
        sys'.regs.cs = word_at sys.mem (seg_off_to_linear sys.regs.ss ((SP sys.regs + 2) % 65536)) ∧
        sys'.regs.esp = (sys.regs.esp + 4) % 4294967296 ∧
        SP sys'.regs = (SP sys.regs + 4) % 65536 ∧
        sys' = { sys with regs := { sys.regs with
          eip := sys'.regs.eip, cs := sys'.regs.cs, esp := sys'.regs.esp } }) ∧
    (opcode_at sys = 0xC3 →
      ∃ sys', execute_instruction fuel sys = some (true, sys') ∧
        sys'.regs.eip = word_at sys.mem (seg_off_to_linear sys.regs.ss (SP sys.regs)) ∧
        IP sys'.regs = word_at sys.mem (seg_off_to_linear sys.regs.ss (SP sys.regs)) ∧
        sys'.regs.esp = (sys.regs.esp + 2) % 4294967296 ∧
        SP sys'.regs = (SP sys.regs + 2) % 65536 ∧
        sys' = { sys with regs := { sys.regs with
          eip := sys'.regs.eip, esp := sys'.regs.esp } }) := by
  have hm := hok.2
  have e2 : (SP sys.regs + 2) % 65536 = SP sys.regs + 2 := by omega
  have e4 : (SP sys.regs + 4) % 65536 = SP sys.regs + 4 := by omega
  unfold SP at hsp e2 e4
  have w0 := get_word_word_at sys.mem hm sys.regs.ss (sys.regs.esp &&& 0xFFFF) 0
  have w2 := get_word_word_at sys.mem hm sys.regs.ss (sys.regs.esp &&& 0xFFFF) 2
  have w4 := get_word_word_at sys.mem hm sys.regs.ss (sys.regs.esp &&& 0xFFFF) 4
  have l0 := word_at_lt sys.mem hm (seg_off_to_linear sys.regs.ss (sys.regs.esp &&& 0xFFFF))
  simp only [Nat.add_zero] at w0
  have hip : word_at sys.mem (seg_off_to_linear sys.regs.ss (sys.regs.esp &&& 0xFFFF)) &&& 0xFFFF
      = word_at sys.mem (seg_off_to_linear sys.regs.ss (sys.regs.esp &&& 0xFFFF)) := by
    rw [and_FFFF]
    omega
  refine ⟨fun hop => ⟨_, exec_iret fuel sys hop, ?_, ?_, ?_, ?_, rfl, ?_, rfl⟩,
    fun hop => ⟨_, exec_retf fuel sys hop, ?_, ?_, ?_, rfl, ?_, rfl⟩,
    fun hop => ⟨_, exec_ret fuel sys hop, ?_, ?_, rfl, ?_, rfl⟩⟩
  · exact w0
  · simp only [IP, SP, w0, hip]
  · rw [SP, e2]
    exact w2
  · rw [SP, e4]
    exact w4
  · exact sp_add sys.regs.esp 6
  · exact w0
  · simp only [IP, SP, w0, hip]
  · rw [SP, e2]
    exact w2
  · exact sp_add sys.regs.esp 4
  · exact w0
  · simp only [IP, SP, w0, hip]
  · exact sp_add sys.regs.esp 2

/-- C8 at a concrete state: `RETF` (`CB`) at `2000:0100` with `SP = FFF0h`. -/
theorem return_step_witness :
    ∃ sys', execute_instruction 0 return_input = some (true, sys') ∧
      sys'.regs.eip = word_at return_input.mem
        (seg_off_to_linear return_input.regs.ss (SP return_input.regs)) ∧
      IP sys'.regs = word_at return_input.mem
        (seg_off_to_linear return_input.regs.ss (SP return_input.regs)) ∧
      sys'.regs.cs = word_at return_input.mem
        (seg_off_to_linear return_input.regs.ss ((SP return_input.regs + 2) % 65536)) ∧
      sys'.regs.esp = (return_input.regs.esp + 4) % 4294967296 ∧
      SP sys'.regs = (SP return_input.regs + 4) % 65536 ∧
      sys' = { return_input with regs := { return_input.regs with
        eip := sys'.regs.eip, cs := sys'.regs.cs, esp := sys'.regs.esp } } :=
  (return_step 0 return_input
    ⟨by decide, sample_mem_ok _ (by decide)⟩ (by decide)).2.1 (by decide)

/-- C9: a step never turns the run flag from false to true; a step that
returns turns it from true to false exactly when the instruction at `CS:IP` is
`INT 20h` or `INT 21h` with `AH = 4Ch`; and on those two instructions the step
does return (the service layer needs one unit of fuel). -/
theorem run_flag_step (fuel : Nat) (sys : system__s) :
    (∀ r sys', execute_instruction fuel sys = some (r, sys') →
      (sys.running = false → sys'.running = false) ∧
      (sys.running = true → (sys'.running = false ↔ is_exit sys))) ∧
    (is_exit sys →
      ∃ sys', execute_instruction (fuel + 1) sys = some (true, sys') ∧ sys'.running = false) := by
  constructor
  · intro r sys' h
    by_cases hop : opcode_at sys = 0xCD
    · obtain ⟨-, -, -, -, -, -, -, -, -, hrun⟩ := exec_int_frame fuel sys r sys' h hop
      rw [hrun]
      unfold is_exit
      by_cases hx : operand8 sys = 0x20 ∨ (operand8 sys = 0x21 ∧ AH sys.regs = 0x4C)
      · simp only [hx, if_true, hop, and_self, implies_true]
      · simp only [hx, if_false, and_false, iff_false]
        constructor
        · exact fun h0 => h0
        · intro h1 h0
          rw [h1] at h0
          cases h0
    · obtain ⟨hrun, -⟩ := exec_non_int_frame fuel sys r sys' h hop
      rw [hrun]
      unfold is_exit
      constructor
      · exact fun h0 => h0
      · intro h1
        rw [h1]
        simp only [hop, false_and, iff_false]
        exact fun h0 => Bool.noConfusion h0
  · rintro ⟨hop, hx⟩
    rw [exec_int (fuel + 1) sys hop]
    rcases hx with h20 | ⟨h21, h4c⟩
    · have n21 : ¬ (operand8 sys = 0x21) := by rw [h20]; decide
      rw [if_neg n21, if_pos h20]
      exact ⟨_, rfl, rfl⟩
    · rw [if_pos h21, dos_int21_exit fuel (int_entry sys) (by rw [int_entry_AH]; exact h4c)]
      exact ⟨_, rfl, rfl⟩

/-- C9 at a concrete state: `INT 20h` (`CD 20`) at `2000:0100` stops the emulator. -/
theorem run_flag_step_witness :
    is_exit (sample_sys [0xCD, 0x20]) ∧ (sample_sys [0xCD, 0x20]).running = true ∧
    ∃ sys', execute_instruction 1 (sample_sys [0xCD, 0x20]) = some (true, sys') ∧
      sys'.running = false :=
  ⟨⟨by decide, Or.inl (by decide)⟩, rfl,
    (run_flag_step 0 (sample_sys [0xCD, 0x20])).2 ⟨by decide, Or.inl (by decide)⟩⟩

/-- C10 as stated fails: `INT 21h` with `AH = 35h` is a recognized opcode other
than `IRET` and `RETF`, and the step changes `ES` from `2000h` to 0. -/
theorem segment_frame_counterexample :
    recognized (opcode_at get_vector_input) = true ∧
    opcode_at get_vector_input ≠ 0xCF ∧ opcode_at get_vector_input ≠ 0xCB ∧
    get_vector_input.regs.es = 0x2000 ∧
    (execute_instruction 1 get_vector_input).map (fun p => (p.1, p.2.regs.es)) =
      some (true, 0) := by
  refine ⟨by decide, by decide, by decide, by decide, by rfl⟩

/-- C10, amended: a step on any opcode other than `IRET` (CF) and `RETF` (CB)
leaves `CS`, `DS` and `SS` (and `FS`, `GS`) unchanged, and leaves `ES`
unchanged unless the instruction is `INT 21h` with `AH = 35h`, which sets `ES`
to 0; on every opcode but `INT` the step returns. -/
theorem segment_frame_step (fuel : Nat) (sys : system__s)
    (hcf : opcode_at sys ≠ 0xCF) (hcb : opcode_at sys ≠ 0xCB) :
    (∀ r sys', execute_instruction fuel sys = some (r, sys') →
      sys'.regs.cs = sys.regs.cs ∧ sys'.regs.ds = sys.regs.ds ∧ sys'.regs.ss = sys.regs.ss ∧
      sys'.regs.fs = sys.regs.fs ∧ sys'.regs.gs = sys.regs.gs ∧
      sys'.regs.es =
        (if opcode_at sys = 0xCD ∧ operand8 sys = 0x21 ∧ AH sys.regs = 0x35 then 0
         else sys.regs.es)) ∧
    (opcode_at sys ≠ 0xCD → ∃ r sys', execute_instruction fuel sys = some (r, sys')) := by
  constructor
  · intro r sys' h
    by_cases hop : opcode_at sys = 0xCD
    · obtain ⟨-, -, -, a3, a4, a5, a6, a7, a8, -⟩ := exec_int_frame fuel sys r sys' h hop
      refine ⟨a3, a4, a5, a6, a7, ?_⟩
      rw [a8]
      simp only [hop, true_and]
    · obtain ⟨-, b1, b2, b3, b4, b5, b6⟩ := exec_non_int_frame fuel sys r sys' h hop
      refine ⟨b6 hcf hcb, b1, b3, b4, b5, ?_⟩
      rw [b2]
      simp only [hop, false_and, if_false]
  · intro hop
    exact ⟨_, exec_returns fuel sys hop⟩

/-- C10, amended, at a concrete state: `MOV AH, 02h` leaves all segment
registers alone. -/
theorem segment_frame_step_witness :
    ∃ r sys', execute_instruction 0 (sample_sys [0xB4, 0x02]) = some (r, sys') ∧
      sys'.regs.cs = 0x2000 ∧ sys'.regs.ds = 0x2000 ∧ sys'.regs.ss = 0x2000 ∧
      sys'.regs.es = 0x2000 := by
  have hs := segment_frame_step 0 (sample_sys [0xB4, 0x02]) (by decide) (by decide)
  obtain ⟨r, sys', h⟩ := hs.2 (by decide)
  obtain ⟨a1, a2, a3, -, -, a6⟩ := hs.1 r sys' h
  refine ⟨r, sys', h, a1, a2, a3, ?_⟩
  rw [a6]
  decide

/-- C11. For every readable MZ image whose relocation entries `(off, seg)` name
pairwise non-overlapping words, `load_program` succeeds and afterwards, for
every entry, the 16-bit little-endian word at `0x20100 + seg * 16 + off` is the
word that the copy of the code bytes had put there plus `0x2010`, modulo
`2^16`; the copy had put file byte `exe_offset + j` at `0x20100 + j` for every
`j` below the number of bytes copied; and every such byte that lies in no
relocated word is still that file byte. -/
theorem relocation_patch (fname : List Nat) (locals : load_locals) (sys : system__s)
    (f : host_file) (hf : sys.host.files fname = some f) (hr : f.readable = true)
    (hmz : sees_mz locals f.data)
    (hp : (image_relocs locals f.data).Pairwise reloc_apart) :
    (load_program fname locals sys).1 = EXIT_SUCCESS ∧
    (∀ e ∈ image_relocs locals f.data,
      get_word (loaded fname locals sys).mem (0x20100 + e.2 * 16 + e.1) =
        (get_word (copied locals sys f.data) (0x20100 + e.2 * 16 + e.1) + 0x2010) % 65536) ∧
    (∀ j, j < (exe_code (exe_header locals f.data) f.data).length →
      copied locals sys f.data (0x20100 + j) =
        f.data.getD (exe_offset (exe_header locals f.data) + j) 0) ∧
    (∀ j, j < (exe_code (exe_header locals f.data) f.data).length →
      (∀ e ∈ image_relocs locals f.data,
        0x20100 + j ≠ 0x20100 + e.2 * 16 + e.1 ∧ 0x20100 + j ≠ 0x20100 + e.2 * 16 + e.1 + 1) →
      (loaded fname locals sys).mem (0x20100 + j) =
        f.data.getD (exe_offset (exe_header locals f.data) + j) 0) := by
  have h := load_program_exe fname locals sys f hf hr hmz
  have hmem : (loaded fname locals sys).mem =
      (image_relocs locals f.data).foldl patch_word (copied locals sys f.data) := by
    unfold loaded
    rw [h]
    exact apply_relocs_eq sys.host fname f hf _ _ 0 0 locals.off _
  have hcopy : ∀ j, j < (exe_code (exe_header locals f.data) f.data).length →
      copied locals sys f.data (0x20100 + j) =
        f.data.getD (exe_offset (exe_header locals f.data) + j) 0 := by
    intro j hj
    unfold copied
    rw [store_bytes_at _ _ _ j hj]
    exact exe_code_getD _ _ j hj
  refine ⟨by rw [h], ?_, hcopy, ?_⟩
  · intro e he
    rw [hmem]
    exact patch_fold_word _ _ hp e he
  · intro j hj hfar
    rw [hmem, patch_fold_other _ _ _ hfar]
    exact hcopy j hj

/-- C11 at a concrete image: one relocation entry `(off = 0002h, seg = 0000h)`
over the on-disk word `0010h` yields `2020h` at linear `0x20102`; the two
bytes `90 90` before it are the file bytes. -/
theorem relocation_patch_witness :
    image_relocs no_locals reloc_image = [(0x0002, 0x0000)] ∧
    get_word (copied no_locals (main_init false (file_host image_name reloc_image)) reloc_image)
      0x20102 = 0x0010 ∧
    get_word (loaded image_name no_locals
      (main_init false (file_host image_name reloc_image))).mem 0x20102 = 0x2020 ∧
    (loaded image_name no_locals
      (main_init false (file_host image_name reloc_image))).mem 0x20100 = 0x90 ∧
    ((load_program image_name no_locals
        (main_init false (file_host image_name reloc_image))).1 = EXIT_SUCCESS ∧
    (∀ e ∈ image_relocs no_locals reloc_image,
      get_word (loaded image_name no_locals
          (main_init false (file_host image_name reloc_image))).mem (0x20100 + e.2 * 16 + e.1) =
        (get_word (copied no_locals (main_init false (file_host image_name reloc_image))
          reloc_image) (0x20100 + e.2 * 16 + e.1) + 0x2010) % 65536) ∧
    (∀ j, j < (exe_code (exe_header no_locals reloc_image) reloc_image).length →
      copied no_locals (main_init false (file_host image_name reloc_image)) reloc_image
          (0x20100 + j) =
        reloc_image.getD (exe_offset (exe_header no_locals reloc_image) + j) 0) ∧
    (∀ j, j < (exe_code (exe_header no_locals reloc_image) reloc_image).length →
      (∀ e ∈ image_relocs no_locals reloc_image,
        0x20100 + j ≠ 0x20100 + e.2 * 16 + e.1 ∧ 0x20100 + j ≠ 0x20100 + e.2 * 16 + e.1 + 1) →
      (loaded image_name no_locals
          (main_init false (file_host image_name reloc_image))).mem (0x20100 + j) =
        reloc_image.getD (exe_offset (exe_header no_locals reloc_image) + j) 0)) :=
  ⟨by decide, by decide, by decide, by decide,
    relocation_patch image_name no_locals (main_init false (file_host image_name reloc_image))
      { data := reloc_image, readable := true, writable := true } rfl rfl (by decide)
      (by decide)⟩

/-- C12. After `load_program`, whatever it returns and so in particular after
every successful load of a COM or EXE image, the PSP at linear `0x20000` holds:
`CD 20` at offsets 00h and 01h, `CD 21 CB` at 50h to 52h, `CF` at 81h to 83h,
the word `1000h` at 2Ch, the byte `9A` at 05h followed by the far pointer
`2000:0050`, which linearizes to the `CD 21 CB` stub, and at 0Ah, 0Eh and 12h
the far pointers `2000:0081`, `2000:0082` and `2000:0083`, each of which
linearizes to a byte holding `CF`. -/
theorem psp_layout (fname : List Nat) (locals : load_locals) (sys : system__s) :
    psp_byte (loaded fname locals sys) 0x00 = 0xCD ∧
    psp_byte (loaded fname locals sys) 0x01 = 0x20 ∧
    psp_byte (loaded fname locals sys) 0x50 = 0xCD ∧
    psp_byte (loaded fname locals sys) 0x51 = 0x21 ∧
    psp_byte (loaded fname locals sys) 0x52 = 0xCB ∧
    psp_byte (loaded fname locals sys) 0x81 = 0xCF ∧
    psp_byte (loaded fname locals sys) 0x82 = 0xCF ∧
    psp_byte (loaded fname locals sys) 0x83 = 0xCF ∧
    psp_word (loaded fname locals sys) 0x2C = 0x1000 ∧
    psp_byte (loaded fname locals sys) 0x05 = 0x9A ∧
    psp_word (loaded fname locals sys) 0x06 = 0x0050 ∧
    psp_word (loaded fname locals sys) 0x08 = 0x2000 ∧
    (loaded fname locals sys).mem (seg_off_to_linear 0x2000 0x0050) = 0xCD ∧
    (loaded fname locals sys).mem (seg_off_to_linear 0x2000 0x0050 + 1) = 0x21 ∧
    (loaded fname locals sys).mem (seg_off_to_linear 0x2000 0x0050 + 2) = 0xCB ∧
    psp_word (loaded fname locals sys) 0x0A = 0x0081 ∧
    psp_word (loaded fname locals sys) 0x0C = 0x2000 ∧
    psp_word (loaded fname locals sys) 0x0E = 0x0082 ∧
    psp_word (loaded fname locals sys) 0x10 = 0x2000 ∧
    psp_word (loaded fname locals sys) 0x12 = 0x0083 ∧
    psp_word (loaded fname locals sys) 0x14 = 0x2000 ∧
    (loaded fname locals sys).mem (seg_off_to_linear 0x2000 0x0081) = 0xCF ∧
    (loaded fname locals sys).mem (seg_off_to_linear 0x2000 0x0082) = 0xCF ∧
    (loaded fname locals sys).mem (seg_off_to_linear 0x2000 0x0083) = 0xCF := by
  have hb : ∀ x, x < 0x20100 → (loaded fname locals sys).mem x = psp_init sys.mem x :=
    fun x hx => load_program_below fname locals sys x hx
  obtain ⟨h00, h01, h05, h06, h07, h08, h09, h0A, h0B, h0C, h0D, h0E, h0F, h10, h11, h12, h13,
    h14, h15, h2C, h2D, h50, h51, h52, h81, h82, h83⟩ := psp_init_bytes sys.mem
  have e0 : seg_off_to_linear 0x2000 0x0050 = 0x20050 := rfl
  have e1 : seg_off_to_linear 0x2000 0x0081 = 0x20081 := rfl
  have e2 : seg_off_to_linear 0x2000 0x0082 = 0x20082 := rfl
  have e3 : seg_off_to_linear 0x2000 0x0083 = 0x20083 := rfl
  rw [e0, e1, e2, e3]
  unfold psp_byte psp_word word_at
  simp only [Nat.reduceAdd]
  rw [hb 0x20000 (by norm_num), hb 0x20001 (by norm_num), hb 0x20050 (by norm_num),
    hb 0x20051 (by norm_num), hb 0x20052 (by norm_num), hb 0x20081 (by norm_num),
    hb 0x20082 (by norm_num), hb 0x20083 (by norm_num), hb 0x2002C (by norm_num),
    hb 0x2002D (by norm_num), hb 0x20005 (by norm_num), hb 0x20006 (by norm_num),
    hb 0x20007 (by norm_num), hb 0x20008 (by norm_num), hb 0x20009 (by norm_num),
    hb 0x2000A (by norm_num), hb 0x2000B (by norm_num), hb 0x2000C (by norm_num),
    hb 0x2000D (by norm_num), hb 0x2000E (by norm_num), hb 0x2000F (by norm_num),
    hb 0x20010 (by norm_num), hb 0x20011 (by norm_num), hb 0x20012 (by norm_num),
    hb 0x20013 (by norm_num), hb 0x20014 (by norm_num), hb 0x20015 (by norm_num)]
  rw [h00, h01, h05, h06, h07, h08, h09, h0A, h0B, h0C, h0D, h0E, h0F, h10, h11, h12, h13,
    h14, h15, h2C, h2D, h50, h51, h52, h81, h82, h83]
  simp

/-- C13. For every readable file on which the loader takes the COM branch (the
magic cells it reads are not `4D 5A`), of size `n`: `load_program` succeeds
exactly when `n ≤ 65280`; when it succeeds the guest byte at `0x20100 + i` is
file byte `i` for every `i < n`; and when `n > 65280` it returns failure and
guest memory is what the PSP set-up left, no file byte copied. -/
theorem com_size_limit (fname : List Nat) (locals : load_locals) (sys : system__s)
    (f : host_file) (hf : sys.host.files fname = some f) (hr : f.readable = true)
    (hcom : ¬ sees_mz locals f.data) :
    ((load_program fname locals sys).1 = EXIT_SUCCESS ↔ f.data.length ≤ 65280) ∧
    (f.data.length ≤ 65280 → ∀ i, i < f.data.length →
      (loaded fname locals sys).mem (0x20100 + i) = f.data.getD i 0) ∧
    (65280 < f.data.length →
      (load_program fname locals sys).1 = EXIT_FAILURE ∧
      (loaded fname locals sys).mem = psp_init sys.mem) := by
  by_cases hlen : f.data.length ≤ 65280
  · have h := load_program_com fname locals sys f hf hr hcom hlen
    refine ⟨?_, ?_, fun h2 => absurd hlen (by omega)⟩
    · rw [h]
      exact ⟨fun _ => hlen, fun _ => rfl⟩
    · intro _ i hi
      unfold loaded
      rw [h]
      exact store_bytes_at _ _ _ i hi
  · have h := load_program_com_large fname locals sys f hf hr hcom (by omega)
    refine ⟨?_, fun h2 => absurd h2 hlen, fun _ => ?_⟩
    · rw [h]
      exact ⟨fun h2 => absurd h2 (show ¬ (EXIT_FAILURE = EXIT_SUCCESS) by decide),
        fun h2 => absurd h2 hlen⟩
    · unfold loaded
      rw [h]
      exact ⟨rfl, rfl⟩

/-- C13 at a concrete file: the 11-byte echo image is loaded at `0x20100`. -/
theorem com_size_limit_witness :
    ((load_program image_name no_locals
        (main_init false (file_host image_name (echo_image 0x41)))).1 = EXIT_SUCCESS ↔
      (echo_image 0x41).length ≤ 65280) ∧
    ((echo_image 0x41).length ≤ 65280 → ∀ i, i < (echo_image 0x41).length →
      (loaded image_name no_locals
        (main_init false (file_host image_name (echo_image 0x41)))).mem (0x20100 + i) =
        (echo_image 0x41).getD i 0) ∧
    (65280 < (echo_image 0x41).length →
      (load_program image_name no_locals
        (main_init false (file_host image_name (echo_image 0x41)))).1 = EXIT_FAILURE ∧
      (loaded image_name no_locals
        (main_init false (file_host image_name (echo_image 0x41)))).mem =
        psp_init (main_init false (file_host image_name (echo_image 0x41))).mem) :=
  com_size_limit image_name no_locals (main_init false (file_host image_name (echo_image 0x41)))
    { data := echo_image 0x41, readable := true, writable := true } rfl rfl (by decide)

/-- C14. Initial CPU state: for a readable EXE image `load_program` succeeds
and sets `CS = (0x2010 + init_cs) mod 2^16`, `IP = init_ip`,
`SS = (0x2010 + init_ss) mod 2^16`, `SP = init_sp`, `DS = ES = 0x2000`; for a
readable COM image of at most 65280 bytes it succeeds and sets
`CS = DS = ES = SS = 0x2000`, `IP = 0x0100`, `SP = 0xFFFE`; in both cases
`EAX = 0`, the flags are `0x0200`, every other general-purpose register (and
`FS`, `GS`) is 0, and the DTA is `(0x2000, 0x0080)`. -/
theorem initial_cpu_state (fname : List Nat) (locals : load_locals) (sys : system__s)
    (f : host_file) (hf : sys.host.files fname = some f) (hr : f.readable = true) :
    (sees_mz locals f.data →
      (load_program fname locals sys).1 = EXIT_SUCCESS ∧
      (loaded fname locals sys).regs =
        { eax := 0, ebx := 0, ecx := 0, edx := 0, esi := 0, edi := 0, ebp := 0,
          esp := (exe_header locals f.data).init_sp,
          eip := (exe_header locals f.data).init_ip, eflags := 0x0200,
          cs := (0x2010 + (exe_header locals f.data).init_cs) % 65536,
          ds := 0x2000, es := 0x2000,
          ss := (0x2010 + (exe_header locals f.data).init_ss) % 65536, fs := 0, gs := 0 } ∧
      (loaded fname locals sys).dtaseg = 0x2000 ∧ (loaded fname locals sys).dtaoff = 0x0080) ∧
    (¬ sees_mz locals f.data → f.data.length ≤ 65280 →
      (load_program fname locals sys).1 = EXIT_SUCCESS ∧
      (loaded fname locals sys).regs =
        { eax := 0, ebx := 0, ecx := 0, edx := 0, esi := 0, edi := 0, ebp := 0,
          esp := 0xFFFE, eip := 0x0100, eflags := 0x0200,
          cs := 0x2000, ds := 0x2000, es := 0x2000, ss := 0x2000, fs := 0, gs := 0 } ∧
      (loaded fname locals sys).dtaseg = 0x2000 ∧ (loaded fname locals sys).dtaoff = 0x0080) := by
  constructor
  · intro hmz
    unfold loaded
    rw [load_program_exe fname locals sys f hf hr hmz]
    exact ⟨rfl, rfl, rfl, rfl⟩
  · intro hcom hlen
    unfold loaded
    rw [load_program_com fname locals sys f hf hr hcom hlen]
    exact ⟨rfl, rfl, rfl, rfl⟩

/-- C14 at a concrete file: the EXE image `reloc_image`, whose header has
`init_cs = 0`, `init_ip = 0`, `init_ss = 0` and `init_sp = FFFEh`. -/
theorem initial_cpu_state_witness :
    (load_program image_name no_locals (main_init false (file_host image_name reloc_image))).1 =
      EXIT_SUCCESS ∧
    (loaded image_name no_locals (main_init false (file_host image_name reloc_image))).regs =
      { eax := 0, ebx := 0, ecx := 0, edx := 0, esi := 0, edi := 0, ebp := 0,
        esp := (exe_header no_locals reloc_image).init_sp,
        eip := (exe_header no_locals reloc_image).init_ip, eflags := 0x0200,
        cs := (0x2010 + (exe_header no_locals reloc_image).init_cs) % 65536,
        ds := 0x2000, es := 0x2000,
        ss := (0x2010 + (exe_header no_locals reloc_image).init_ss) % 65536, fs := 0, gs := 0 } ∧
    (loaded image_name no_locals (main_init false (file_host image_name reloc_image))).dtaseg =
      0x2000 ∧
    (loaded image_name no_locals (main_init false (file_host image_name reloc_image))).dtaoff =
      0x0080 :=
  (initial_cpu_state image_name no_locals (main_init false (file_host image_name reloc_image))
    { data := reloc_image, readable := true, writable := true } rfl rfl).1 (by decide)

/-- C15 fails in its first half. The header of `bad_geometry_image` declares
an image of 32 bytes and a header of 64 bytes, so `hdrpara * 16` exceeds the
image size; `load_program` makes no check: `binsize -= offset` wraps to
`2^64 - 32`, the bytes `AA BB` at file offset 64 are copied to `0x20100`, and
the call returns success. -/
theorem bad_geometry_accepted :
    sees_mz no_locals bad_geometry_image ∧
    image_bytes (exe_header no_locals bad_geometry_image) = 32 ∧
    (exe_header no_locals bad_geometry_image).hdrpara * 16 = 64 ∧
    (load_program image_name no_locals
      (main_init false (file_host image_name bad_geometry_image))).1 = EXIT_SUCCESS ∧
    exe_binsize (exe_header no_locals bad_geometry_image) = 18446744073709551584 ∧
    (main_init false (file_host image_name bad_geometry_image)).mem 0x20100 = 0xCC ∧
    (loaded image_name no_locals
      (main_init false (file_host image_name bad_geometry_image))).mem 0x20100 = 0xAA ∧
    (loaded image_name no_locals
      (main_init false (file_host image_name bad_geometry_image))).mem 0x20101 = 0xBB := by
  refine ⟨by decide, by decide, by decide, by decide, by decide, by decide, by decide, by decide⟩

/-- C16. Loader idempotence on COM: for every readable COM image of at most
65280 bytes and every initial state, a second `load_program` on the state the
first one left succeeds as the first did, and every byte in
`[0x20100, 0x20100 + len)` is the same after the second load as after the
first, and equal to the image byte. -/
theorem com_load_idempotent (fname : List Nat) (locals locals2 : load_locals) (sys : system__s)
    (f : host_file) (hf : sys.host.files fname = some f) (hr : f.readable = true)
    (hcom : ¬ sees_mz locals f.data) (hcom2 : ¬ sees_mz locals2 f.data)
    (hlen : f.data.length ≤ 65280) :
    (load_program fname locals sys).1 = EXIT_SUCCESS ∧
    (load_program fname locals2 (loaded fname locals sys)).1 = EXIT_SUCCESS ∧
    ∀ i, i < f.data.length →
      (loaded fname locals2 (loaded fname locals sys)).mem (0x20100 + i) =
        (loaded fname locals sys).mem (0x20100 + i) ∧
      (loaded fname locals sys).mem (0x20100 + i) = f.data.getD i 0 := by
  have h1 := load_program_com fname locals sys f hf hr hcom hlen
  have hhost : (loaded fname locals sys).host = sys.host := by
    unfold loaded
    rw [h1]
  have hf2 : (loaded fname locals sys).host.files fname = some f := by rw [hhost]; exact hf
  have h2 := load_program_com fname locals2 (loaded fname locals sys) f hf2 hr hcom2 hlen
  refine ⟨by rw [h1], by rw [h2], ?_⟩
  intro i hi
  have e1 : (loaded fname locals sys).mem (0x20100 + i) = f.data.getD i 0 := by
    unfold loaded
    rw [h1]
    exact store_bytes_at _ _ _ i hi
  have e2 : (loaded fname locals2 (loaded fname locals sys)).mem (0x20100 + i) =
      f.data.getD i 0 := by
    generalize loaded fname locals sys = s1 at h2
    unfold loaded
    rw [h2]
    exact store_bytes_at _ _ _ i hi
  exact ⟨by rw [e1, e2], e1⟩

/-- C16 at a concrete file: the echo image loaded twice into the memory `main`
sets up. -/
theorem com_load_idempotent_witness :
    (load_program image_name no_locals
      (main_init false (file_host image_name (echo_image 0x41)))).1 = EXIT_SUCCESS ∧
    (load_program image_name no_locals (loaded image_name no_locals
      (main_init false (file_host image_name (echo_image 0x41))))).1 = EXIT_SUCCESS ∧
    ∀ i, i < (echo_image 0x41).length →
      (loaded image_name no_locals (loaded image_name no_locals
        (main_init false (file_host image_name (echo_image 0x41))))).mem (0x20100 + i) =
        (loaded image_name no_locals
          (main_init false (file_host image_name (echo_image 0x41)))).mem (0x20100 + i) ∧
      (loaded image_name no_locals
        (main_init false (file_host image_name (echo_image 0x41)))).mem (0x20100 + i) =
        (echo_image 0x41).getD i 0 :=
  com_load_idempotent image_name no_locals no_locals
    (main_init false (file_host image_name (echo_image 0x41)))
    { data := echo_image 0x41, readable := true, writable := true } rfl rfl
    (by decide) (by decide) (by decide)

/-- C17. End-to-end COM echo: for every byte `c`, `main` on the COM image
`B4 02 B2 c CD 21 B8 00 4C CD 21` leaves the loop after exactly five passes,
each of which reports a recognized instruction, with exactly the byte `c` on
stdout, the run flag off and exit status 0 (one unit of service fuel and a
bound of six passes are enough for the run to end). -/
theorem com_echo (c : Nat) (hc : c < 256) (locals : load_locals) :
    run_summary (main image_name false locals (file_host image_name (echo_image c)) 1 6) =
      some (EXIT_SUCCESS, [true, true, true, true, true], [c], false) := by
  have hcom : ∀ l : load_locals, ¬ sees_mz l (echo_image c) := by
    intro l h
    have h0 := h.1
    simp [header_buf, fread_over, buf_byte, echo_image] at h0
  have hload : ∀ l : load_locals,
      load_program image_name l (main_init false (file_host image_name (echo_image c))) =
        (EXIT_SUCCESS,
          { main_init false (file_host image_name (echo_image c)) with
            mem := store_bytes
              (psp_init (main_init false (file_host image_name (echo_image c))).mem) 0x20100
              (echo_image c),
            regs := com_regs, dtaseg := 0x2000, dtaoff := 0x80 }) :=
    fun l => load_program_com image_name l _
      { data := echo_image c, readable := true, writable := true } rfl rfl (hcom l)
      (by simp [echo_image])
  have hmain : main image_name false locals (file_host image_name (echo_image c)) 1 6 =
      main image_name false no_locals (file_host image_name (echo_image c)) 1 6 := by
    unfold main
    rw [hload locals, hload no_locals]
  rw [hmain]
  exact of_decide_eq_true (echo_all c hc)

/-- C17 at `c = 41h`: the image prints `A`. -/
theorem com_echo_witness :
    run_summary (main image_name false no_locals (file_host image_name (echo_image 0x41)) 1 6) =
      some (EXIT_SUCCESS, [true, true, true, true, true], [0x41], false) :=
  com_echo 0x41 (by decide) no_locals

/-- C18. Prompt-detection state machine: from a state whose window is all zero
and whose input flag is off, after `handle_prompt_detection` has been fed the
bytes of `s` in order the input flag is on exactly when `s` holds the three
consecutive bytes `CR LF '>'` with no `CR` anywhere after them. -/
theorem prompt_detection_machine (sys : system__s) (s : List Nat)
    (hw : sys.prompt = [0, 0, 0, 0]) (hi : sys.input = false) :
    (feed_prompt sys s).input = true ↔
      ∃ pre post, s = pre ++ [0x0D, 0x0A, 0x3E] ++ post ∧ 0x0D ∉ post :=
  (feed_prompt_inv sys hw hi s).2.2

theorem prompt_detection_machine_witness :
    (main_init false sample_host).prompt = [0, 0, 0, 0] ∧
    (main_init false sample_host).input = false ∧
    ((feed_prompt (main_init false sample_host) [0x48, 0x0D, 0x0A, 0x3E, 0x20]).input = true ↔
      ∃ pre post, [0x48, 0x0D, 0x0A, 0x3E, 0x20] = pre ++ [0x0D, 0x0A, 0x3E] ++ post ∧
        0x0D ∉ post) :=
  ⟨rfl, rfl, prompt_detection_machine (main_init false sample_host) [0x48, 0x0D, 0x0A, 0x3E, 0x20]
    rfl rfl⟩

/-- C19. INT 21h AH=09: when guest memory holds a `'$'` at or after
linear(DS, DX), with `k` the offset of the first one, the service returns
(`k + 2` units of fuel are enough), appends to stdout exactly the `k` bytes
before the `'$'` in order, leaves the prompt detector in the state it has after
being fed those `k` bytes in order, and changes no register and no byte of
guest memory. -/
theorem write_string_service (fuel : Nat) (sys : system__s) (k : Nat)
    (hm : mem_ok sys.mem) (hah : AH sys.regs = 0x09)
    (hk : sys.mem (ds_dx sys + k) = 0x24)
    (hfirst : ∀ j, j < k → sys.mem (ds_dx sys + j) ≠ 0x24)
    (hfuel : k + 2 ≤ fuel) :
    ∃ sys', dos_int21 fuel sys = some sys' ∧
      sys'.host.stdout = sys.host.stdout ++ mem_bytes sys.mem (ds_dx sys) k ∧
      sys'.prompt = (feed_prompt sys (mem_bytes sys.mem (ds_dx sys) k)).prompt ∧
      sys'.input = (feed_prompt sys (mem_bytes sys.mem (ds_dx sys) k)).input ∧
      sys'.regs = sys.regs ∧ sys'.mem = sys.mem := by
  obtain ⟨n, rfl⟩ : ∃ n, fuel = n + 1 := ⟨fuel - 1, by omega⟩
  obtain ⟨h1, h2, h3, h4, h5⟩ := emit_effect (mem_bytes sys.mem (ds_dx sys) k) sys
  refine ⟨emit sys (mem_bytes sys.mem (ds_dx sys) k), ?_, ?_, h4, h5, h1, h2⟩
  · rw [dos_int21_write_string n sys hah]
    exact write_string_emit k n sys (ds_dx sys) hk hfirst (by omega)
  · rw [h3, map_mod_bytes sys.mem hm]

/-- C19 at a concrete state: `Hi$` at `DS:DX` prints `Hi`. -/
theorem write_string_service_witness :
    mem_bytes hi_input.mem (ds_dx hi_input) 2 = [0x48, 0x69] ∧
    ∃ sys', dos_int21 4 hi_input = some sys' ∧
      sys'.host.stdout = hi_input.host.stdout ++ mem_bytes hi_input.mem (ds_dx hi_input) 2 ∧
      sys'.prompt = (feed_prompt hi_input (mem_bytes hi_input.mem (ds_dx hi_input) 2)).prompt ∧
      sys'.input = (feed_prompt hi_input (mem_bytes hi_input.mem (ds_dx hi_input) 2)).input ∧
      sys'.regs = hi_input.regs ∧ sys'.mem = hi_input.mem :=
  ⟨by decide,
    write_string_service 4 hi_input 2 (sample_mem_ok _ (by decide)) (by decide) (by decide)
      (by decide) (by decide)⟩

/-- C20 fails for bytes of 80h and above on a host whose plain `char` is
signed. Service 06h with `DL = FFh`, entered with the unread byte `80h` in the
input buffer and `AL = 0`: `read_buffered_input` returns the negative `int`
-128, so the service takes the no-input branch: `AL` stays 0, ZF is set, and
the read cursor has moved past the byte. -/
theorem direct_input_high_byte :
    AH high_byte_input.regs = 0x06 ∧ high_byte_input.regs.edx &&& 0xFF = 0xFF ∧
    high_byte_input.input_pos < high_byte_input.input_len ∧
    high_byte_input.input_buffer high_byte_input.input_pos.toNat = 0x80 ∧
    (read_buffered_input high_byte_input).1 = -128 ∧
    (dos_int21 1 high_byte_input).map
        (fun s => (AL s.regs, decide (ZF s.regs), s.input_pos)) =
      some (0, true, 1) := by
  refine ⟨by decide, by decide, by decide, by decide, by decide, by decide⟩

/-- C21. INT 21h AH=0C with `AL = f`: the drain of stdin ends and leaves a
host `h`; the input buffer is emptied (read cursor and length both 0) and no
register has changed at that point; if `f` is one of 01, 06, 07, 08, 0A the
call returns the state that the service layer returns when invoked with
`EAX = f * 256 + f` on the state with the emptied buffer, and that invocation
needs a single unit of fuel, so it does not re-enter the layer again; for any
other `f` the call returns the state with the emptied buffer, its registers
unchanged. -/
theorem flush_service (fuel : Nat) (sys : system__s) (hah : AH sys.regs = 0x0C)
    (hfuel : pending sys.host.stdin + 2 ≤ fuel) :
    ∃ h, drain_stdin (fuel - 1) sys.host = some h ∧
      (flushed sys h).input_pos = 0 ∧ (flushed sys h).input_len = 0 ∧
      (flushed sys h).regs = sys.regs ∧
      (reentry (AL sys.regs) →
        ∃ r, dos_int21 1 (with_eax (flushed sys h) (AL sys.regs * 256 + AL sys.regs)) = some r ∧
          dos_int21 fuel sys = some r) ∧
      (¬ reentry (AL sys.regs) → dos_int21 fuel sys = some (flushed sys h)) := by
  obtain ⟨n, rfl⟩ : ∃ n, fuel = n + 1 := ⟨fuel - 1, by omega⟩
  obtain ⟨m, rfl⟩ : ∃ m, n = m + 1 := ⟨n - 1, by omega⟩
  obtain ⟨h, hd⟩ := drain_stdin_returns (m + 1) sys.host (by omega)
  refine ⟨h, hd, rfl, rfl, rfl, ?_, ?_⟩
  · intro hre
    have hal := AL_lt sys.regs
    have hah2 : AH (with_eax (flushed sys h) (AL sys.regs * 256 + AL sys.regs)).regs =
        AL sys.regs := by
      show ((AL sys.regs * 256 + AL sys.regs) >>> 8) &&& 0xFF = AL sys.regs
      rw [shr_eq_div, and_FF]
      have e1 : (AL sys.regs * 256 + AL sys.regs) / 2 ^ 8 = AL sys.regs := by
        norm_num
        omega
      rw [e1]
      exact Nat.mod_eq_of_lt hal
    obtain ⟨e, r, hr⟩ := dos_int21_reentered m
      (with_eax (flushed sys h) (AL sys.regs * 256 + AL sys.regs)) (by rw [hah2]; exact hre)
    refine ⟨r, hr, ?_⟩
    rw [dos_int21_flush (m + 1) sys hah]
    rw [hd]
    simp only [hre, if_true]
    rw [al_twice _ hal, e, hr]
  · intro hre
    rw [dos_int21_flush (m + 1) sys hah]
    rw [hd]
    simp only [hre, if_false]

/-- C21 at a concrete state: `AL = 01h` with `yes` waiting on stdin; the drain
discards the three bytes, and the re-entered service 01h finds no input and
returns `AL = 0`. -/
theorem flush_service_witness :
    (dos_int21 6 flush_input).map (fun s => (AL s.regs, s.input_pos, s.input_len)) =
      some (0, 0, 0) ∧
    ∃ h, drain_stdin (6 - 1) flush_input.host = some h ∧
      (flushed flush_input h).input_pos = 0 ∧ (flushed flush_input h).input_len = 0 ∧
      (flushed flush_input h).regs = flush_input.regs ∧
      (reentry (AL flush_input.regs) →
        ∃ r, dos_int21 1 (with_eax (flushed flush_input h)
            (AL flush_input.regs * 256 + AL flush_input.regs)) = some r ∧
          dos_int21 6 flush_input = some r) ∧
      (¬ reentry (AL flush_input.regs) → dos_int21 6 flush_input = some (flushed flush_input h)) :=
  ⟨by decide, flush_service 6 flush_input (by decide) (by decide)⟩

/-- C22 fails for open. Two successive INT 21h AH=0F calls on the FCB at
`2000:005C`, both successful (`AL = 0`): the first takes slot 0; at the second
slot 0 already holds the FCB pointer, yet `open_file` does not look for it when
`create` is false and takes the next empty slot, so that afterwards slots 0 and
1 both hold the pointer and the set of occupied slots has grown. -/
theorem open_duplicates_slot :
    (calls 1 1 (fcb_input 0x0F [1, 2, 3] true)).map
        (fun s => (AH s.regs, AL s.regs, ds_dx s, find_fcb s (ds_dx s), occupied s)) =
      some (0x0F, 0, 0x2005C, some 0, [0]) ∧
    (calls 1 2 (fcb_input 0x0F [1, 2, 3] true)).map
        (fun s => (AL s.regs, s.fcbs 0, s.fcbs 1, occupied s)) =
      some (0, some 0x2005C, some 0x2005C, [0, 1]) := by
  refine ⟨by decide, by decide⟩

/-- C23 fails for a create that reuses a slot and whose host open fails. The
host file `A` is read-only. The invariant holds in the state `main` sets up and
in the state before the first call; INT 21h AH=0F opens `A` through the
read-only fallback into slot 0 and the invariant still holds; INT 21h AH=16 on
the same FCB then finds slot 0, stores the `NULL` that `fopen(.., "w+b")`
returns in `fp[0]` and returns 255 with `fcbs[0]` still set: the invariant is
broken. -/
theorem create_failure_breaks_table :
    table_ok (main_init false sample_host) ∧
    table_ok (fcb_input 0x0F [1, 2, 3] false) ∧
    (dos_int21 1 (fcb_input 0x0F [1, 2, 3] false)).map
        (fun s => (AL s.regs, s.fcbs 0, (s.fp 0).isSome, decide (table_ok s))) =
      some (0, some 0x2005C, true, true) ∧
    ((dos_int21 1 (fcb_input 0x0F [1, 2, 3] false)).bind
        (fun s => dos_int21 1 (with_eax s 0x1600))).map
        (fun s => (AL s.regs, s.fcbs 0, (s.fp 0).isSome, decide (table_ok s))) =
      some (0xFF, some 0x2005C, false, false) := by
  refine ⟨by decide, by decide, by decide, by decide⟩

/-- C24 as stated fails when the record area overlaps the FCB. Service 14h on
the FCB at `2000:005C` (`recsize = 4`, in slot 0, six file bytes `41 42 ..`
remaining) with the DTA at `2000:0076`, which is the FCB's `crecnum` byte: the
call returns `AL = 0`, but the first guest byte of the DTA is `42h`, the file
byte `41h` incremented by `crecnum++`, and not the file byte. -/
theorem sequential_read_counterexample :
    AH (seq_input 0x2000 0x0076).regs = 0x14 ∧
    find_fcb (seq_input 0x2000 0x0076) (ds_dx (seq_input 0x2000 0x0076)) = some 0 ∧
    fcb_recsize (seq_input 0x2000 0x0076).mem (ds_dx (seq_input 0x2000 0x0076)) = 4 ∧
    dta_addr (seq_input 0x2000 0x0076) = ds_dx (seq_input 0x2000 0x0076) + FCB_CRECNUM ∧
    (dos_int21 1 (seq_input 0x2000 0x0076)).map
        (fun s => (AL s.regs, s.mem (dta_addr (seq_input 0x2000 0x0076)))) =
      some (0, 0x42) := by
  refine ⟨by decide, by decide, by decide, by decide, by decide⟩

/-- C24, amended: INT 21h AH=14 on the FCB at linear(DS, DX) with record size
`n = fcb.recsize`. If the FCB pointer is in no slot, `AL = FFh` and guest
memory is unchanged. If it is in a slot with an open host file and the record
area of `n` bytes at linear(dtaseg, dtaoff) contains neither the FCB's
`recsize` field nor its `crecnum` byte: with at least `n` file bytes remaining
the `n` guest bytes at the DTA become the next `n` file bytes, `crecnum` is
incremented by one (modulo 256) and `AL = 0`; with fewer remaining, `AL = 1`
and `crecnum` is unchanged. `AH` is unchanged in all three cases. Service 1Ah
sets the DTA to `(DS, DX)`. -/
theorem sequential_read (fuel : Nat) (sys : system__s) (hah : AH sys.regs = 0x14) :
    (find_fcb sys (ds_dx sys) = none →
      ∃ sys', dos_int21 (fuel + 1) sys = some sys' ∧ AL sys'.regs = 0xFF ∧
        AH sys'.regs = AH sys.regs ∧ sys'.mem = sys.mem) ∧
    (∀ (slot : Nat) (f : FILE) (hf : host_file),
      find_fcb sys (ds_dx sys) = some slot → sys.fp slot = some f →
      sys.host.files f.name = some hf →
      record_clear (dta_addr sys) (fcb_recsize sys.mem (ds_dx sys)) (ds_dx sys) →
      (fcb_recsize sys.mem (ds_dx sys) ≤ hf.data.length - f.pos →
        ∃ sys', dos_int21 (fuel + 1) sys = some sys' ∧
          (∀ i, i < fcb_recsize sys.mem (ds_dx sys) →
            sys'.mem (dta_addr sys + i) = hf.data.getD (f.pos + i) 0) ∧
          fcb_crecnum sys'.mem (ds_dx sys) = (fcb_crecnum sys.mem (ds_dx sys) + 1) % 256 ∧
          AL sys'.regs = 0 ∧ AH sys'.regs = AH sys.regs) ∧
      (hf.data.length - f.pos < fcb_recsize sys.mem (ds_dx sys) →
        ∃ sys', dos_int21 (fuel + 1) sys = some sys' ∧
          fcb_crecnum sys'.mem (ds_dx sys) = fcb_crecnum sys.mem (ds_dx sys) ∧
          AL sys'.regs = 1 ∧ AH sys'.regs = AH sys.regs)) ∧
    (∀ s : system__s, AH s.regs = 0x1A →
      dos_int21 (fuel + 1) s = some { s with dtaseg := s.regs.ds, dtaoff := DX s.regs }) := by
  refine ⟨?_, ?_, fun s hs => dos_int21_set_dta fuel s hs⟩
  · intro hnone
    rw [dos_int21_seq_none fuel sys hah hnone]
    exact ⟨_, rfl, (al_of_set sys.regs.eax 255 (by norm_num)).1,
      (al_of_set sys.regs.eax 255 (by norm_num)).2, rfl⟩
  · intro slot f hf hfind hfp hfile hclear
    have hchunk := host_fread_file sys.host f hf (fcb_recsize sys.mem (ds_dx sys)) hfile
    have hlen : (host_fread sys.host f (fcb_recsize sys.mem (ds_dx sys))).1.length =
        min (fcb_recsize sys.mem (ds_dx sys)) (hf.data.length - f.pos) := by
      rw [hchunk, List.length_take, List.length_drop]
    obtain ⟨hrec, hcrec⟩ := record_clear_fields sys.mem (dta_addr sys) (ds_dx sys)
      (fcb_recsize sys.mem (ds_dx sys))
      (host_fread sys.host f (fcb_recsize sys.mem (ds_dx sys))).1 (by rw [hlen]; omega) hclear
    rw [dos_int21_seq_read fuel sys hah slot f hfind hfp, hrec]
    constructor
    · intro hfull
      have hl : (host_fread sys.host f (fcb_recsize sys.mem (ds_dx sys))).1.length =
          fcb_recsize sys.mem (ds_dx sys) := by rw [hlen]; omega
      rw [if_pos hl]
      have h0 := (al_of_set sys.regs.eax 0 (by norm_num))
      rw [Nat.or_zero] at h0
      refine ⟨_, rfl, ?_, ?_, h0.1, h0.2⟩
      · intro i hi
        show set_byte _ _ _ (dta_addr sys + i) = _
        rw [set_byte_other _ _ _ _ (hclear i hi).2.2,
          store_bytes_at _ _ _ i (by rw [hl]; exact hi), hchunk,
          List.getD_eq_getElem?_getD, List.getD_eq_getElem?_getD,
          List.getElem?_take_of_lt hi, List.getElem?_drop]
      · show set_byte _ _ _ (ds_dx sys + FCB_CRECNUM) = _
        rw [set_byte_same, hcrec]
        rfl
    · intro hshort
      have hl : ¬ (host_fread sys.host f (fcb_recsize sys.mem (ds_dx sys))).1.length =
          fcb_recsize sys.mem (ds_dx sys) := by rw [hlen]; omega
      rw [if_neg hl]
      exact ⟨_, rfl, hcrec, (al_of_set sys.regs.eax 1 (by norm_num)).1,
        (al_of_set sys.regs.eax 1 (by norm_num)).2⟩

/-- C24, amended, at a concrete state: the DTA at `2000:0080` as the loader
leaves it; the four bytes `41 42 43 44` of the file arrive there. -/
theorem sequential_read_witness :
    record_clear (dta_addr (seq_input 0x2000 0x0080))
      (fcb_recsize (seq_input 0x2000 0x0080).mem (ds_dx (seq_input 0x2000 0x0080)))
      (ds_dx (seq_input 0x2000 0x0080)) ∧
    ∃ sys', dos_int21 1 (seq_input 0x2000 0x0080) = some sys' ∧
      (∀ i, i < fcb_recsize (seq_input 0x2000 0x0080).mem (ds_dx (seq_input 0x2000 0x0080)) →
        sys'.mem (dta_addr (seq_input 0x2000 0x0080) + i) =
          [0x41, 0x42, 0x43, 0x44, 0x45, 0x46].getD (0 + i) 0) ∧
      fcb_crecnum sys'.mem (ds_dx (seq_input 0x2000 0x0080)) =
        (fcb_crecnum (seq_input 0x2000 0x0080).mem (ds_dx (seq_input 0x2000 0x0080)) + 1) % 256 ∧
      AL sys'.regs = 0 ∧ AH sys'.regs = AH (seq_input 0x2000 0x0080).regs :=
  ⟨by decide,
    ((sequential_read 0 (seq_input 0x2000 0x0080) (by decide)).2.1 0
      { name := [0x41], pos := 0 }
      { data := [0x41, 0x42, 0x43, 0x44, 0x45, 0x46], readable := true, writable := true }
      (by decide) rfl rfl (by decide)).1 (by decide)⟩

/-- C25. INT 21h AH=01 delivers buffered input in FIFO order: when the bytes
`bs`, each below 80h, are held unread in the input buffer, then for every
`k < n` the call after `k` earlier calls returns with `AL` the byte `bs[k]` and
`AH` unchanged, and has appended that byte to stdout unless it is `'\n'`; and
a call made in any state in which nothing is buffered and the host delivers no
byte on either attempt returns with `AL = 0` and `AH` unchanged, stdout as it
was. -/
theorem read_char_fifo (sys : system__s) (bs : List Nat) (hah : AH sys.regs = 0x01)
    (hun : unread sys bs) (h7 : ∀ b ∈ bs, b < 128) :
    (∀ k, k < bs.length →
      ∃ s s', calls 1 k sys = some s ∧ dos_int21 1 s = some s' ∧
        AL s'.regs = bs.getD k 0 ∧ AH s'.regs = AH sys.regs ∧
        s'.host.stdout = s.host.stdout ++ (if bs.getD k 0 = 0x0A then [] else [bs.getD k 0])) ∧
    (∀ s0 : system__s, AH s0.regs = 0x01 → 0 ≤ s0.input_pos → s0.input_len ≤ s0.input_pos →
      quiet s0.host → quiet (read_buffered_input s0).2.host →
      ∃ s', dos_int21 1 s0 = some s' ∧ AL s'.regs = 0 ∧ AH s'.regs = AH s0.regs ∧
        s'.host.stdout = s0.host.stdout) := by
  constructor
  · intro k hk
    obtain ⟨s, hs, ha, hp, hl, hb⟩ := calls_read_char sys bs hah hun h7 k (by omega)
    obtain ⟨h0, hlen, hbuf⟩ := hun
    have hlt : s.input_pos < s.input_len := by rw [hp, hl]; omega
    have hbyte : s.input_buffer s.input_pos.toNat = bs.getD k 0 := by
      rw [hb, hp, ← hbuf k hk]
      congr 1
      omega
    have hn7 : bs.getD k 0 < 128 := by
      rw [List.getD_eq_getElem _ _ hk]
      exact h7 _ (List.getElem_mem _)
    obtain ⟨s', hs', hal, hah', hout, -⟩ := read_char_byte 0 s _ ha hlt hbyte hn7
    exact ⟨s, s', hs, hs', hal, by rw [hah', ha, hah], hout⟩
  · intro s0 hah0 h0 hemp hq1 hq2
    obtain ⟨r1, g1, p1, e1, o1⟩ := read_buffered_none s0 h0 (by omega) hq1
    obtain ⟨r2, g2, -, -, o2⟩ := read_buffered_none (read_buffered_input s0).2
      (by rw [p1]; exact h0) e1 hq2
    rw [dos_int21_read_char 0 s0 hah0, r1, r2]
    simp only [ge_iff_le, Int.reduceNeg, Left.nonneg_neg_iff, Int.reduceLE, if_false]
    refine ⟨_, rfl, ?_, ?_, ?_⟩
    · show ((read_buffered_input (read_buffered_input s0).2).2.regs.eax &&& 0xFF00) &&& 0xFF = 0
      rw [and_FF, and_FF00]
      omega
    · show (((read_buffered_input (read_buffered_input s0).2).2.regs.eax &&& 0xFF00) >>> 8) &&& 0xFF
        = (s0.regs.eax >>> 8) &&& 0xFF
      rw [g2, g1]
      have h := (al_of_set s0.regs.eax 0 (by norm_num)).2
      rw [Nat.or_zero] at h
      exact h
    · show (read_buffered_input (read_buffered_input s0).2).2.host.stdout = s0.host.stdout
      rw [o2, o1]

/-- C25 at a concrete state: `yes\n` in the buffer yields `y`, `e`, `s`,
`'\n'`, with `yes` echoed. -/
theorem read_char_fifo_witness :
    (calls 1 4 yes_input).map (fun s => (AL s.regs, s.host.stdout)) =
      some (0x0A, [0x79, 0x65, 0x73]) ∧
    (∀ k, k < [0x79, 0x65, 0x73, 0x0A].length →
      ∃ s s', calls 1 k yes_input = some s ∧ dos_int21 1 s = some s' ∧
        AL s'.regs = [0x79, 0x65, 0x73, 0x0A].getD k 0 ∧ AH s'.regs = AH yes_input.regs ∧
        s'.host.stdout = s.host.stdout ++
          (if [0x79, 0x65, 0x73, 0x0A].getD k 0 = 0x0A then []
            else [[0x79, 0x65, 0x73, 0x0A].getD k 0])) :=
  ⟨by decide,
    (read_char_fifo yes_input [0x79, 0x65, 0x73, 0x0A] (by decide)
      ⟨by decide, by decide, by decide⟩ (by decide)).1⟩

/-- C26. INT 21h AH=0F (open, `create = false`) and AH=16 (create,
`create = true`) on the FCB at linear(DS, DX): the call returns with `AH`
unchanged; when the host open yields a stream the FCB fields read `cblock = 0`,
`recsize = 128`, `crecnum = 0`, `drive = 3` and `size` = the size of the host
file as a 32-bit value (0 for create), and `AL = 0`; when it yields none,
`AL = FFh` and guest memory, so every FCB field, is as before. -/
theorem fcb_open_fields (fuel : Nat) (sys : system__s) (create : Bool)
    (hah : AH sys.regs = (if create then 0x16 else 0x0F)) :
    ∃ sys', dos_int21 (fuel + 1) sys = some sys' ∧ AH sys'.regs = AH sys.regs ∧
      (host_opens sys create →
        fcb_cblock sys'.mem (ds_dx sys) = 0 ∧ fcb_recsize sys'.mem (ds_dx sys) = 128 ∧
        fcb_crecnum sys'.mem (ds_dx sys) = 0 ∧ fcb_drive sys'.mem (ds_dx sys) = 3 ∧
        fcb_size sys'.mem (ds_dx sys) =
          (if create then 0 else file_size sys.host (fcb_file_name sys) % 4294967296) ∧
        AL sys'.regs = 0) ∧
      (¬ host_opens sys create → AL sys'.regs = 0xFF ∧ sys'.mem = sys.mem) := by
  have hopen : host_opens sys create ↔ (open_stream sys (ds_dx sys) create).1 ≠ none := by
    unfold host_opens open_stream fcb_file_name
    cases create with
    | true => simp
    | false =>
        simp only [Bool.false_eq_true, if_false]
        cases fopen_rplus sys.host (c_string (mkfilename sys.mem (ds_dx sys))) <;> simp
  rw [dos_int21_open fuel sys create hah]
  cases hs : (open_stream sys (ds_dx sys) create).1 with
  | none =>
      rw [open_file_failed sys (ds_dx sys) create hs]
      refine ⟨_, rfl, ?_, ?_, ?_⟩
      · exact (al_of_set sys.regs.eax 255 (by norm_num)).2
      · intro h
        exact absurd hs (hopen.mp h)
      · intro _
        exact ⟨(al_of_set sys.regs.eax 255 (by norm_num)).1, rfl⟩
  | some f =>
      rw [open_file_ok sys (ds_dx sys) create f hs]
      refine ⟨_, rfl, ?_, ?_, ?_⟩
      · exact (al_of_set sys.regs.eax 0 (by norm_num)).2
      · intro _
        have hsize : (if create then 0
            else host_fsize (open_stream sys (ds_dx sys) create).2 f % 4294967296) =
            (if create then 0 else file_size sys.host (fcb_file_name sys) % 4294967296) := by
          cases create with
          | true => rfl
          | false =>
              simp only [Bool.false_eq_true, if_false]
              have hname := open_stream_name sys (ds_dx sys) f hs
              rw [hname.1]
              unfold host_fsize file_size
              rw [hname.2]
              rfl
        have hlt : (if create then 0
            else host_fsize (open_stream sys (ds_dx sys) create).2 f % 4294967296) < 4294967296 := by
          split_ifs
          · norm_num
          · exact Nat.mod_lt _ (by norm_num)
        obtain ⟨f1, f2, f3, f4, f5⟩ := open_file_fields sys.mem (ds_dx sys) _ hlt
        refine ⟨f1, f2, f3, f4, ?_, (al_of_set sys.regs.eax 0 (by norm_num)).1⟩
        rw [← hsize]
        exact f5
      · intro h
        exact absurd (hopen.mpr (by rw [hs]; simp)) h

/-- C26 at a concrete state: open of the 3-byte file `A`. -/
theorem fcb_open_fields_witness :
    host_opens (fcb_input 0x0F [1, 2, 3] true) false ∧
    file_size (fcb_input 0x0F [1, 2, 3] true).host (fcb_file_name (fcb_input 0x0F [1, 2, 3] true))
      = 3 ∧
    ∃ sys', dos_int21 1 (fcb_input 0x0F [1, 2, 3] true) = some sys' ∧
      AH sys'.regs = AH (fcb_input 0x0F [1, 2, 3] true).regs ∧
      (host_opens (fcb_input 0x0F [1, 2, 3] true) false →
        fcb_cblock sys'.mem (ds_dx (fcb_input 0x0F [1, 2, 3] true)) = 0 ∧
        fcb_recsize sys'.mem (ds_dx (fcb_input 0x0F [1, 2, 3] true)) = 128 ∧
        fcb_crecnum sys'.mem (ds_dx (fcb_input 0x0F [1, 2, 3] true)) = 0 ∧
        fcb_drive sys'.mem (ds_dx (fcb_input 0x0F [1, 2, 3] true)) = 3 ∧
        fcb_size sys'.mem (ds_dx (fcb_input 0x0F [1, 2, 3] true)) =
          (if false = true then 0
           else file_size (fcb_input 0x0F [1, 2, 3] true).host
             (fcb_file_name (fcb_input 0x0F [1, 2, 3] true)) % 4294967296) ∧
        AL sys'.regs = 0) ∧
      (¬ host_opens (fcb_input 0x0F [1, 2, 3] true) false →
        AL sys'.regs = 0xFF ∧ sys'.mem = (fcb_input 0x0F [1, 2, 3] true).mem) :=
  ⟨Or.inl (by intro h; cases h), by decide, fcb_open_fields 0 (fcb_input 0x0F [1, 2, 3] true) false (by decide)⟩

/-- C27. For every state whose instruction at `CS:IP` is `INT n` with `n`
neither 20h nor 21h, or `INT 21h` with `AH` outside the supported selectors, or
`INT 21h` with `AH = 25h`, one step returns `true` and changes only the
instruction pointer, which advances by 2: every other register, the flags,
guest memory, the run flag, the DTA, the handle table, the input buffer and the
prompt-detection state are those of the state before (one unit of service fuel
is enough). -/
theorem idle_int_step (fuel : Nat) (sys : system__s) (hint : idle_int sys) :
    execute_instruction (fuel + 1) sys =
      some (true, { sys with regs := { sys.regs with eip := (sys.regs.eip + 2) % 4294967296 } }) ∧
    IP { sys.regs with eip := (sys.regs.eip + 2) % 4294967296 } = (IP sys.regs + 2) % 65536 := by
  obtain ⟨hop, hcase⟩ := hint
  refine ⟨?_, ip_add sys.regs.eip 2⟩
  rw [exec_int (fuel + 1) sys hop]
  rcases hcase with ⟨h20, h21⟩ | ⟨h21, hsel⟩ | ⟨h21, h25⟩
  · rw [if_neg h21, if_neg h20]
    rfl
  · rw [if_pos h21, dos_int21_default fuel (int_entry sys) (by rw [int_entry_AH]; exact hsel)]
    rfl
  · rw [if_pos h21, dos_int21_set_vector fuel (int_entry sys) (by rw [int_entry_AH]; exact h25)]
    rfl

/-- C27 at a concrete state: `INT 21h` with `AH = 25h` at `2000:0100`. -/
theorem idle_int_step_witness :
    execute_instruction 1 set_vector_input =
      some (true, { set_vector_input with regs :=
        { set_vector_input.regs with eip := (set_vector_input.regs.eip + 2) % 4294967296 } }) ∧
    IP { set_vector_input.regs with eip := (set_vector_input.regs.eip + 2) % 4294967296 } =
      (IP set_vector_input.regs + 2) % 65536 :=
  idle_int_step 0 set_vector_input ⟨by decide, Or.inr (Or.inr ⟨by decide, by decide⟩)⟩

/-- C28 fails where the scan runs past the end of the code segment. The state
is in its 10001st pass without a recognized instruction at `2000:FFFE`; the
pass skips the unrecognized `CC` and the scan from linear `0x2FFFF` finds
`CD 21` at offset 2, linear `0x30001`. `eip` becomes `0x10001` and the counter
0, so the next fetch is from `2000:0001`, linear `0x20001`, where the byte is
`CC` and not `INT 21h`. -/
theorem watchdog_wraps :
    watchdog_wrap_input.cycles_without_io = 10000 ∧
    (execute_instruction 1 watchdog_wrap_input.sys).map (fun p => (p.1, ip_addr p.2)) =
      some (false, 0x2FFFF) ∧
    scan_int21 watchdog_wrap_input.sys.mem 0x2FFFF 100 0 = some 2 ∧
    int21_at watchdog_wrap_input.sys.mem (0x2FFFF + 2) ∧
    (main_loop_body 1 watchdog_wrap_input).map
        (fun r => (r.1, r.2.1, r.2.2.cycles_without_io, r.2.2.sys.regs.eip, IP r.2.2.sys.regs,
          ip_addr r.2.2.sys, opcode_at r.2.2.sys)) =
      some (false, false, 0, 0x10001, 0x0001, 0x20001, 0xCC) := by
  refine ⟨by decide, by decide, by decide, by decide, by rfl⟩

/-- C29 as stated fails: `88 00` is opcode 88 with `mod = 0`, and the step
returns `true` and advances `IP` by 2, from `0100h` to `0102h`. -/
theorem mov_mem_form_counterexample :
    opcode_at mov_mem_input = 0x88 ∧ modrm_mod mov_mem_input ≠ 3 ∧
    mov_mem_input.regs.eip = 0x100 ∧
    (execute_instruction 0 mov_mem_input).map (fun p => (p.1, p.2.regs.eip)) =
      some (true, 0x102) := by
  refine ⟨by decide, by decide, by decide, by decide⟩

/-- C29, amended: for every state whose opcode at `CS:IP` is 88 and whose
ModR/M `mod` field is not 3, `execute_instruction` moves nothing, advances `IP`
by 2 and returns `true`: the instruction is taken as a recognized one of two
bytes, and no register other than `IP`, no flag and no memory byte changes. -/
theorem mov_mem_form_step (fuel : Nat) (sys : system__s) (hop : opcode_at sys = 0x88)
    (hmod : modrm_mod sys ≠ 3) :
    execute_instruction fuel sys =
      some (true, { sys with regs := { sys.regs with eip := (sys.regs.eip + 2) % 4294967296 } }) ∧
    IP { sys.regs with eip := (sys.regs.eip + 2) % 4294967296 } = (IP sys.regs + 2) % 65536 := by
  refine ⟨?_, ip_add sys.regs.eip 2⟩
  unfold opcode_at ip_addr at hop
  unfold modrm_mod operand8 ip_addr at hmod
  simp only [execute_instruction, hop, hmod, if_false]

/-- C29, amended, at a concrete state: `88 00` at `2000:0100`. -/
theorem mov_mem_form_step_witness :
    execute_instruction 0 mov_mem_input =
      some (true, { mov_mem_input with regs :=
        { mov_mem_input.regs with eip := (mov_mem_input.regs.eip + 2) % 4294967296 } }) ∧
    IP { mov_mem_input.regs with eip := (mov_mem_input.regs.eip + 2) % 4294967296 } =
      (IP mov_mem_input.regs + 2) % 65536 :=
  mov_mem_form_step 0 mov_mem_input (by decide) (by decide)

/-- C30. Sign flag of `CMP AL, imm8`: after the step SF is bit 15 of the 16-bit
widened difference `AL - imm8`; that bit is set exactly when `AL < imm8`
(unsigned), so SF equals CF after the step; and at `AL = 80h`, `imm8 = 00h`
SF is clear although bit 7 of the 8-bit difference, from which canonical x86
takes SF, is set. -/
theorem cmp_sign_flag (fuel : Nat) (sys : system__s) (hok : state_ok sys)
    (hop : opcode_at sys = 0x3C) :
    (∃ sys', execute_instruction fuel sys = some (true, sys') ∧
      (SF sys'.regs ↔ (wide_diff (AL sys.regs) (operand8 sys)).testBit 15 = true) ∧
      ((wide_diff (AL sys.regs) (operand8 sys)).testBit 15 = true ↔
        AL sys.regs < operand8 sys) ∧
      (SF sys'.regs ↔ CF sys'.regs)) ∧
    (AL cmp_sign_input.regs = 0x80 ∧ operand8 cmp_sign_input = 0x00 ∧
      (narrow_diff 0x80 0x00).testBit 7 = true ∧
      (execute_instruction fuel cmp_sign_input).map (fun p => decide (SF p.2.regs)) =
        some false) := by
  have he := eflags_lt sys hok
  have hal := AL_lt sys.regs
  have himm := operand8_lt sys hok
  have hbit : (wide_diff (AL sys.regs) (operand8 sys)).testBit 15 = true ↔
      AL sys.regs < operand8 sys := by
    rw [← cmp_result_sign (AL sys.regs) (operand8 sys) hal himm]
    have h := and_bit_ne_zero (wide_diff (AL sys.regs) (operand8 sys)) 15
    norm_num at h
    unfold wide_diff at h ⊢
    rw [← h]
  have hsf : ∀ s' : system__s,
      s'.regs.eflags = cmp_flags sys.regs.eflags (AL sys.regs) (operand8 sys) →
      (SF s'.regs ↔ AL sys.regs < operand8 sys) ∧ (CF s'.regs ↔ AL sys.regs < operand8 sys) := by
    intro s' hs
    rw [SF_iff, CF_iff, hs]
    simp [cmp_flags_testBit _ _ _ 7 he hal himm, cmp_flags_testBit _ _ _ 0 he hal himm]
  refine ⟨⟨_, exec_cmp fuel sys hop, ?_, hbit, ?_⟩, by decide, by decide, by decide, ?_⟩
  · rw [hbit]
    exact (hsf _ rfl).1
  · rw [(hsf _ rfl).1, (hsf _ rfl).2]
  · rw [exec_cmp fuel cmp_sign_input (by decide)]
    decide

/-- C30 at a concrete state: `CMP AL, 00h` with `AL = 80h`. -/
theorem cmp_sign_flag_witness :
    (∃ sys', execute_instruction 0 cmp_sign_input = some (true, sys') ∧
      (SF sys'.regs ↔
        (wide_diff (AL cmp_sign_input.regs) (operand8 cmp_sign_input)).testBit 15 = true) ∧
      ((wide_diff (AL cmp_sign_input.regs) (operand8 cmp_sign_input)).testBit 15 = true ↔
        AL cmp_sign_input.regs < operand8 cmp_sign_input) ∧
      (SF sys'.regs ↔ CF sys'.regs)) ∧
    (AL cmp_sign_input.regs = 0x80 ∧ operand8 cmp_sign_input = 0x00 ∧
      (narrow_diff 0x80 0x00).testBit 7 = true ∧
      (execute_instruction 0 cmp_sign_input).map (fun p => decide (SF p.2.regs)) =
        some false) :=
  cmp_sign_flag 0 cmp_sign_input ⟨by decide, sample_mem_ok _ (by decide)⟩ (by decide)

/-- C31. PUSH AX / POP AX: `PUSH AX` (50) returns `true`, sets `SP` to
`(SP - 2) mod 2^16`, stores `AX` little-endian in the two bytes at
linear(SS, new SP), changes no other memory byte and no register other than
the stack pointer and the instruction pointer, which advances by 1; and when
the instruction at `CS:IP` of the resulting state is `POP AX` (58), that step
returns `true`, loads the value pushed into `AX` and restores `SP` to its value
before the `PUSH`. -/
theorem push_pop_ax (fuel : Nat) (sys : system__s) (hok : state_ok sys)
    (hop : opcode_at sys = 0x50) :
    ∃ s1, execute_instruction fuel sys = some (true, s1) ∧
      SP s1.regs = (SP sys.regs + 65536 - 2) % 65536 ∧
      s1.mem (seg_off_to_linear sys.regs.ss (SP s1.regs)) = AX sys.regs % 256 ∧
      s1.mem (seg_off_to_linear sys.regs.ss (SP s1.regs) + 1) = AX sys.regs / 256 ∧
      (∀ a, a ≠ seg_off_to_linear sys.regs.ss (SP s1.regs) →
        a ≠ seg_off_to_linear sys.regs.ss (SP s1.regs) + 1 → s1.mem a = sys.mem a) ∧
      s1.regs = { sys.regs with esp := s1.regs.esp, eip := s1.regs.eip } ∧
      s1.regs.eip = (sys.regs.eip + 1) % 4294967296 ∧
      IP s1.regs = (IP sys.regs + 1) % 65536 ∧
      (opcode_at s1 = 0x58 →
        ∃ s2, execute_instruction fuel s1 = some (true, s2) ∧
          AX s2.regs = AX sys.regs ∧ SP s2.regs = SP sys.regs ∧
          s2.regs = { s1.regs with eax := s2.regs.eax, esp := s2.regs.esp,
                                   eip := s2.regs.eip } ∧
          IP s2.regs = (IP s1.regs + 1) % 65536 ∧ s2.mem = s1.mem) := by
  have hax : sys.regs.eax < 2 ^ 32 := hok.1.1
  have hw := and_FFFF_lt sys.regs.eax
  obtain ⟨s1, h1, hr1, hm1⟩ := push_effect fuel sys hop
  have hesp : s1.regs.esp = ((sys.regs.esp + 4294967294) % 4294967296) &&& 0xFFFF := by
    rw [hr1]
  have heip : s1.regs.eip = (sys.regs.eip + 1) % 4294967296 := by rw [hr1]
  have hss : s1.regs.ss = sys.regs.ss := by rw [hr1]
  have e : SP s1.regs = s1.regs.esp := by
    unfold SP
    rw [hesp]
    simp only [and_FFFF]
    omega
  have hsp : SP s1.regs = (SP sys.regs + 65536 - 2) % 65536 := by
    unfold SP
    rw [hesp, sp_push]
    omega
  have hb := push_bytes sys.mem (seg_off_to_linear sys.regs.ss s1.regs.esp) sys.regs.eax
  refine ⟨s1, h1, hsp, ?_, ?_, ?_, ?_, heip, ?_, ?_⟩
  · rw [e, hm1, ← hesp]
    exact hb.1
  · rw [e, hm1, ← hesp]
    exact hb.2.1
  · intro a h0 h1'
    rw [e] at h0 h1'
    rw [hm1, ← hesp]
    exact set_word_other _ _ _ a h0 h1'
  · rw [hr1]
  · unfold IP
    rw [heip]
    exact ip_add sys.regs.eip 1
  · intro hpop
    obtain ⟨s2, h2, hr2, hm2⟩ := pop_effect fuel s1 hpop
    refine ⟨s2, h2, ?_, ?_, ?_, ?_, hm2⟩
    · have e2 : s1.regs.esp &&& 0xFFFF = s1.regs.esp := e
      unfold AX
      rw [hr2]
      simp only
      rw [e2, hm1, hss, ← hesp, get_word_set_word _ _ _ hw]
      have hax1 : s1.regs.eax = sys.regs.eax := by rw [hr1]
      rw [hax1]
      exact low_word_set_low _ _ hax hw
    · unfold SP
      rw [hr2]
      simp only
      rw [hesp]
      exact sp_push_pop sys.regs.esp
    · rw [hr2]
    · unfold IP
      rw [hr2]
      exact ip_add s1.regs.eip 1

/-- C31 at a concrete state: `PUSH AX; POP AX` (`50 58`) at `2000:0100` with
`AX = 1234h`: the bytes `34 12` land at `2000:FFFC`. -/
theorem push_pop_ax_witness :
    (execute_instruction 0 push_pop_ax_input).map
        (fun p => (p.1, SP p.2.regs, p.2.mem 0x2FFFC, p.2.mem 0x2FFFD)) =
      some (true, 0xFFFC, 0x34, 0x12) ∧
    ∃ s1, execute_instruction 0 push_pop_ax_input = some (true, s1) ∧
      SP s1.regs = (SP push_pop_ax_input.regs + 65536 - 2) % 65536 ∧
      (opcode_at s1 = 0x58 →
        ∃ s2, execute_instruction 0 s1 = some (true, s2) ∧
          AX s2.regs = AX push_pop_ax_input.regs ∧ SP s2.regs = SP push_pop_ax_input.regs) := by
  refine ⟨by decide, ?_⟩
  obtain ⟨s1, h1, hsp, -, -, -, -, -, -, hpop⟩ :=
    push_pop_ax 0 push_pop_ax_input ⟨by decide, sample_mem_ok _ (by decide)⟩ (by decide)
  refine ⟨s1, h1, hsp, fun h => ?_⟩
  obtain ⟨s2, h2, hax, hsp2, -⟩ := hpop h
  exact ⟨s2, h2, hax, hsp2⟩

/-- C32. mkfilename: for every FCB and every buffer, the loops of `mkfilename`
leave in the buffer, from index 0 on, the bytes of the 8-byte name field that
precede its first space (all 8 if it has none), then, if and only if the first
extension byte is not a space, a dot and the bytes of the 3-byte extension
field that precede its first space, then a NUL; the NUL is the last byte
written, at most 13 bytes are written, and every buffer cell from the length
of the name on, so every cell from index 13 on, is left as it was. The list
`mkfilename` that `open_file` works with is that name. -/
theorem mkfilename_bytes (fname mem : Nat → Nat) (fcb : Nat) :
    (mkfilename_buf fname mem fcb).1 + 1 = (file_name_spec mem fcb).length ∧
    (file_name_spec mem fcb).length ≤ 13 ∧
    (∀ k, k < (file_name_spec mem fcb).length →
      (mkfilename_buf fname mem fcb).2 k = (file_name_spec mem fcb).getD k 0) ∧
    (∀ k, (file_name_spec mem fcb).length ≤ k → (mkfilename_buf fname mem fcb).2 k = fname k) ∧
    mkfilename mem fcb = file_name_spec mem fcb ∧
    file_name_spec name_mem 0x2005C =
      [0x52, 0x41, 0x43, 0x54, 0x45, 0x52, 0x2E, 0x45, 0x58, 0x00] := by
  obtain ⟨h1, h13⟩ := file_name_spec_length mem fcb
  rw [mkfilename_buf_eq]
  refine ⟨by simp only; omega, h13, ?_, ?_, mkfilename_eq_spec mem fcb, by decide⟩
  · intro k hk
    have h := store_bytes_at fname 0 (file_name_spec mem fcb) k hk
    rw [Nat.zero_add] at h
    exact h
  · intro k hk
    exact store_bytes_other fname 0 _ k (fun i hi => by omega)

/-- C33 fails when all 16 slots are taken. Each slot 0..15 holds another FCB
pointer and an open stream, and slot index 16 of both arrays is beyond the
table. INT 21h AH=0F and AH=16 on the FCB at `2000:005C`, which is in no slot:
the free-slot loop of `open_file` ends with `i = 16`, no check follows, the
stream is stored in `fp[16]` and the pointer in `fcbs[16]`, and the call
returns `AL = 0`. -/
theorem open_file_slot_16 :
    (∀ i, i < 16 → ((full_table_input 0x0F).fcbs i).isSome = true ∧
      ((full_table_input 0x0F).fp i).isSome = true) ∧
    (full_table_input 0x0F).fcbs 16 = none ∧ ((full_table_input 0x0F).fp 16).isSome = false ∧
    find_fcb (full_table_input 0x0F) (ds_dx (full_table_input 0x0F)) = none ∧
    open_slot (full_table_input 0x0F) (ds_dx (full_table_input 0x0F)) false = 16 ∧
    open_slot (full_table_input 0x16) (ds_dx (full_table_input 0x16)) true = 16 ∧
    (dos_int21 1 (full_table_input 0x0F)).map
        (fun s => (AL s.regs, s.fcbs 16, (s.fp 16).isSome)) =
      some (0, some 0x2005C, true) ∧
    (dos_int21 1 (full_table_input 0x16)).map
        (fun s => (AL s.regs, s.fcbs 16, (s.fp 16).isSome)) =
      some (0, some 0x2005C, true) := by
  refine ⟨by decide, by decide, by decide, by decide, by decide, by decide, by decide, by decide⟩
end MsDos
